import Mathlib

/-!
# REPE rule engine: condition trees, rule parsing and rule evaluation

A shallow embedding of the condition interpreter of `repe_engine`
(`common/Event.h`, `rules/conditions/*.cpp`, `rules/Rule.cpp`,
`rules/RuleParser.cpp`, `rules/RuleManager.cpp`), of its event queue
(`core/EventQueue.h`), of its event processor (`core/EventProcessor.h`), of
its action factory, dispatcher and built-in actions (`actions/*.cpp`,
`action_dispatcher/ActionDispatcher.cpp`) and of the event queue of
`RuleEngine` (`RuleEngine/src/core/EventQueue.h`), together with the
properties established about them.

Conventions of the embedding:

* a C++ `int` is a Lean `Int` (its 32-bit range only matters where a wider
  JSON number is narrowed, see `toInt32`); the 64-bit counter of the ids wraps
  around, see `toInt64`;
* a C++ `double` is the type `Double` below: comparison of doubles and the
  conversion `static_cast<double>(int)` are exact operations, and only those
  are needed;
* `std::map<std::string, T>` is an association list read with `List.lookup`;
* a thrown exception is the `Except.error` case of `Except String`;
* a member function that changes its object returns the new object; a call
  made under the object's mutex is one atomic step;
* the file system and the text parser and serializer of the JSON library are
  arguments of the functions that use them;
* a loop without a bound on its rounds takes the number of evaluations of its
  condition that it may use and returns `none` when they do not suffice;
* diagnostic output on `std::cout` / `std::cerr` is not part of the model; the
  line that an action writes there is the result of its `execute`.
-/

namespace Repe

/-! ## Scalars -/

/-- A C++ `double`: not-a-number, a signed infinity, or the finite value
`(-1)^neg * m * 2^e`.  Both zeros are present (`fin false 0 e`, `fin true 0 e`). -/
inductive Double where
  | nan : Double
  | inf (neg : Bool) : Double
  | fin (neg : Bool) (m : Nat) (e : Int) : Double
  deriving DecidableEq, Repr

namespace Double

/-- The signed mantissa of a finite double rescaled to the exponent `lo ≤ e`. -/
def scaled (neg : Bool) (m : Nat) (e lo : Int) : Int :=
  (if neg then -(m : Int) else (m : Int)) * 2 ^ (e - lo).toNat

/-- IEEE `==` on doubles: false as soon as one side is NaN, `-0 == +0`. -/
def eq : Double → Double → Bool
  | nan, _ => false
  | _, nan => false
  | inf n₁, inf n₂ => n₁ == n₂
  | inf _, fin _ _ _ => false
  | fin _ _ _, inf _ => false
  | fin n₁ m₁ e₁, fin n₂ m₂ e₂ =>
      decide (scaled n₁ m₁ e₁ (min e₁ e₂) = scaled n₂ m₂ e₂ (min e₁ e₂))

/-- IEEE `<` on doubles: false as soon as one side is NaN. -/
def lt : Double → Double → Bool
  | nan, _ => false
  | _, nan => false
  | inf n₁, inf n₂ => n₁ && !n₂
  | inf n₁, fin _ _ _ => n₁
  | fin _ _ _, inf n₂ => !n₂
  | fin n₁ m₁ e₁, fin n₂ m₂ e₂ =>
      decide (scaled n₁ m₁ e₁ (min e₁ e₂) < scaled n₂ m₂ e₂ (min e₁ e₂))

/-- IEEE `<=` on doubles. -/
def le (a b : Double) : Bool := lt a b || eq a b

/-- The conversion `static_cast<double>(i)` of an `int`: exact, because every
32-bit integer is a binary64 value. -/
def ofInt (i : Int) : Double := fin (decide (i < 0)) i.natAbs 0

/-- The conversion `static_cast<double>(b)` of a `bool`. -/
def ofBool (b : Bool) : Double := fin false (if b then 1 else 0) 0

end Double

/-- The alternatives of `EventValue = std::variant<int, double, bool, std::string>`. -/
inductive Tag where
  | int | double | bool | string
  deriving DecidableEq, Repr

/-- The variant `EventValue` of `common/Event.h`. -/
inductive EventValue where
  | int (v : Int)
  | double (v : Double)
  | bool (v : Bool)
  | string (v : String)
  deriving DecidableEq, Repr

/-- The alternative held by a variant (`index()`). -/
def EventValue.tag : EventValue → Tag
  | .int _ => .int
  | .double _ => .double
  | .bool _ => .bool
  | .string _ => .string

/-- The struct `Event` of `common/Event.h`; `data` is the `std::map`. -/
structure Event where
  id : String
  type : String
  source : String
  timestamp : Nat
  data : List (String × EventValue)
  deriving DecidableEq, Repr

/-- The lookup `event.data.find(key)`; `none` stands for `event.data.end()`. -/
def Event.find (event : Event) (key : String) : Option EventValue :=
  event.data.lookup key

/-! ## Value leaves (`rules/conditions/ValueCondition.cpp`) -/

/-- A C++ type as the type traits of `compare` see it: an alternative `T` of the
variant, or the reference type `const T&`. -/
inductive CppType where
  | val (t : Tag)
  | constRef (t : Tag)
  deriving DecidableEq, Repr

/-- The type `decltype(arg)` of a visitor parameter declared `auto&& arg`.
`std::visit` is called on `const EventValue&` operands, so the visitor receives
an lvalue of type `const T`; the forwarding reference deduces `auto = const T&`
and the declared type of the parameter, which is what `decltype` of the
unparenthesised name yields, is the reference type `const T&`. -/
def decltypeOf (v : EventValue) : CppType := .constRef v.tag

/-- The trait `std::is_same_v<A, B>`. -/
def is_same_v (a b : CppType) : Bool := decide (a = b)

/-- The trait `std::is_arithmetic_v<A>`: true for the integral and floating-point
types `int`, `double`, `bool`; false for `std::string` and for every reference
type (a reference to an arithmetic type is not an arithmetic type). -/
def is_arithmetic_v : CppType → Bool
  | .val .int => true
  | .val .double => true
  | .val .bool => true
  | .val .string => false
  | .constRef _ => false

/-- The expression `arg_event == arg_rule` on two operands of one alternative. -/
def sameEq : EventValue → EventValue → Bool
  | .int a, .int b => decide (a = b)
  | .double a, .double b => Double.eq a b
  | .bool a, .bool b => decide (a = b)
  | .string a, .string b => decide (a = b)
  | _, _ => false

/-- The expression `arg_event < arg_rule` on two operands of one alternative
(`bool` operands are promoted to `int`; strings are ordered lexicographically,
which on UTF-8 text is the order of the bytes). -/
def sameLt : EventValue → EventValue → Bool
  | .int a, .int b => decide (a < b)
  | .double a, .double b => Double.lt a b
  | .bool a, .bool b => !a && b
  | .string a, .string b => decide (a < b)
  | _, _ => false

/-- The expression `arg_event <= arg_rule` on two operands of one alternative. -/
def sameLe : EventValue → EventValue → Bool
  | .int a, .int b => decide (a ≤ b)
  | .double a, .double b => Double.le a b
  | .bool a, .bool b => !a || b
  | .string a, .string b => decide (a ≤ b)
  | _, _ => false

/-- The conversion `static_cast<double>(arg)` of the mixed arithmetic branch.
The branch is never instantiated for a string; the value given for one is a
placeholder that no path of `compare` reads. -/
def toDouble : EventValue → Double
  | .int a => Double.ofInt a
  | .double a => a
  | .bool a => Double.ofBool a
  | .string _ => Double.nan

/-- The member `ValueCondition::compare`, with `op` for the member `op_`.
The three `if constexpr` tests are evaluated on `decltype(arg_event)` and
`decltype(arg_rule)` as the source writes them; every path that does not
return falls through to the final `return false`. -/
def ValueCondition.compare (op : String) (event_val rule_val : EventValue) : Bool :=
  if is_same_v (decltypeOf event_val) (decltypeOf rule_val) then
    if op = "==" then sameEq event_val rule_val
    else if op = "!=" then !sameEq event_val rule_val
    else if is_arithmetic_v (decltypeOf event_val)
        || is_same_v (decltypeOf event_val) (.val .string) then
      if op = ">" then sameLt rule_val event_val
      else if op = "<" then sameLt event_val rule_val
      else if op = ">=" then sameLe rule_val event_val
      else if op = "<=" then sameLe event_val rule_val
      else false
    else false
  else if is_arithmetic_v (decltypeOf event_val)
      && is_arithmetic_v (decltypeOf rule_val) then
    if op = "==" then Double.eq (toDouble event_val) (toDouble rule_val)
    else if op = "!=" then !Double.eq (toDouble event_val) (toDouble rule_val)
    else if op = ">" then Double.lt (toDouble rule_val) (toDouble event_val)
    else if op = "<" then Double.lt (toDouble event_val) (toDouble rule_val)
    else if op = ">=" then Double.le (toDouble rule_val) (toDouble event_val)
    else if op = "<=" then Double.le (toDouble event_val) (toDouble rule_val)
    else false
  else false

/-- The member `ValueCondition::evaluate`, with the members `key_`, `op_`,
`value_` as arguments. -/
def ValueCondition.evaluate (key op : String) (value : EventValue) (event : Event) : Bool :=
  match event.find key with
  | none => false
  | some event_val => ValueCondition.compare op event_val value

/-! ## Condition trees (`rules/conditions/LogicalConditions.cpp`) -/

/-- The class hierarchy under `ICondition`.  The children of `AndCondition` and
`OrCondition` are the `conditions_` vector; the child of `NotCondition` is the
`condition_` pointer, which may be null. -/
inductive ICondition where
  | ValueCondition (key_ op_ : String) (value_ : EventValue)
  | AndCondition (conditions_ : List ICondition)
  | OrCondition (conditions_ : List ICondition)
  | NotCondition (condition_ : Option ICondition)

mutual
/-- The virtual call `cond->evaluate(event)`. -/
def ICondition.evaluate : ICondition → Event → Bool
  | .ValueCondition key op value, event => ValueCondition.evaluate key op value event
  | .AndCondition conditions, event => AndCondition.evaluate conditions event
  | .OrCondition conditions, event => OrCondition.evaluate conditions event
  | .NotCondition condition, event => NotCondition.evaluate condition event
/-- The loop of `AndCondition::evaluate` over the remaining children. -/
def AndCondition.evaluate : List ICondition → Event → Bool
  | [], _ => true
  | cond :: rest, event =>
      if !(ICondition.evaluate cond event) then false
      else AndCondition.evaluate rest event
/-- The loop of `OrCondition::evaluate` over the remaining children. -/
def OrCondition.evaluate : List ICondition → Event → Bool
  | [], _ => false
  | cond :: rest, event =>
      if ICondition.evaluate cond event then true
      else OrCondition.evaluate rest event
/-- The member `NotCondition::evaluate`. -/
def NotCondition.evaluate : Option ICondition → Event → Bool
  | none, _ => true
  | some cond, event => !(ICondition.evaluate cond event)
end

/-! ## JSON values (`nlohmann::json`) -/

/-- A `nlohmann::json` value as a rule file or an event text can produce it.
Integers are stored as `number_integer` (`std::int64_t`) or `number_unsigned`
(`std::uint64_t`); an object is its member list, read with `List.lookup`. -/
inductive Json where
  | null
  | boolean (b : Bool)
  | number_integer (n : Int)
  | number_unsigned (n : Nat)
  | number_float (d : Double)
  | string (s : String)
  | array (elements : List Json)
  | object (members : List (String × Json))

namespace Json

/-- The member function `type_name()`. -/
def type_name : Json → String
  | null => "null"
  | boolean _ => "boolean"
  | number_integer _ => "number"
  | number_unsigned _ => "number"
  | number_float _ => "number"
  | string _ => "string"
  | array _ => "array"
  | object _ => "object"

/-- The conversion `get<std::string>()`, which throws `type_error.302` on a
value that is not a string. -/
def getString : Json → Except String String
  | string s => .ok s
  | j => .error ("[json.exception.type_error.302] type must be string, but is " ++ j.type_name)

end Json

/-- The narrowing `static_cast<int>(n)` of a 64-bit integer to a 32-bit `int`
that `get<int>()` performs: the value modulo `2^32`, in `[-2^31, 2^31)`. -/
def toInt32 (n : Int) : Int := (n + 2 ^ 31) % 2 ^ 32 - 2 ^ 31

/-! ## Rules (`rules/Rule.cpp`, `rules/RuleParser.cpp`, `rules/RuleManager.cpp`) -/

/-- The class `Rule`: `condition_root_` is a pointer that may be null. -/
structure Rule where
  id_ : String
  condition_root_ : Option ICondition
  actions_config_ : List Json

/-- The member `Rule::check`. -/
def Rule.check (rule : Rule) (event : Event) : Bool :=
  match rule.condition_root_ with
  | none => false
  | some root => root.evaluate event

/-- The conversion of the `"value"` member of a leaf into an `EventValue`
(the `is_number_integer` / `is_number_float` / `is_boolean` / `is_string`
chain of `parseCondition`). -/
def RuleParser.parseValue (key : String) : Json → Except String EventValue
  | .number_integer n => .ok (.int (toInt32 n))
  | .number_unsigned n => .ok (.int (toInt32 n))
  | .number_float d => .ok (.double d)
  | .boolean b => .ok (.bool b)
  | .string s => .ok (.string s)
  | _ => .error ("Unsupported value type in condition for key '" ++ key ++ "'.")

mutual
/-- The static member `RuleParser::parseCondition`. -/
def RuleParser.parseCondition : Json → Except String ICondition
  | .object members =>
    if (members.lookup "and").isSome then
      (RuleParser.parseArrayAt "and" "AND condition must be an array." members).map
        ICondition.AndCondition
    else if (members.lookup "or").isSome then
      (RuleParser.parseArrayAt "or" "OR condition must be an array." members).map
        ICondition.OrCondition
    else if (members.lookup "not").isSome then
      (RuleParser.parseObjectAt "not" "NOT condition must be an object." members).map
        (fun cond => ICondition.NotCondition (some cond))
    else
      match members.lookup "key", members.lookup "operator", members.lookup "value" with
      | some k, some o, some v => do
          let key ← k.getString
          let op ← o.getString
          let value ← RuleParser.parseValue key v
          pure (ICondition.ValueCondition key op value)
      | _, _, _ =>
          .error "Unknown condition type or missing required fields in condition JSON."
  | _ => .error "Condition JSON must be an object."
/-- The loop `for (sub_cond_json : ...) addCondition(parseCondition(sub_cond_json))`
over the remaining array elements; the first exception leaves the loop. -/
def RuleParser.parseConditions : List Json → Except String (List ICondition)
  | [] => .ok []
  | sub_cond_json :: rest => do
      let cond ← RuleParser.parseCondition sub_cond_json
      let conds ← RuleParser.parseConditions rest
      pure (cond :: conds)
/-- The member access `cond_json[key]` followed by the `is_array()` test and the
loop over the array: the first member named `key` is the one `operator[]` finds. -/
def RuleParser.parseArrayAt (key msg : String) :
    List (String × Json) → Except String (List ICondition)
  | [] => .error msg
  | (k, v) :: rest =>
    if key == k then
      match v with
      | .array elements => RuleParser.parseConditions elements
      | _ => .error msg
    else RuleParser.parseArrayAt key msg rest
/-- The member access `cond_json[key]` followed by the `is_object()` test and the
recursive call on the member. -/
def RuleParser.parseObjectAt (key msg : String) :
    List (String × Json) → Except String ICondition
  | [] => .error msg
  | (k, v) :: rest =>
    if key == k then
      match v with
      | .object inner => RuleParser.parseCondition (.object inner)
      | _ => .error msg
    else RuleParser.parseObjectAt key msg rest
end

/-- The loop of `RuleParser::parse` over the `"actions"` array: an element that
is an object is appended, any other element is skipped. -/
def RuleParser.parseActions : List Json → List Json
  | [] => []
  | .object members :: rest => .object members :: RuleParser.parseActions rest
  | _ :: rest => RuleParser.parseActions rest

/-- The first step of `RuleParser::parse`: the call
`rule_json.value("id", "unknown_rule")`, which converts a present member with
`get<std::string>()`, and so throws on an `"id"` that is not a string, and
yields the default when the member is absent. -/
def RuleParser.ruleId (members : List (String × Json)) : Except String String :=
  match members.lookup "id" with
  | some j => j.getString
  | none => .ok "unknown_rule"

/-- The second step of `RuleParser::parse`: the `"condition"` member is parsed
when it is present and an object; otherwise the rule is rejected. -/
def RuleParser.ruleCondition (id : String) (members : List (String × Json)) :
    Except String ICondition :=
  match members.lookup "condition" with
  | some (.object inner) => RuleParser.parseCondition (.object inner)
  | _ => .error ("Rule '" ++ id ++ "' JSON missing 'condition' field or it's not an object.")

/-- The third step of `RuleParser::parse`: the objects of the `"actions"` array,
or no action when the member is absent or not an array. -/
def RuleParser.ruleActions (members : List (String × Json)) : List Json :=
  match members.lookup "actions" with
  | some (.array elements) => RuleParser.parseActions elements
  | _ => []

/-- The static member `RuleParser::parse`. -/
def RuleParser.parse : Json → Except String Rule
  | .object members => do
      let id ← RuleParser.ruleId members
      let condition ← RuleParser.ruleCondition id members
      pure ⟨id, some condition, RuleParser.ruleActions members⟩
  | _ => .error "Rule JSON must be an object."

/-- The member `RuleManager::evaluate` on the loaded rule list `rules_`: the
outer loop visits the rules in order, the inner loop appends the action
configurations of a matching rule to `triggered_actions` one by one. -/
def RuleManager.evaluate (rules_ : List Rule) (event : Event) : List Json :=
  rules_.foldl (fun triggered_actions rule =>
    if rule.check event then
      rule.actions_config_.foldl (fun acc action_cfg => acc ++ [action_cfg])
        triggered_actions
    else triggered_actions) []

/-! ## Reference semantics

The leaf comparison and the meaning of a condition JSON as the specification
words them, to be compared with the code above. -/

namespace Spec

/-- Reference semantics, in the specification's words: two floats compared
under one of the six operators; any other operator string gives false. -/
def doubleOp (op : String) (a b : Double) : Bool :=
  if op = "==" then Double.eq a b
  else if op = "!=" then !Double.eq a b
  else if op = ">" then Double.lt b a
  else if op = "<" then Double.lt a b
  else if op = ">=" then Double.le b a
  else if op = "<=" then Double.le a b
  else false

/-- Reference semantics, in the specification's words: two integers compared
under one of the six operators. -/
def intOp (op : String) (a b : Int) : Bool :=
  if op = "==" then decide (a = b)
  else if op = "!=" then decide (a ≠ b)
  else if op = ">" then decide (a > b)
  else if op = "<" then decide (a < b)
  else if op = ">=" then decide (a ≥ b)
  else if op = "<=" then decide (a ≤ b)
  else false

/-- Reference semantics, in the specification's words: two strings compared
under one of the six operators, the order being lexicographic. -/
def stringOp (op : String) (a b : String) : Bool :=
  if op = "==" then decide (a = b)
  else if op = "!=" then decide (a ≠ b)
  else if op = ">" then decide (a > b)
  else if op = "<" then decide (a < b)
  else if op = ">=" then decide (a ≥ b)
  else if op = "<=" then decide (a ≤ b)
  else false

/-- Reference semantics, in the specification's words: the type matrix of a
leaf.  Same tag: direct comparison (on booleans only `==` and `!=`); integer
with float: promote the integer to float, then compare; every other pair: false. -/
def compare (op : String) : EventValue → EventValue → Bool
  | .int a, .int b => intOp op a b
  | .double a, .double b => doubleOp op a b
  | .string a, .string b => stringOp op a b
  | .bool a, .bool b =>
      if op = "==" then decide (a = b) else if op = "!=" then decide (a ≠ b) else false
  | .int a, .double b => doubleOp op (Double.ofInt a) b
  | .double a, .int b => doubleOp op a (Double.ofInt b)
  | _, _ => false

/-- Reference semantics, in the specification's words: the scalar a JSON
`"value"` stands for (integer, float, boolean or string, each with its own value). -/
def scalar : Json → Option EventValue
  | .number_integer n => some (.int n)
  | .number_unsigned n => some (.int n)
  | .number_float d => some (.double d)
  | .boolean b => some (.bool b)
  | .string s => some (.string s)
  | _ => none

/-- Reference semantics, in the specification's words: a key/operator/value
object means the comparison of `event.data[key]` with the value under the
operator, and false when the key is absent. -/
def leaf (key op : String) (value : Json) (event : Event) : Bool :=
  match event.find key, scalar value with
  | some lhs, some rhs => compare op lhs rhs
  | _, _ => false

mutual
/-- Reference semantics, in the specification's words, for a given meaning
`leafMeaning` of the key/operator/value objects: an `"and"` array means the
conjunction of its elements' meanings, an `"or"` array their disjunction, a
`"not"` object the negation of its meaning; the keys are looked for in the
order `"and"`, `"or"`, `"not"`, leaf. -/
def meaningWith (leafMeaning : String → String → Json → Event → Bool) :
    Json → Event → Bool
  | .object members, event =>
    if (members.lookup "and").isSome then
      (meaningsAt leafMeaning "and" members event).all id
    else if (members.lookup "or").isSome then
      (meaningsAt leafMeaning "or" members event).any id
    else if (members.lookup "not").isSome then
      !(meaningAt leafMeaning "not" members event)
    else
      match members.lookup "key", members.lookup "operator", members.lookup "value" with
      | some (.string key), some (.string op), some value => leafMeaning key op value event
      | _, _, _ => false
  | _, _ => false
/-- The meanings of the elements of an array. -/
def meanings (leafMeaning : String → String → Json → Event → Bool) :
    List Json → Event → List Bool
  | [], _ => []
  | j :: rest, event => meaningWith leafMeaning j event :: meanings leafMeaning rest event
/-- The meanings of the elements of the array member `key` of an object. -/
def meaningsAt (leafMeaning : String → String → Json → Event → Bool) (key : String) :
    List (String × Json) → Event → List Bool
  | [], _ => []
  | (k, v) :: rest, event =>
    if key == k then
      match v with
      | .array elements => meanings leafMeaning elements event
      | _ => []
    else meaningsAt leafMeaning key rest event
/-- The meaning of the member `key` of an object. -/
def meaningAt (leafMeaning : String → String → Json → Event → Bool) (key : String) :
    List (String × Json) → Event → Bool
  | [], _ => false
  | (k, v) :: rest, event =>
    if key == k then meaningWith leafMeaning v event
    else meaningAt leafMeaning key rest event
end

/-- Reference semantics, in the specification's words: the meaning of a
condition JSON on an event, its leaves compared by the type matrix. -/
def meaning (cond_json : Json) (event : Event) : Bool :=
  meaningWith leaf cond_json event

end Spec

/-- The result of evaluating the leaf that `parseCondition` builds from the
strings `key`, `op` and the JSON `value` (false when the value is rejected). -/
def RuleParser.leafResult (key op : String) (value : Json) (event : Event) : Bool :=
  match RuleParser.parseValue key value with
  | .ok lit => ValueCondition.evaluate key op lit event
  | .error _ => false

/-! ## Rules and events of the test suite and of the specification's scenarios -/

/-- A leaf object `{"key": key, "operator": op, "value": value}`. -/
def leafJson (key op : String) (value : Json) : Json :=
  .object [("key", .string key), ("operator", .string op), ("value", value)]

/-- An event with the given data (the tests fill only `data`). -/
def eventWith (data : List (String × EventValue)) : Event :=
  ⟨"evt_0", "test_event", "test", 0, data⟩

/-- The double `30.5`, that is `61 * 2^(-1)`. -/
def thirtyAndAHalf : Double := Double.fin false 61 (-1)

/-- The condition JSON of the test `ParseNestedConditionsRule`. -/
def nestedConditionJson : Json :=
  .object [("and", .array [
    leafJson "level" ">" (.number_unsigned 5),
    .object [("or", .array [
      leafJson "type" "==" (.string "critical"),
      leafJson "severity" ">=" (.number_unsigned 8)])]])]

/-- The rule JSON of the test `ParseNestedConditionsRule`. -/
def nestedRuleJson : Json :=
  .object [("id", .string "nested_rule"), ("condition", nestedConditionJson),
    ("actions", .array [])]

/-- The event `event1` of the test `ParseNestedConditionsRule`. -/
def nestedEvent1 : Event :=
  eventWith [("level", .int 10), ("type", .string "critical"), ("severity", .int 5)]


/-- The event of the test `ParseNotConditionRule` that has no data. -/
def emptyEvent : Event := eventWith []

/-- The event of the missing-key scenario: only a temperature reading. -/
def temperatureOnlyEvent : Event := eventWith [("temperature", .int 20)]

/-- The event `event1` of the test `ParseAndConditionRule`. -/
def hotDryEvent : Event := eventWith [("temperature", .int 35), ("humidity", .int 45)]

/-- The event of the type-coercion scenario: a float temperature of `30.5`. -/
def floatTemperatureEvent : Event := eventWith [("temperature", .double thirtyAndAHalf)]

/-- The condition JSON of the test `ParseAndConditionRule`. -/
def andConditionJson : Json :=
  .object [("and", .array [
    leafJson "temperature" ">" (.number_unsigned 30),
    leafJson "humidity" "<" (.number_unsigned 50)])]

/-- The rule JSON of the test `ParseAndConditionRule`. -/
def andRuleJson : Json :=
  .object [("id", .string "complex_alert"), ("condition", andConditionJson),
    ("actions", .array [])]

/-- The tag pairs the type matrix leaves undefined: a string with an integer, a
float or a boolean, and a boolean with an integer or a float, in either order. -/
def undefinedPair : Tag → Tag → Bool
  | .string, .int | .int, .string => true
  | .string, .double | .double, .string => true
  | .string, .bool | .bool, .string => true
  | .int, .bool | .bool, .int => true
  | .double, .bool | .bool, .double => true
  | _, _ => false

/-- A log action configuration `{"type": "log", "message": message}`. -/
def logActionJson (message : String) : Json :=
  .object [("type", .string "log"), ("message", .string message)]

/-- Two loaded rules: `temperature == 35` with one action, then
`status == "ERROR"` with two actions. -/
def scenarioRules : List Rule :=
  [⟨"temp_rule", some (.ValueCondition "temperature" "==" (.int 35)),
      [logActionJson "temperature is 35"]⟩,
    ⟨"status_rule", some (.ValueCondition "status" "==" (.string "ERROR")),
      [logActionJson "status is ERROR", logActionJson "second action"]⟩]

/-- An event whose `status` is the string `ERROR`. -/
def statusErrorEvent : Event := eventWith [("status", .string "ERROR")]

/-! ## Event fields from JSON (`core/EventProcessor.h`) -/

/-- The assignment `data[key] = value` on a `std::map`: the entry of `key` is
replaced when there is one and added otherwise. -/
def mapAssign (data : List (String × EventValue)) (key : String) (value : EventValue) :
    List (String × EventValue) :=
  match data with
  | [] => [(key, value)]
  | (k, v) :: rest =>
    if key == k then (key, value) :: rest else (k, v) :: mapAssign rest key value

/-- The conversion chain of the field loop of `processRawJsonData`
(`is_number_integer` / `is_number_float` / `is_boolean` / `is_string`, and
`dump()` for every other value); `dump` is the serializer of the JSON library. -/
def EventProcessor.fieldValue (dump : Json → String) : Json → EventValue
  | .number_integer n => .int (toInt32 n)
  | .number_unsigned n => .int (toInt32 n)
  | .number_float d => .double d
  | .boolean b => .bool b
  | .string s => .string s
  | j => .string (dump j)

/-- The test of the field loop for the members it skips:
`key == "type" || key == "_source_id" || key == "_timestamp"`. -/
def EventProcessor.isReservedKey (key : String) : Bool :=
  key == "type" || key == "_source_id" || key == "_timestamp"

/-- The field loop of `processRawJsonData` over the members of the parsed
object: the members `type`, `_source_id` and `_timestamp` are skipped, every
other member is converted and assigned to `event.data`. -/
def EventProcessor.mapFields (dump : Json → String) :
    List (String × Json) → List (String × EventValue) → List (String × EventValue)
  | [], data => data
  | (key, value) :: rest, data =>
    if EventProcessor.isReservedKey key then
      EventProcessor.mapFields dump rest data
    else
      EventProcessor.mapFields dump rest
        (mapAssign data key (EventProcessor.fieldValue dump value))

/-! ## Loading rules (`rules/RuleManager.cpp`) -/

/-- The loop of `RuleManager::loadRules` over the elements of the array: a
parsed rule is appended to `new_rules`; an element on which `RuleParser::parse`
throws is skipped by the `catch` and the loop goes on. -/
def RuleManager.loadLoop : List Json → List Rule → List Rule
  | [], new_rules => new_rules
  | rule_json :: rest, new_rules =>
    match RuleParser.parse rule_json with
    | .ok rule => RuleManager.loadLoop rest (new_rules ++ [rule])
    | .error _ => RuleManager.loadLoop rest new_rules

/-- The member `RuleManager::loadRules` on the rule list `rules_`.  The file
system is `openFile` (the text of the file at a path, `none` when it cannot be
opened) and `parseText` is the parser of the JSON library (`file >> rules_json`).
The result is the outcome of the call, an error standing for the thrown
`std::runtime_error`, together with the rule list after the call. -/
def RuleManager.loadRules (openFile : String → Option String)
    (parseText : String → Except String Json) (config_path : String)
    (rules_ : List Rule) : Except String Unit × List Rule :=
  match openFile config_path with
  | none => (.error ("Could not open rules configuration file: " ++ config_path), rules_)
  | some text =>
    match parseText text with
    | .error what =>
        (.error ("Failed to parse rules JSON from " ++ config_path ++ ": " ++ what), rules_)
    | .ok (.array elements) => (.ok (), RuleManager.loadLoop elements [])
    | .ok _ => (.error "Rules configuration must be a JSON array of rules.", rules_)

/-- The member `RuleManager::getRulesCount`. -/
def RuleManager.getRulesCount (rules_ : List Rule) : Nat := rules_.length

/-! ## Event queue (`core/EventQueue.h`) -/

/-- The class `EventQueue`: `queue_` is the `std::queue`, its front at the head
of the list.  Every member function holds `mutex_` for its whole body, so a
call is one atomic step on this state. -/
structure EventQueue where
  queue_ : List Event
  deriving DecidableEq, Repr

namespace EventQueue

/-- The default-constructed, empty queue. -/
def initial : EventQueue := ⟨[]⟩

/-- The member `push`. -/
def push (q : EventQueue) (event : Event) : EventQueue := ⟨q.queue_ ++ [event]⟩

/-- The member `pop`: on an empty queue the call waits on the condition
variable and does not return in this state (`none`); otherwise it returns the
front event and the queue without it. -/
def pop (q : EventQueue) : Option (Event × EventQueue) :=
  match q.queue_ with
  | [] => none
  | event :: rest => some (event, ⟨rest⟩)

/-- The member `tryPop`: `std::nullopt` on an empty queue, otherwise the front
event; the second component is the queue after the call. -/
def tryPop (q : EventQueue) : Option Event × EventQueue :=
  match q.queue_ with
  | [] => (none, q)
  | event :: rest => (some event, ⟨rest⟩)

/-- The member `isEmpty`. -/
def isEmpty (q : EventQueue) : Bool := q.queue_.isEmpty

/-- The member `size`. -/
def size (q : EventQueue) : Nat := q.queue_.length

end EventQueue

/-- One call on the queue. -/
inductive QueueOp where
  | push (event : Event)
  | pop
  | tryPop
  deriving DecidableEq, Repr

/-- The event a call pushes, if it is a `push`. -/
def QueueOp.pushedEvent : QueueOp → Option Event
  | .push event => some event
  | .pop => none
  | .tryPop => none

/-- The queue together with the history of a run: the events pushed so far, in
push order, and the events returned so far by `pop` and `tryPop`, in the order
of the returns. -/
structure QueueRun where
  queue : EventQueue
  pushed : List Event
  returned : List Event
  deriving DecidableEq, Repr

namespace QueueRun

/-- The run before any call, on the empty queue. -/
def initial : QueueRun := ⟨EventQueue.initial, [], []⟩

/-- One atomic call.  A `pop` is a step only on a non-empty queue: on an empty
queue it has not returned yet (`none`). -/
def step (r : QueueRun) : QueueOp → Option QueueRun
  | .push event => some ⟨r.queue.push event, r.pushed ++ [event], r.returned⟩
  | .pop =>
    match r.queue.pop with
    | none => none
    | some (event, q) => some ⟨q, r.pushed, r.returned ++ [event]⟩
  | .tryPop =>
    match r.queue.tryPop with
    | (none, q) => some ⟨q, r.pushed, r.returned⟩
    | (some event, q) => some ⟨q, r.pushed, r.returned ++ [event]⟩

/-- A finite sequence of atomic calls, from left to right. -/
def run : List QueueOp → QueueRun → Option QueueRun
  | [], r => some r
  | op :: ops, r =>
    match r.step op with
    | none => none
    | some r1 => run ops r1

end QueueRun

/-- The event of the test `PushAndPopSingleEvent`. -/
def queueTestEvent : Event :=
  ⟨"test_1", "simple_test", "unittest", 0, [("value", .int 123)]⟩

/-- The test `is_object()`. -/
def Json.isObject : Json → Bool
  | .object _ => true
  | _ => false

/-- A rule object whose `"id"` is the number 5 and whose condition is the leaf
`a == 1`. -/
def numericIdRuleJson : Json :=
  .object [("id", .number_unsigned 5), ("condition", leafJson "a" "==" (.number_unsigned 1))]

/-- The file system of the load scenarios: `rules.json` holds a text, no other
path can be opened. -/
def scenarioFiles (path : String) : Option String :=
  if path = "rules.json" then some "rules" else none

/-- The parser of the load scenarios: the text `rules` is an array of three
elements, the rule of the test `ParseAndConditionRule`, a number, and the rule
of the test `ParseNestedConditionsRule`; any other text is not JSON. -/
def scenarioParser (text : String) : Except String Json :=
  if text = "rules" then .ok (.array [andRuleJson, .number_unsigned 7, nestedRuleJson])
  else .error "parse error"

/-- The six comparison operators of the specification. -/
def knownOperators : List String := ["==", "!=", ">", "<", ">=", "<="]

/-! ## Event processor (`core/EventProcessor.h`, `generateUniqueId` of `common/Event.h`) -/

/-- The value a `long long` holds after an arithmetic result `n`: the result
modulo `2^64`, in `[-2^63, 2^63)` (arithmetic on `std::atomic<long long>` is
two's complement and has no undefined results). -/
def toInt64 (n : Int) : Int := (n + 2 ^ 63) % 2 ^ 64 - 2 ^ 63

/-- The function `generateUniqueId` on the value of its static counter, a
`std::atomic<long long>` that starts at 0: the id
`"evt_" + std::to_string(counter++)` and the counter after the increment. -/
def generateUniqueId (counter : Int) : String × Int :=
  ("evt_" ++ toString counter, toInt64 (counter + 1))

/-- The state an `EventProcessor` acts on: the queue that `event_queue_` refers
to and the static counter of `generateUniqueId`. -/
structure EventProcessor where
  event_queue_ : EventQueue
  counter : Int

namespace EventProcessor

/-- The member `processRawData`, with the value already converted to an
`EventValue` and the clock reading `now`: the event is built and pushed. -/
def processRawData (now : Nat) (p : EventProcessor) (source_id event_type : String)
    (data_value : EventValue) (data_key : String) : EventProcessor :=
  ⟨p.event_queue_.push
      ⟨(generateUniqueId p.counter).1, event_type, source_id, now,
        mapAssign [] data_key data_value⟩,
    (generateUniqueId p.counter).2⟩

/-- The call `json_obj.value("type", "generic_json_event")`: on an object the
`"type"` member converted with `get<std::string>()`, which throws
`type_error.302` when the member is not a string, or the default when there is
no such member; on any other JSON value `type_error.306` is thrown. -/
def jsonEventType : Json → Except String String
  | .object members =>
    match members.lookup "type" with
    | some j => j.getString
    | none => .ok "generic_json_event"
  | j => .error ("[json.exception.type_error.306] cannot use value() with " ++ j.type_name)

/-- The members of a JSON value that `begin()` .. `end()` visit with a key. -/
def jsonMembers : Json → List (String × Json)
  | .object members => members
  | _ => []

/-- The member `processRawJsonData`.  `parseText` is `nlohmann::json::parse`
and `dump` the serializer of the JSON library, `now` the clock reading.  The
id is generated before the `try` block; a parse error, and any exception
thrown while the type is read, is caught and leaves the queue as it is. -/
def processRawJsonData (parseText : String → Except String Json) (dump : Json → String)
    (now : Nat) (p : EventProcessor) (source_id raw_json_string : String) : EventProcessor :=
  match parseText raw_json_string with
  | .error _ => ⟨p.event_queue_, (generateUniqueId p.counter).2⟩
  | .ok json_obj =>
    match jsonEventType json_obj with
    | .error _ => ⟨p.event_queue_, (generateUniqueId p.counter).2⟩
    | .ok type =>
      ⟨p.event_queue_.push
          ⟨(generateUniqueId p.counter).1, type, source_id, now,
            mapFields dump (jsonMembers json_obj) []⟩,
        (generateUniqueId p.counter).2⟩

/-- The field loop of `processStructuredData`: every member is converted and
assigned to `event.data`; no member is skipped. -/
def mapStructuredFields (dump : Json → String) :
    List (String × Json) → List (String × EventValue) → List (String × EventValue)
  | [], data => data
  | (key, value) :: rest, data =>
    mapStructuredFields dump rest (mapAssign data key (fieldValue dump value))

/-- The member `processStructuredData`, with `j_data` the JSON value that the
structured data converts to: an event is pushed when `j_data` is an object;
otherwise the thrown `std::runtime_error` is caught and the queue is left as
it is. -/
def processStructuredData (dump : Json → String) (now : Nat) (p : EventProcessor)
    (source_id event_type : String) (j_data : Json) : EventProcessor :=
  match j_data with
  | .object members =>
    ⟨p.event_queue_.push
        ⟨(generateUniqueId p.counter).1, event_type, source_id, now,
          mapStructuredFields dump members []⟩,
      (generateUniqueId p.counter).2⟩
  | _ => ⟨p.event_queue_, (generateUniqueId p.counter).2⟩

end EventProcessor

/-! ## Action factory and dispatcher (`actions/ActionFactory.cpp`,
`action_dispatcher/ActionDispatcher.cpp`) -/

namespace ActionFactory

/-- The type `ActionCreator`: a function from the configuration to the created
command, or to the exception it throws.  The type `Action` of the commands is
a parameter. -/
abbrev ActionCreator (Action : Type) : Type := Json → Except String Action

/-- The member `registerAction` on the static map `creators_`: the assignment
`creators_[type_name] = creator`. -/
def registerAction {Action : Type} (creators_ : List (String × ActionCreator Action))
    (type_name : String) (creator : ActionCreator Action) :
    List (String × ActionCreator Action) :=
  match creators_ with
  | [] => [(type_name, creator)]
  | (name, c) :: rest =>
    if type_name == name then (type_name, creator) :: rest
    else (name, c) :: registerAction rest type_name creator

/-- The member `createAction` on the static map `creators_`. -/
def createAction {Action : Type} (creators_ : List (String × ActionCreator Action))
    (action_config : Json) : Except String Action :=
  match action_config with
  | .object members =>
    match members.lookup "type" with
    | some (.string action_type) =>
      match creators_.lookup action_type with
      | some creator => creator action_config
      | none => .error ("Unknown action type: " ++ action_type)
    | _ => .error "Action config must contain a 'type' string."
  | _ => .error "Action config must contain a 'type' string."

end ActionFactory

/-- The class `ThreadPool` as far as `enqueue` goes: the task queue `tasks_`
and the flag `stop_`.  A task is the closure that calls `action->execute(event)`,
kept as the pair of its action and its event.  The worker threads, which only
take tasks from the front, are not part of the model: `tasks_` keeps every
submitted task in the order of submission. -/
structure ThreadPool (Action : Type) where
  tasks_ : List (Action × Event)
  stop_ : Bool

/-- The member `ThreadPool::enqueue`: it throws on a stopped pool and appends
the task otherwise. -/
def ThreadPool.enqueue {Action : Type} (pool : ThreadPool Action) (task : Action × Event) :
    Except String (ThreadPool Action) :=
  if pool.stop_ then .error "enqueue on stopped ThreadPool"
  else .ok ⟨pool.tasks_ ++ [task], pool.stop_⟩

/-- The member `ActionDispatcher::dispatch` on the pool `action_thread_pool_`:
for every configuration the action is created and enqueued; an exception of
either step is caught and the loop goes on with the next configuration. -/
def ActionDispatcher.dispatch {Action : Type}
    (creators_ : List (String × ActionFactory.ActionCreator Action)) :
    ThreadPool Action → List Json → Event → ThreadPool Action
  | pool, [], _ => pool
  | pool, action_cfg :: rest, event =>
    match ActionFactory.createAction creators_ action_cfg with
    | .ok action =>
      match pool.enqueue (action, event) with
      | .ok pool1 => ActionDispatcher.dispatch creators_ pool1 rest event
      | .error _ => ActionDispatcher.dispatch creators_ pool rest event
    | .error _ => ActionDispatcher.dispatch creators_ pool rest event
/-! ## Placeholder substitution (`actions/LogAction.cpp`, `actions/ShellCommandAction.cpp`)

A `std::string` is a list of characters here, one `Char` for one `char`, so
that positions and lengths are those of the source. -/

/-- The index of the first occurrence of a character in a text. -/
def charIndex (c : Char) : List Char → Option Nat
  | [] => none
  | x :: xs => if x = c then some 0 else (charIndex c xs).map (fun i => i + 1)

/-- The call `s.find(c, pos)` for a one-character pattern: the first index from
`pos` on that holds `c`; `none` stands for `std::string::npos`. -/
def stringFind (c : Char) (s : List Char) (pos : Nat) : Option Nat :=
  (charIndex c (s.drop pos)).map (fun i => pos + i)

/-- The call `s.substr(pos, len)`. -/
def stringSubstr (s : List Char) (pos len : Nat) : List Char :=
  (s.drop pos).take len

/-- The call `s.replace(pos, len, str)`. -/
def stringReplace (s : List Char) (pos len : Nat) (str : List Char) : List Char :=
  s.take pos ++ str ++ s.drop (pos + len)

/-- The visitor of `formatMessage` and of `formatCommand` that turns the found
value into text.  Its `if constexpr` chain compares `decltype(arg)`, the type
of a parameter declared `auto&& arg`, with `int`, `double`, `bool` and
`std::string`; a branch that is not taken falls through to the final `return`.
`double_to_string` is `std::to_string` on a `double`. -/
def placeholderValueText (double_to_string : Double → String) (arg : EventValue) : String :=
  if is_same_v (decltypeOf arg) (.val .int) then
    match arg with
    | .int n => toString n
    | _ => "[Unsupported Type]"
  else if is_same_v (decltypeOf arg) (.val .double) then
    match arg with
    | .double d => double_to_string d
    | _ => "[Unsupported Type]"
  else if is_same_v (decltypeOf arg) (.val .bool) then
    match arg with
    | .bool b => if b then "true" else "false"
    | _ => "[Unsupported Type]"
  else if is_same_v (decltypeOf arg) (.val .string) then
    match arg with
    | .string s => s
    | _ => "[Unsupported Type]"
  else "[Unsupported Type]"

/-- The `while` loop of `formatMessage` (and, word for word, of
`formatCommand`) on the variables `result` and `start_pos`, run for at most
`fuel` evaluations of the loop condition; `none` when they do not suffice. -/
def placeholderLoop (double_to_string : Double → String) (event : Event) :
    Nat → List Char → Nat → Option (List Char)
  | 0, _, _ => none
  | fuel + 1, result, start_pos =>
    match stringFind '\x7b' result start_pos with
    | none => some result
    | some start_pos =>
      match stringFind '\x7d' result start_pos with
      | none => some result
      | some end_pos =>
        if end_pos > start_pos then
          match event.find (String.mk (stringSubstr result (start_pos + 1)
              (end_pos - start_pos - 1))) with
          | some value =>
            placeholderLoop double_to_string event fuel
              (stringReplace result start_pos (end_pos - start_pos + 1)
                (placeholderValueText double_to_string value).data)
              (start_pos + (placeholderValueText double_to_string value).data.length)
          | none =>
            placeholderLoop double_to_string event fuel
              (stringReplace result start_pos (end_pos - start_pos + 1)
                ("[MISSING_".data ++ stringSubstr result (start_pos + 1)
                  (end_pos - start_pos - 1) ++ "]".data))
              (end_pos + 1)
        else some result

/-- The number of evaluations of the loop condition granted to a template: one
more than its opening braces (every replacement removes the opening brace it
starts at from the text still to be searched). -/
def placeholderFuel (template : List Char) : Nat := template.count '\x7b' + 1

/-- The member `LogAction::formatMessage`, with `message_template_` as an
argument; `none` when the granted evaluations of the loop condition do not
suffice. -/
def LogAction.formatMessage (double_to_string : Double → String) (message_template_ : String)
    (event : Event) : Option String :=
  (placeholderLoop double_to_string event (placeholderFuel message_template_.data)
    message_template_.data 0).map String.mk

/-- The member `ShellCommandAction::formatCommand`, with `command_template_`
as an argument: the same loop on the command template. -/
def ShellCommandAction.formatCommand (double_to_string : Double → String)
    (command_template_ : String) (event : Event) : Option String :=
  (placeholderLoop double_to_string event (placeholderFuel command_template_.data)
    command_template_.data 0).map String.mk

namespace Spec

/-- Reference semantics, in the specification's words: the text of a scalar
(decimal for an integer, the decimal text `double_to_string` gives for a float,
`true` or `false` for a boolean, the string itself for a string). -/
def text (double_to_string : Double → String) : EventValue → String
  | .int n => toString n
  | .double d => double_to_string d
  | .bool b => if b then "true" else "false"
  | .string s => s

end Spec

/-- A stand-in for `std::to_string` on a `double`, for the evaluations below in
which no float is converted. -/
def noDoubleText (_d : Double) : String := ""

/-- An event whose `value` is the integer 5. -/
def valueFiveEvent : Event := eventWith [("value", .int 5)]

/-- A stand-in for the parser of the JSON library that reads the text
`null_field` as the object with the one member `a`, a null, the text
`numeric_type` as the object whose `"type"` is the number 5 and whose `a` is 1,
the text `reading` as a sensor reading with the members `_source_id`, `count`,
`temperature` and `type`, and rejects every other text. -/
def processorParser (text : String) : Except String Json :=
  if text = "null_field" then .ok (.object [("a", .null)])
  else if text = "numeric_type" then
    .ok (.object [("a", .number_unsigned 1), ("type", .number_unsigned 5)])
  else if text = "reading" then
    .ok (.object [("_source_id", .string "s1"), ("count", .number_unsigned 3),
      ("temperature", .number_float thirtyAndAHalf), ("type", .string "sensor_reading")])
  else .error "parse error"

/-- A stand-in for the serializer of the JSON library on the values met below:
the text of a null is `null`. -/
def processorDump : Json → String
  | .null => "null"
  | _ => ""

/-- An event processor on the empty queue, before any id was generated. -/
def freshProcessor : EventProcessor := ⟨EventQueue.initial, 0⟩

/-- The event pushed for the text `reading` by a fresh processor. -/
def readingEvent : Event :=
  ⟨"evt_0", "sensor_reading", "src", 7,
    [("count", .int 3), ("temperature", .double thirtyAndAHalf)]⟩

/-- A creator that stands for the one registered under `log`: the created
command is represented by its message; a configuration without a string
`"message"` is rejected. -/
def logCreator : ActionFactory.ActionCreator String
  | .object members =>
    match members.lookup "message" with
    | some (.string message) => .ok ("log: " ++ message)
    | _ => .error "LogAction config must contain a 'message' string."
  | _ => .error "LogAction config must contain a 'message' string."

/-- A registry with the one kind `log`. -/
def scenarioCreators : List (String × ActionFactory.ActionCreator String) :=
  ActionFactory.registerAction [] "log" logCreator

/-- The configuration of the test `CreateUnknownActionType`. -/
def unknownActionJson : Json :=
  .object [("type", .string "unknown_action"), ("message", .string "Some data")]

/-! ## Built-in actions (`actions/LogAction.cpp`, `actions/HttpAction.cpp`,
`actions/ShellCommandAction.cpp`, `registerAllDefaultActions` of
`actions/ActionFactory.cpp`) -/

/-- The class `LogAction`: its member `message_template_`. -/
structure LogAction where
  message_template_ : String
  deriving DecidableEq, Repr

/-- The class `ShellCommandAction`: its member `command_template_`. -/
structure ShellCommandAction where
  command_template_ : String
  deriving DecidableEq, Repr

/-- The class `HttpAction`: its members `url_`, `method_` and
`payload_template_`. -/
structure HttpAction where
  url_ : String
  method_ : String
  payload_template_ : Json

/-- The commands behind `std::unique_ptr<IActionCommand>`: an object of one of
the three classes that implement the interface. -/
inductive IActionCommand where
  | log (action : LogAction)
  | http (action : HttpAction)
  | shell (action : ShellCommandAction)

/-- The constructor `LogAction::LogAction(config)`: it throws unless
`config.contains("message")` and the member is a string. -/
def LogAction.construct : Json → Except String LogAction
  | .object members =>
    match members.lookup "message" with
    | some (.string message) => .ok ⟨message⟩
    | _ => .error "LogAction config must contain a 'message' string."
  | _ => .error "LogAction config must contain a 'message' string."

/-- The constructor `ShellCommandAction::ShellCommandAction(config)`: it throws
unless `config.contains("command")` and the member is a string. -/
def ShellCommandAction.construct : Json → Except String ShellCommandAction
  | .object members =>
    match members.lookup "command" with
    | some (.string command) => .ok ⟨command⟩
    | _ => .error "ShellCommandAction config must contain a 'command' string."
  | _ => .error "ShellCommandAction config must contain a 'command' string."

/-- The constructor `HttpAction::HttpAction(config)`: it throws unless `"url"`
and `"method"` are present and strings; the payload template is the member
`"payload"` when there is one and the empty object otherwise. -/
def HttpAction.construct : Json → Except String HttpAction
  | .object members =>
    match members.lookup "url", members.lookup "method" with
    | some (.string url), some (.string method) =>
      .ok ⟨url, method,
        match members.lookup "payload" with
        | some payload => payload
        | none => .object []⟩
    | _, _ => .error "HttpAction config must contain 'url' and 'method' as strings."
  | _ => .error "HttpAction config must contain 'url' and 'method' as strings."

/-- The function `registerAllDefaultActions` on the static map `creators_`:
the three calls of `registerAction`, each with the lambda that constructs the
command of its class. -/
def registerAllDefaultActions
    (creators_ : List (String × ActionFactory.ActionCreator IActionCommand)) :
    List (String × ActionFactory.ActionCreator IActionCommand) :=
  ActionFactory.registerAction
    (ActionFactory.registerAction
      (ActionFactory.registerAction creators_ "log"
        (fun config => (LogAction.construct config).map IActionCommand.log))
      "http" (fun config => (HttpAction.construct config).map IActionCommand.http))
    "shell" (fun config => (ShellCommandAction.construct config).map IActionCommand.shell)

/-- The member `LogAction::execute`: the text it writes to `std::cout`, the
formatted message after the fixed tag and before the line end; `none` when
`formatMessage` gives no result. -/
def LogAction.execute (double_to_string : Double → String) (action : LogAction)
    (event : Event) : Option String :=
  (LogAction.formatMessage double_to_string action.message_template_ event).map
    (fun formatted_message => "[LOG ACTION] " ++ formatted_message ++ "\n")

/-- The visitor of `HttpAction::execute`, which returns its argument as a
`nlohmann::json`: the JSON value constructed from the held alternative. -/
def eventValueJson : EventValue → Json
  | .int n => .number_integer n
  | .double d => .number_float d
  | .bool b => .boolean b
  | .string s => .string s

/-- The body of the loop of `HttpAction::execute` on one member: the value the
member has afterwards.  Both `find` calls search from the start of the string. -/
def HttpAction.payloadField (event : Event) (value : Json) : Json :=
  match value with
  | .string s_val =>
    match stringFind '\x7b' s_val.data 0, stringFind '\x7d' s_val.data 0 with
    | some start_pos, some end_pos =>
      if end_pos > start_pos then
        match event.find (String.mk (stringSubstr s_val.data (start_pos + 1)
            (end_pos - start_pos - 1))) with
        | some found => eventValueJson found
        | none =>
          .string (String.mk ("[MISSING_".data ++ stringSubstr s_val.data (start_pos + 1)
            (end_pos - start_pos - 1) ++ "]".data))
      else value
    | _, _ => value
  | _ => value

/-- The member `HttpAction::execute`: the value of `final_payload` that it
prints.  Every member of an object template is visited once and
`final_payload[key] = ...` assigns to the member being visited. -/
def HttpAction.execute (action : HttpAction) (event : Event) : Json :=
  match action.payload_template_ with
  | .object members =>
    .object (members.map (fun member => (member.1, HttpAction.payloadField event member.2)))
  | final_payload => final_payload

/-! ## Event queue of `RuleEngine` (`RuleEngine/src/core/EventQueue.h`) -/

namespace RuleEngine

/-- The struct `Event` of `RuleEngine/src/common/Event.h`. -/
structure Event where
  id : String
  source : String
  data : List (String × EventValue)
  deriving DecidableEq, Repr

/-- The class `EventQueue` of `RuleEngine`: its member `queue_`, oldest first. -/
structure EventQueue where
  queue_ : List Event
  deriving DecidableEq, Repr

/-- The member `try_pop`.  `owns_lock` tells whether `std::try_to_lock` got the
mutex, which it does when no other caller holds it.  The result is the returned
optional and the queue afterwards; calling `front()` on an empty `std::queue`
has no defined result and is the error case. -/
def EventQueue.try_pop (owns_lock : Bool) (q : EventQueue) :
    Except String (Option Event × EventQueue) :=
  if !owns_lock then .ok (none, q)
  else if !q.queue_.isEmpty then .ok (none, q)
  else
    match q.queue_ with
    | data :: rest => .ok (some data, ⟨rest⟩)
    | [] => .error "front() on an empty std::queue"

/-- The member `is_empty`. -/
def EventQueue.is_empty (q : EventQueue) : Bool := q.queue_.isEmpty

end RuleEngine

/-! ## Ids of successive calls -/

/-- The value of the static counter of `generateUniqueId` after `n` calls. -/
def counterAfter : Nat → Int
  | 0 => 0
  | n + 1 => (generateUniqueId (counterAfter n)).2

/-- The id that call number `n` of `generateUniqueId` returns in one process
run, the first call being number 0. -/
def idOfCall (n : Nat) : String := (generateUniqueId (counterAfter n)).1

/-! ## Further test data -/

/-- The double nearest to `123.45`, that is `0x1edccccccccccd * 2^(-46)`. -/
def testValue : Double := Double.fin false 0x1edccccccccccd (-46)

/-- The event of the test `LogActionExecution`: default constructed, then given
the type `sensor_reading` and the data entry `value = 123.45`. -/
def logExecutionEvent : Event := ⟨"", "sensor_reading", "", 0, [("value", .double testValue)]⟩

/-- The action of the test `LogActionExecution`. -/
def logExecutionAction : LogAction := ⟨"Event: \x7bevent_type\x7d, Value: \x7bvalue\x7d"⟩

/-- A stand-in for `std::to_string` on a `double` that gives the six decimals
`123.450000` of the test's value. -/
def sixDecimalsOfTestValue (_d : Double) : String := "123.450000"

/-! ## The placeholder loop with any conversion of the found value -/

/-- The `while` loop of `formatMessage` and `formatCommand` with the visitor
that turns the found value into text as the parameter `text`; everything else
is the loop `placeholderLoop`. -/
def placeholderLoopWith (text : EventValue → List Char) (event : Event) :
    Nat → List Char → Nat → Option (List Char)
  | 0, _, _ => none
  | fuel + 1, result, start_pos =>
    match stringFind '\x7b' result start_pos with
    | none => some result
    | some start_pos =>
      match stringFind '\x7d' result start_pos with
      | none => some result
      | some end_pos =>
        if end_pos > start_pos then
          match event.find (String.mk (stringSubstr result (start_pos + 1)
              (end_pos - start_pos - 1))) with
          | some value =>
            placeholderLoopWith text event fuel
              (stringReplace result start_pos (end_pos - start_pos + 1) (text value))
              (start_pos + (text value).length)
          | none =>
            placeholderLoopWith text event fuel
              (stringReplace result start_pos (end_pos - start_pos + 1)
                ("[MISSING_".data ++ stringSubstr result (start_pos + 1)
                  (end_pos - start_pos - 1) ++ "]".data))
              (end_pos + 1)
        else some result

/-! # Theorems -/

/-! ## Logical nodes -/

/-- The loop of `AndCondition::evaluate` computes the conjunction of the
children's results. -/
theorem AndCondition.evaluate_eq_all (conditions : List ICondition) (event : Event) :
    AndCondition.evaluate conditions event
      = conditions.all (fun cond => cond.evaluate event) := by
  induction conditions with
  | nil => simp [AndCondition.evaluate]
  | cons cond rest ih =>
    simp only [AndCondition.evaluate, List.all_cons, ih]
    cases ICondition.evaluate cond event <;> simp

/-- The loop of `OrCondition::evaluate` computes the disjunction of the
children's results. -/
theorem OrCondition.evaluate_eq_any (conditions : List ICondition) (event : Event) :
    OrCondition.evaluate conditions event
      = conditions.any (fun cond => cond.evaluate event) := by
  induction conditions with
  | nil => simp [OrCondition.evaluate]
  | cons cond rest ih =>
    simp only [OrCondition.evaluate, List.any_cons, ih]
    cases ICondition.evaluate cond event <;> simp

/-- C1: an `And` node evaluates to true on an event exactly when every one of
its children evaluates to true on that event, so the short-circuit loop agrees
with the full conjunction; an `And` node without children evaluates to true. -/
theorem and_evaluate_iff_every_child (conditions : List ICondition) (event : Event) :
    ((ICondition.AndCondition conditions).evaluate event = true ↔
        ∀ cond ∈ conditions, cond.evaluate event = true) ∧
      (ICondition.AndCondition conditions).evaluate event
        = conditions.all (fun cond => cond.evaluate event) ∧
      (ICondition.AndCondition []).evaluate event = true := by
  refine ⟨?_, ?_, ?_⟩
  · rw [ICondition.evaluate, AndCondition.evaluate_eq_all, List.all_eq_true]
  · rw [ICondition.evaluate, AndCondition.evaluate_eq_all]
  · simp [ICondition.evaluate, AndCondition.evaluate]

/-- C2: an `Or` node evaluates to true on an event exactly when at least one of
its children evaluates to true on that event; an `Or` node without children
evaluates to false. -/
theorem or_evaluate_iff_some_child (conditions : List ICondition) (event : Event) :
    ((ICondition.OrCondition conditions).evaluate event = true ↔
        ∃ cond ∈ conditions, cond.evaluate event = true) ∧
      (ICondition.OrCondition conditions).evaluate event
        = conditions.any (fun cond => cond.evaluate event) ∧
      (ICondition.OrCondition []).evaluate event = false := by
  refine ⟨?_, ?_, ?_⟩
  · rw [ICondition.evaluate, OrCondition.evaluate_eq_any, List.any_eq_true]
  · rw [ICondition.evaluate, OrCondition.evaluate_eq_any]
  · simp [ICondition.evaluate, OrCondition.evaluate]

/-- C3: a `Not` node with a child returns the negation of the child's result;
over a value leaf whose key is absent from the event it is therefore true; a
`Not` node without a child evaluates to true on every event. -/
theorem not_evaluate_negates_child (cond : ICondition) (key op : String)
    (value : EventValue) (event : Event) :
    (ICondition.NotCondition (some cond)).evaluate event = !(cond.evaluate event) ∧
      (event.find key = none →
        (ICondition.NotCondition
          (some (ICondition.ValueCondition key op value))).evaluate event = true) ∧
      (ICondition.NotCondition none).evaluate event = true := by
  refine ⟨?_, ?_, ?_⟩
  · simp [ICondition.evaluate, NotCondition.evaluate]
  · intro h
    simp [ICondition.evaluate, NotCondition.evaluate, ValueCondition.evaluate, h]
  · simp [ICondition.evaluate, NotCondition.evaluate]

/-- The statement of C3 at the leaf `alert_sent == true` and an event without
data (the scenario "Not over absent key"). -/
theorem not_evaluate_negates_child_witness :
    emptyEvent.find "alert_sent" = none ∧
      (ICondition.NotCondition (some (ICondition.ValueCondition "alert_sent" "=="
        (EventValue.bool true)))).evaluate emptyEvent = true :=
  ⟨by decide,
    (not_evaluate_negates_child (ICondition.AndCondition []) "alert_sent" "=="
      (EventValue.bool true) emptyEvent).2.1 (by decide)⟩

/-! ## Value leaves -/

/-- C4: a value leaf evaluates to false, and returns normally, on every event
whose data has no entry for the leaf's key, whatever the operator string and
the literal are. -/
theorem value_evaluate_absent_key (key op : String) (value : EventValue) (event : Event)
    (habsent : event.find key = none) :
    (ICondition.ValueCondition key op value).evaluate event = false := by
  simp [ICondition.evaluate, ValueCondition.evaluate, habsent]

/-- The statement of C4 at the leaf `humidity < 50` and an event that only has
a temperature (the scenario "Missing key"). -/
theorem value_evaluate_absent_key_witness :
    temperatureOnlyEvent.find "humidity" = none ∧
      (ICondition.ValueCondition "humidity" "<" (EventValue.int 50)).evaluate
        temperatureOnlyEvent = false :=
  ⟨by decide,
    value_evaluate_absent_key "humidity" "<" (EventValue.int 50) temperatureOnlyEvent
      (by decide)⟩

/-- No visitor parameter has an arithmetic `decltype`: it is a reference type. -/
theorem is_arithmetic_v_decltypeOf (v : EventValue) :
    is_arithmetic_v (decltypeOf v) = false := by
  cases v <;> rfl

/-- No visitor parameter has `std::string` as its `decltype`. -/
theorem is_same_v_decltypeOf_string (v : EventValue) :
    is_same_v (decltypeOf v) (.val .string) = false := by
  cases v <;> rfl

/-- The first `if constexpr` of `compare` holds exactly for equal alternatives. -/
theorem is_same_v_decltypeOf (a b : EventValue) :
    is_same_v (decltypeOf a) (decltypeOf b) = decide (a.tag = b.tag) := by
  simp [is_same_v, decltypeOf]

/-- On operands of different alternatives `compare` returns false for every
operator string. -/
theorem ValueCondition.compare_of_tag_ne (op : String) (event_val rule_val : EventValue)
    (h : event_val.tag ≠ rule_val.tag) :
    ValueCondition.compare op event_val rule_val = false := by
  simp [ValueCondition.compare, is_same_v_decltypeOf, h, is_arithmetic_v_decltypeOf]

/-- On operands of one alternative `compare` answers `==` and `!=` and returns
false for every other operator string. -/
theorem ValueCondition.compare_of_tag_eq (op : String) (event_val rule_val : EventValue)
    (h : event_val.tag = rule_val.tag) :
    ValueCondition.compare op event_val rule_val =
      if op = "==" then sameEq event_val rule_val
      else if op = "!=" then !sameEq event_val rule_val
      else false := by
  simp [ValueCondition.compare, is_same_v_decltypeOf, h, is_arithmetic_v_decltypeOf,
    is_same_v_decltypeOf_string]

/-- C5 (the code at the failing input): the leaf `temperature > 30` with an
integer literal evaluates to false on the event of the test
`ParseAndConditionRule` whose `temperature` is the integer 35, and the parsed
rule of that test does not match the event, although `35 > 30` and `45 < 50`
hold as integer comparisons and the test asserts a match. -/
theorem int_greater_leaf_false_on_greater_value :
    hotDryEvent.find "temperature" = some (EventValue.int 35) ∧
      (ICondition.ValueCondition "temperature" ">" (EventValue.int 30)).evaluate
        hotDryEvent = false ∧
      Spec.intOp ">" 35 30 = true ∧
      (RuleParser.parse andRuleJson).toOption.map (fun rule => rule.check hotDryEvent)
        = some false ∧
      Spec.meaning andConditionJson hotDryEvent = true := by
  decide

/-- C6 (the code at the failing input): the leaf `temperature > 30` with an
integer literal evaluates to false on an event whose `temperature` is the float
`30.5`, although `30.5 > float(30)` holds; the same leaf with `!=` is false
there too, although `30.5 != float(30)` holds. -/
theorem int_literal_leaf_false_on_float_value :
    floatTemperatureEvent.find "temperature" = some (EventValue.double thirtyAndAHalf) ∧
      (ICondition.ValueCondition "temperature" ">" (EventValue.int 30)).evaluate
        floatTemperatureEvent = false ∧
      Spec.doubleOp ">" thirtyAndAHalf (Double.ofInt 30) = true ∧
      (ICondition.ValueCondition "temperature" "!=" (EventValue.int 30)).evaluate
        floatTemperatureEvent = false ∧
      Spec.doubleOp "!=" thirtyAndAHalf (Double.ofInt 30) = true := by
  decide

/-- C7: a value leaf returns false for every operator string, `!=` included,
when the event value and the literal form one of the undefined tag pairs
(string/integer, string/float, string/boolean, integer/boolean, float/boolean,
in either order), and for two booleans under `>`, `<`, `>=` and `<=`. -/
theorem undefined_comparison_is_false (key op : String) (value event_val : EventValue)
    (event : Event) (hfind : event.find key = some event_val)
    (hundef : undefinedPair event_val.tag value.tag = true ∨
      (event_val.tag = Tag.bool ∧ value.tag = Tag.bool ∧ op ∈ [">", "<", ">=", "<="])) :
    (ICondition.ValueCondition key op value).evaluate event = false := by
  simp only [ICondition.evaluate, ValueCondition.evaluate, hfind]
  rcases hundef with h | ⟨h₁, h₂, hop⟩
  · apply ValueCondition.compare_of_tag_ne
    intro heq
    rw [heq] at h
    cases hv : value.tag <;> simp [hv, undefinedPair] at h
  · rw [ValueCondition.compare_of_tag_eq op _ _ (h₁.trans h₂.symm)]
    have h1 : op ≠ "==" := by
      rintro rfl
      simp at hop
    have h2 : op ≠ "!=" := by
      rintro rfl
      simp at hop
    simp [h1, h2]

/-- The statement of C7 at the leaf `is_active >= true` and the event of the
test `ParseNotConditionRule` whose `is_active` is the boolean `true`. -/
theorem undefined_comparison_is_false_witness :
    (eventWith [("is_active", EventValue.bool true)]).find "is_active"
        = some (EventValue.bool true) ∧
      (ICondition.ValueCondition "is_active" ">=" (EventValue.bool true)).evaluate
        (eventWith [("is_active", EventValue.bool true)]) = false :=
  ⟨by decide,
    undefined_comparison_is_false "is_active" ">=" (EventValue.bool true)
      (EventValue.bool true) (eventWith [("is_active", EventValue.bool true)])
      (by decide) (Or.inr ⟨rfl, rfl, by decide⟩)⟩

/-! ## Parsed rules -/

/-- The member access fused into `parseArrayAt` is `List.lookup`: the array
member named `key` is parsed element by element, anything else is the error. -/
theorem RuleParser.parseArrayAt_eq (key msg : String) (members : List (String × Json)) :
    RuleParser.parseArrayAt key msg members =
      match members.lookup key with
      | some (Json.array elements) => RuleParser.parseConditions elements
      | _ => Except.error msg := by
  induction members with
  | nil => simp [RuleParser.parseArrayAt]
  | cons kv rest ih =>
    obtain ⟨k, v⟩ := kv
    by_cases h : (key == k) = true
    · cases v <;> simp [RuleParser.parseArrayAt, List.lookup, h]
    · have hb : (key == k) = false := by simpa using h
      cases v <;> simp [RuleParser.parseArrayAt, List.lookup, hb, ih]

/-- The member access fused into `parseObjectAt` is `List.lookup`: the object
member named `key` is parsed as a condition, anything else is the error. -/
theorem RuleParser.parseObjectAt_eq (key msg : String) (members : List (String × Json)) :
    RuleParser.parseObjectAt key msg members =
      match members.lookup key with
      | some (Json.object inner) => RuleParser.parseCondition (Json.object inner)
      | _ => Except.error msg := by
  induction members with
  | nil => simp [RuleParser.parseObjectAt]
  | cons kv rest ih =>
    obtain ⟨k, v⟩ := kv
    by_cases h : (key == k) = true
    · cases v <;> simp [RuleParser.parseObjectAt, List.lookup, h]
    · have hb : (key == k) = false := by simpa using h
      cases v <;> simp [RuleParser.parseObjectAt, List.lookup, hb, ih]

/-- A successful `Except.map` comes from a successful argument. -/
theorem except_map_eq_ok {ε α β : Type} {f : α → β} {x : Except ε α} {b : β}
    (h : x.map f = Except.ok b) : ∃ a, x = Except.ok a ∧ f a = b := by
  cases x with
  | error e => simp [Except.map] at h
  | ok a => exact ⟨a, rfl, by simpa [Except.map] using h⟩

/-- A conjunction over a list is the conjunction of the mapped list. -/
theorem all_eq_all_map_id {α : Type} (l : List α) (f : α → Bool) :
    l.all f = (l.map f).all id := by
  induction l with
  | nil => rfl
  | cons a rest ih => simp [ih]

/-- A disjunction over a list is the disjunction of the mapped list. -/
theorem any_eq_any_map_id {α : Type} (l : List α) (f : α → Bool) :
    l.any f = (l.map f).any id := by
  induction l with
  | nil => rfl
  | cons a rest ih => simp [ih]

mutual
/-- The tree built by `parseCondition` evaluates to the meaning of the JSON in
which a key/operator/value object means what its parsed leaf evaluates to: the
`and` / `or` / `not` structure is parsed and evaluated as the JSON reads. -/
theorem RuleParser.parseCondition_evaluate (event : Event) :
    ∀ (cond_json : Json) (cond : ICondition),
      RuleParser.parseCondition cond_json = Except.ok cond →
      cond.evaluate event = Spec.meaningWith RuleParser.leafResult cond_json event
  | .object members, cond, h => by
    simp only [RuleParser.parseCondition] at h
    simp only [Spec.meaningWith]
    split at h
    · rename_i hand
      obtain ⟨cs, hcs, rfl⟩ := except_map_eq_ok h
      rw [if_pos hand, ← RuleParser.parseArrayAt_evaluate event _ _ members cs hcs,
        ICondition.evaluate, AndCondition.evaluate_eq_all]
      exact all_eq_all_map_id cs _
    · rename_i hand
      rw [if_neg hand]
      split at h
      · rename_i hor
        obtain ⟨cs, hcs, rfl⟩ := except_map_eq_ok h
        rw [if_pos hor, ← RuleParser.parseArrayAt_evaluate event _ _ members cs hcs,
          ICondition.evaluate, OrCondition.evaluate_eq_any]
        exact any_eq_any_map_id cs _
      · rename_i hor
        rw [if_neg hor]
        split at h
        · rename_i hnot
          obtain ⟨c, hc, rfl⟩ := except_map_eq_ok h
          rw [if_pos hnot, ← RuleParser.parseObjectAt_evaluate event _ _ members c hc,
            ICondition.evaluate, NotCondition.evaluate]
        · rename_i hnot
          rw [if_neg hnot]
          split at h
          · rename_i k o v hk ho hv
            rw [hk, ho, hv]
            cases k <;> simp [Json.getString, bind, Except.bind] at h
            cases o <;> simp [Json.getString, bind, Except.bind] at h
            rename_i key op
            simp only [RuleParser.leafResult]
            cases hval : RuleParser.parseValue key v with
            | error e => simp [hval] at h
            | ok lit =>
              simp [hval, pure, Except.pure] at h
              subst h
              simp [ICondition.evaluate]
          · simp at h
  | .null, _, h => by simp [RuleParser.parseCondition] at h
  | .boolean _, _, h => by simp [RuleParser.parseCondition] at h
  | .number_integer _, _, h => by simp [RuleParser.parseCondition] at h
  | .number_unsigned _, _, h => by simp [RuleParser.parseCondition] at h
  | .number_float _, _, h => by simp [RuleParser.parseCondition] at h
  | .string _, _, h => by simp [RuleParser.parseCondition] at h
  | .array _, _, h => by simp [RuleParser.parseCondition] at h
/-- The trees built by the loop over an array evaluate to the meanings of its elements. -/
theorem RuleParser.parseConditions_evaluate (event : Event) :
    ∀ (elements : List Json) (conds : List ICondition),
      RuleParser.parseConditions elements = Except.ok conds →
      conds.map (fun cond => cond.evaluate event)
        = Spec.meanings RuleParser.leafResult elements event
  | [], conds, h => by
    simp [RuleParser.parseConditions] at h
    subst h
    simp [Spec.meanings]
  | j :: rest, conds, h => by
    simp only [RuleParser.parseConditions, bind, Except.bind] at h
    cases hj : RuleParser.parseCondition j with
    | error e => simp [hj] at h
    | ok c =>
      cases hrest : RuleParser.parseConditions rest with
      | error e => simp [hj, hrest] at h
      | ok cs =>
        simp [hj, hrest, pure, Except.pure] at h
        subst h
        simp only [List.map_cons, Spec.meanings]
        rw [RuleParser.parseCondition_evaluate event j c hj,
          RuleParser.parseConditions_evaluate event rest cs hrest]
/-- The trees built from the array member `key` evaluate to the meanings of its elements. -/
theorem RuleParser.parseArrayAt_evaluate (event : Event) (key msg : String) :
    ∀ (members : List (String × Json)) (conds : List ICondition),
      RuleParser.parseArrayAt key msg members = Except.ok conds →
      conds.map (fun cond => cond.evaluate event)
        = Spec.meaningsAt RuleParser.leafResult key members event
  | [], _, h => by simp [RuleParser.parseArrayAt] at h
  | (k, v) :: rest, conds, h => by
    cases v with
    | array elements =>
      by_cases hk : (key == k) = true
      · simp only [RuleParser.parseArrayAt, hk, if_true] at h
        simp only [Spec.meaningsAt, hk, if_true]
        exact RuleParser.parseConditions_evaluate event elements conds h
      · simp only [RuleParser.parseArrayAt, hk, if_false] at h
        simp only [Spec.meaningsAt, hk, if_false]
        exact RuleParser.parseArrayAt_evaluate event key msg rest conds h
    | _ =>
      by_cases hk : (key == k) = true
      · simp [RuleParser.parseArrayAt, hk] at h
      · simp only [RuleParser.parseArrayAt, hk, if_false] at h
        simp only [Spec.meaningsAt, hk, if_false]
        exact RuleParser.parseArrayAt_evaluate event key msg rest conds h
/-- The tree built from the object member `key` evaluates to the meaning of that member. -/
theorem RuleParser.parseObjectAt_evaluate (event : Event) (key msg : String) :
    ∀ (members : List (String × Json)) (cond : ICondition),
      RuleParser.parseObjectAt key msg members = Except.ok cond →
      cond.evaluate event = Spec.meaningAt RuleParser.leafResult key members event
  | [], _, h => by simp [RuleParser.parseObjectAt] at h
  | (k, v) :: rest, cond, h => by
    by_cases hk : (key == k) = true
    · simp only [Spec.meaningAt, hk, if_true]
      cases v <;> simp [RuleParser.parseObjectAt, hk] at h
      rename_i inner
      exact RuleParser.parseCondition_evaluate event (.object inner) cond h
    · simp only [Spec.meaningAt, hk, if_false]
      cases v <;> simp only [RuleParser.parseObjectAt, hk, if_false] at h <;>
        exact RuleParser.parseObjectAt_evaluate event key msg rest cond h
end

/-- A rule returned by `RuleParser::parse` comes from an object whose
`"condition"` member is an object, and `Rule::check` on it is the meaning of
that member in which a key/operator/value object means what its parsed leaf
evaluates to. -/
theorem RuleParser.parse_check (rule_json : Json) (rule : Rule) (event : Event)
    (h : RuleParser.parse rule_json = Except.ok rule) :
    ∃ members inner, rule_json = Json.object members ∧
      members.lookup "condition" = some (Json.object inner) ∧
      rule.check event
        = Spec.meaningWith RuleParser.leafResult (Json.object inner) event := by
  cases rule_json <;> simp only [RuleParser.parse, reduceCtorEq] at h
  rename_i members
  refine ⟨members, ?_⟩
  simp only [bind, Except.bind] at h
  cases hid : RuleParser.ruleId members with
  | error e => simp [hid] at h
  | ok id =>
    cases hcond : RuleParser.ruleCondition id members with
    | error e => simp [hid, hcond] at h
    | ok cond =>
      simp only [hid, hcond, pure, Except.pure, Except.ok.injEq] at h
      subst h
      unfold RuleParser.ruleCondition at hcond
      split at hcond
      · rename_i inner hinner
        exact ⟨inner, rfl, hinner,
          RuleParser.parseCondition_evaluate event _ cond hcond⟩
      · simp at hcond

/-- C8 (the code at the failing input): the parsed rule of the test
`ParseNestedConditionsRule`, whose condition is
`and[level > 5, or[type == "critical", severity >= 8]]`, does not match the
test's first event (`level` 10, `type` "critical", `severity` 5): `Rule::check`
returns false, while the meaning of the condition JSON on that event is true
and the test asserts a match. -/
theorem nested_rule_check_differs_from_meaning :
    (RuleParser.parse nestedRuleJson).toOption.map (fun rule => rule.check nestedEvent1)
        = some false ∧
      Spec.meaning nestedConditionJson nestedEvent1 = true ∧
      (RuleParser.parseCondition (leafJson "level" ">" (Json.number_unsigned 5))).toOption.map
        (fun cond => cond.evaluate nestedEvent1) = some false ∧
      Spec.meaning (leafJson "level" ">" (Json.number_unsigned 5)) nestedEvent1 = true := by
  decide

/-! ## Rule manager -/

/-- The inner loop of `RuleManager::evaluate` appends the whole action list. -/
theorem foldl_push_back_eq_append (actions init : List Json) :
    actions.foldl (fun acc action_cfg => acc ++ [action_cfg]) init = init ++ actions := by
  induction actions generalizing init with
  | nil => simp
  | cons a rest ih => simp [ih]

/-- The outer loop of `RuleManager::evaluate`, started from any accumulator,
appends the action lists of the matching rules in rule order. -/
theorem RuleManager.foldl_eq_append (rules : List Rule) (event : Event) (init : List Json) :
    rules.foldl (fun triggered_actions rule =>
        if rule.check event then
          rule.actions_config_.foldl (fun acc action_cfg => acc ++ [action_cfg])
            triggered_actions
        else triggered_actions) init
      = init ++ ((rules.filter (fun rule => rule.check event)).map
          (fun rule => rule.actions_config_)).flatten := by
  induction rules generalizing init with
  | nil => simp
  | cons rule rest ih =>
    rw [List.foldl_cons, ih]
    by_cases h : rule.check event = true
    · simp [h, foldl_push_back_eq_append, List.filter_cons]
    · simp [h, List.filter_cons]

/-- C9: `RuleManager::evaluate` returns the concatenation, in load order, of
the action-config lists of the rules that match the event, each list in its
original order; when no rule matches the event the result is empty. -/
theorem rule_manager_evaluate_concatenates_matches (rules : List Rule) (event : Event) :
    RuleManager.evaluate rules event
        = ((rules.filter (fun rule => rule.check event)).map
            (fun rule => rule.actions_config_)).flatten ∧
      ((∀ rule ∈ rules, rule.check event = false) →
        RuleManager.evaluate rules event = []) := by
  have h := RuleManager.foldl_eq_append rules event []
  simp only [List.nil_append] at h
  refine ⟨h, fun hnone => ?_⟩
  unfold RuleManager.evaluate
  rw [h]
  have hf : rules.filter (fun rule => rule.check event) = [] := by
    rw [List.filter_eq_nil_iff]
    intro rule hmem
    simp [hnone rule hmem]
  simp [hf]

/-- The statement of C9 on the two-rule list of the scenarios and an event that
only the second rule matches: the result is the second rule's action list. -/
theorem rule_manager_evaluate_concatenates_matches_witness :
    RuleManager.evaluate scenarioRules statusErrorEvent
        = [logActionJson "status is ERROR", logActionJson "second action"] ∧
      (∀ rule ∈ scenarioRules, rule.check emptyEvent = false) ∧
      RuleManager.evaluate scenarioRules emptyEvent = [] :=
  ⟨(rule_manager_evaluate_concatenates_matches scenarioRules statusErrorEvent).1.trans rfl,
    by decide,
    (rule_manager_evaluate_concatenates_matches scenarioRules emptyEvent).2 (by decide)⟩

/-! ## Literals of parsed leaves -/

/-- C10: for a condition object that has `"key"`, `"operator"` and `"value"`
and none of `"and"`, `"or"`, `"not"`, the literal of the parsed leaf is an
integer (the `EventValue.int` alternative) when the value is a JSON integer,
signed or unsigned, the same float when it is a
non-integer number, the same boolean when it is a boolean and the same string
when it is a string; when the value is null, an array or an object,
`parseCondition` fails. -/
theorem parseCondition_leaf_literal (members : List (String × Json)) (k o v : Json)
    (hand : members.lookup "and" = none) (hor : members.lookup "or" = none)
    (hnot : members.lookup "not" = none) (hk : members.lookup "key" = some k)
    (ho : members.lookup "operator" = some o) (hv : members.lookup "value" = some v) :
    (∀ key op : String, k = Json.string key → o = Json.string op →
      (∀ n, v = Json.number_integer n →
        RuleParser.parseCondition (Json.object members)
          = Except.ok (ICondition.ValueCondition key op (EventValue.int (toInt32 n)))) ∧
      (∀ n, v = Json.number_unsigned n →
        RuleParser.parseCondition (Json.object members)
          = Except.ok (ICondition.ValueCondition key op (EventValue.int (toInt32 n)))) ∧
      (∀ d, v = Json.number_float d →
        RuleParser.parseCondition (Json.object members)
          = Except.ok (ICondition.ValueCondition key op (EventValue.double d))) ∧
      (∀ b, v = Json.boolean b →
        RuleParser.parseCondition (Json.object members)
          = Except.ok (ICondition.ValueCondition key op (EventValue.bool b))) ∧
      (∀ s, v = Json.string s →
        RuleParser.parseCondition (Json.object members)
          = Except.ok (ICondition.ValueCondition key op (EventValue.string s)))) ∧
    ((v = Json.null ∨ (∃ elements, v = Json.array elements) ∨
        (∃ inner, v = Json.object inner)) →
      ∃ msg, RuleParser.parseCondition (Json.object members) = Except.error msg) := by
  have hunfold : RuleParser.parseCondition (Json.object members) = (do
      let key ← k.getString
      let op ← o.getString
      let value ← RuleParser.parseValue key v
      pure (ICondition.ValueCondition key op value)) := by
    simp [RuleParser.parseCondition, hand, hor, hnot, hk, ho, hv]
  refine ⟨?_, ?_⟩
  · rintro key op rfl rfl
    refine ⟨?_, ?_, ?_, ?_, ?_⟩
    · rintro n rfl
      rw [hunfold]; rfl
    · rintro n rfl
      rw [hunfold]; rfl
    · rintro d rfl
      rw [hunfold]; rfl
    · rintro b rfl
      rw [hunfold]; rfl
    · rintro s rfl
      rw [hunfold]; rfl
  · intro hbad
    rw [hunfold]
    cases hk' : k.getString with
    | error e => exact ⟨e, rfl⟩
    | ok key =>
      cases ho' : o.getString with
      | error e => exact ⟨e, rfl⟩
      | ok op =>
        rcases hbad with rfl | ⟨elements, rfl⟩ | ⟨inner, rfl⟩ <;>
          exact ⟨_, rfl⟩

/-- The statement of C10 at the leaf object `temperature > 30.5`, whose value
is a non-integer number, and at the leaf object `temperature > null`. -/
theorem parseCondition_leaf_literal_witness :
    RuleParser.parseCondition (leafJson "temperature" ">" (Json.number_float thirtyAndAHalf))
        = Except.ok (ICondition.ValueCondition "temperature" ">"
            (EventValue.double thirtyAndAHalf)) ∧
      ∃ msg, RuleParser.parseCondition (leafJson "temperature" ">" Json.null)
        = Except.error msg :=
  ⟨((parseCondition_leaf_literal
        [("key", Json.string "temperature"), ("operator", Json.string ">"),
          ("value", Json.number_float thirtyAndAHalf)]
        (Json.string "temperature") (Json.string ">") (Json.number_float thirtyAndAHalf)
        rfl rfl rfl rfl rfl rfl).1 "temperature" ">" rfl rfl).2.2.1 thirtyAndAHalf rfl,
    (parseCondition_leaf_literal
        [("key", Json.string "temperature"), ("operator", Json.string ">"),
          ("value", Json.null)]
        (Json.string "temperature") (Json.string ">") Json.null
        rfl rfl rfl rfl rfl rfl).2 (Or.inl rfl)⟩

/-! ## Event queue -/

/-- One atomic call keeps the history invariant: the events returned so far
followed by the contents of the queue are the events pushed so far. -/
theorem QueueRun.step_invariant (r r1 : QueueRun) (op : QueueOp)
    (hstep : r.step op = some r1)
    (hinv : r.returned ++ r.queue.queue_ = r.pushed) :
    r1.returned ++ r1.queue.queue_ = r1.pushed := by
  cases op with
  | push event =>
    simp only [QueueRun.step, Option.some.injEq] at hstep
    subst hstep
    simp [EventQueue.push, ← hinv]
  | pop =>
    simp only [QueueRun.step, EventQueue.pop] at hstep
    cases hq : r.queue.queue_ with
    | nil => simp [hq] at hstep
    | cons event rest =>
      simp only [hq, Option.some.injEq] at hstep
      subst hstep
      simp [← hinv, hq]
  | tryPop =>
    simp only [QueueRun.step, EventQueue.tryPop] at hstep
    cases hq : r.queue.queue_ with
    | nil =>
      simp only [hq, Option.some.injEq] at hstep
      subst hstep
      exact hinv
    | cons event rest =>
      simp only [hq, Option.some.injEq] at hstep
      subst hstep
      simp [← hinv, hq]

/-- A finite sequence of atomic calls keeps the history invariant. -/
theorem QueueRun.run_invariant (ops : List QueueOp) (r r1 : QueueRun)
    (hrun : QueueRun.run ops r = some r1)
    (hinv : r.returned ++ r.queue.queue_ = r.pushed) :
    r1.returned ++ r1.queue.queue_ = r1.pushed := by
  induction ops generalizing r with
  | nil =>
    simp only [QueueRun.run, Option.some.injEq] at hrun
    subst hrun
    exact hinv
  | cons op ops ih =>
    simp only [QueueRun.run] at hrun
    cases hstep : r.step op with
    | none => simp [hstep] at hrun
    | some r2 =>
      simp only [hstep] at hrun
      exact ih r2 hrun (QueueRun.step_invariant r r2 op hstep hinv)

/-- The events recorded as pushed are the arguments of the `push` calls. -/
theorem QueueRun.run_pushed (ops : List QueueOp) (r r1 : QueueRun)
    (hrun : QueueRun.run ops r = some r1) :
    r1.pushed = r.pushed ++ ops.filterMap QueueOp.pushedEvent := by
  induction ops generalizing r with
  | nil =>
    simp only [QueueRun.run, Option.some.injEq] at hrun
    subst hrun
    simp
  | cons op ops ih =>
    simp only [QueueRun.run] at hrun
    cases hstep : r.step op with
    | none => simp [hstep] at hrun
    | some r2 =>
      simp only [hstep] at hrun
      rw [ih r2 hrun]
      cases op with
      | push event =>
        simp only [QueueRun.step, Option.some.injEq] at hstep
        subst hstep
        simp [QueueOp.pushedEvent]
      | pop =>
        simp only [QueueRun.step] at hstep
        cases hp : r.queue.pop with
        | none => simp [hp] at hstep
        | some res =>
          simp only [hp, Option.some.injEq] at hstep
          subst hstep
          simp [QueueOp.pushedEvent]
      | tryPop =>
        simp only [QueueRun.step] at hstep
        rcases hp : r.queue.tryPop with ⟨_ | event, q⟩ <;>
          simp only [hp, Option.some.injEq] at hstep <;> subst hstep <;>
          simp [QueueOp.pushedEvent]

/-- C18: after every finite sequence of atomic `push`, `pop` and `tryPop`
calls on an initially empty queue, a `pop` being a step only on a non-empty
queue, the events returned so far followed by the contents of the queue are
the events pushed so far in push order; hence the returned events are an
initial segment of the pushed ones (FIFO delivery), no event is returned more
often than it was pushed, and once the queue is empty the returned events are
exactly the pushed events. -/
theorem queue_returned_then_contents_eq_pushed (ops : List QueueOp) (r : QueueRun)
    (hrun : QueueRun.run ops QueueRun.initial = some r) :
    r.pushed = ops.filterMap QueueOp.pushedEvent ∧
      r.returned ++ r.queue.queue_ = r.pushed ∧
      r.returned <+: r.pushed ∧
      (∀ event, r.returned.count event ≤ r.pushed.count event) ∧
      (r.pushed.Nodup → r.returned.Nodup) ∧
      (r.queue.isEmpty = true → r.returned = r.pushed) := by
  have hinv := QueueRun.run_invariant ops QueueRun.initial r hrun rfl
  have hpre : r.returned <+: r.pushed := ⟨r.queue.queue_, hinv⟩
  refine ⟨by simpa [QueueRun.initial] using QueueRun.run_pushed ops QueueRun.initial r hrun,
    hinv, hpre, fun event => hpre.sublist.count_le event,
    fun hnd => hnd.sublist hpre.sublist, fun hempty => ?_⟩
  have hq : r.queue.queue_ = [] := by
    simpa [EventQueue.isEmpty] using hempty
  rw [← hinv, hq, List.append_nil]

/-- The statement of C18 on the run push, push, pop, tryPop, tryPop of two
events: both are returned, in push order, and the queue is empty. -/
theorem queue_returned_then_contents_eq_pushed_witness :
    QueueRun.run [QueueOp.push queueTestEvent, QueueOp.push emptyEvent, QueueOp.pop,
        QueueOp.tryPop, QueueOp.tryPop] QueueRun.initial
      = some ⟨EventQueue.initial, [queueTestEvent, emptyEvent], [queueTestEvent, emptyEvent]⟩ ∧
    [queueTestEvent, emptyEvent] ++ EventQueue.initial.queue_ = [queueTestEvent, emptyEvent] :=
  ⟨by decide,
    (queue_returned_then_contents_eq_pushed
      [QueueOp.push queueTestEvent, QueueOp.push emptyEvent, QueueOp.pop,
        QueueOp.tryPop, QueueOp.tryPop]
      ⟨EventQueue.initial, [queueTestEvent, emptyEvent], [queueTestEvent, emptyEvent]⟩
      (by decide)).2.1⟩

/-- C19: pushing an event onto an empty queue makes `size()` equal to 1 and
`isEmpty()` false; the following `pop` returns that event, unchanged, and
leaves the queue empty with `size()` equal to 0. -/
theorem push_then_pop_on_empty_queue (q : EventQueue) (event : Event)
    (hempty : q.isEmpty = true) :
    (q.push event).size = 1 ∧ (q.push event).isEmpty = false ∧
      ∃ q1, (q.push event).pop = some (event, q1) ∧ q1.isEmpty = true ∧ q1.size = 0 := by
  have hq : q.queue_ = [] := by
    simpa [EventQueue.isEmpty] using hempty
  refine ⟨by simp [EventQueue.push, EventQueue.size, hq],
    by simp [EventQueue.push, EventQueue.isEmpty, hq], ⟨[]⟩, ?_, rfl, rfl⟩
  simp [EventQueue.push, EventQueue.pop, hq]

/-- The statement of C19 on the event of the test `PushAndPopSingleEvent`. -/
theorem push_then_pop_on_empty_queue_witness :
    EventQueue.initial.isEmpty = true ∧
      (EventQueue.initial.push queueTestEvent).size = 1 ∧
      (EventQueue.initial.push queueTestEvent).isEmpty = false ∧
      ∃ q1, (EventQueue.initial.push queueTestEvent).pop = some (queueTestEvent, q1) ∧
        q1.isEmpty = true ∧ q1.size = 0 :=
  ⟨rfl, push_then_pop_on_empty_queue EventQueue.initial queueTestEvent rfl⟩

/-- C20: `tryPop` returns an empty result exactly when the queue is empty, and
then leaves the queue as it is, empty; on a non-empty queue it returns the
oldest event and removes exactly that event: the remaining events keep their
order and `size()` decreases by one. -/
theorem tryPop_empty_iff_and_removes_front (q : EventQueue) :
    (q.tryPop.1 = none ↔ q.isEmpty = true) ∧
      (q.isEmpty = true → q.tryPop.2 = q ∧ q.tryPop.2.isEmpty = true) ∧
      (∀ event rest, q.queue_ = event :: rest →
        q.tryPop = (some event, ⟨rest⟩) ∧ q.tryPop.2.size + 1 = q.size) := by
  obtain ⟨contents⟩ := q
  cases contents with
  | nil => simp [EventQueue.tryPop, EventQueue.isEmpty]
  | cons front rest => simp [EventQueue.tryPop, EventQueue.isEmpty, EventQueue.size]

/-- The statement of C20 on the empty queue and on a queue of two events. -/
theorem tryPop_empty_iff_and_removes_front_witness :
    EventQueue.initial.tryPop = (none, EventQueue.initial) ∧
      (EventQueue.mk [queueTestEvent, emptyEvent]).tryPop
        = (some queueTestEvent, EventQueue.mk [emptyEvent]) :=
  ⟨Prod.ext
      ((tryPop_empty_iff_and_removes_front EventQueue.initial).1.mpr rfl)
      ((tryPop_empty_iff_and_removes_front EventQueue.initial).2.1 rfl).1,
    ((tryPop_empty_iff_and_removes_front (EventQueue.mk [queueTestEvent, emptyEvent])).2.2
      queueTestEvent [emptyEvent] rfl).1⟩
/-! ## Rules from JSON -/

/-- The loop over the `"actions"` array keeps exactly the objects, in order. -/
theorem RuleParser.parseActions_eq_filter (elements : List Json) :
    RuleParser.parseActions elements = elements.filter Json.isObject := by
  induction elements with
  | nil => rfl
  | cons j rest ih => cases j <;> simp [RuleParser.parseActions, Json.isObject, ih]

/-- The second step of `parse` rejects a rule whose `"condition"` member is
absent or not an object. -/
theorem RuleParser.ruleCondition_error (id : String) (members : List (String × Json))
    (h : ∀ inner, members.lookup "condition" ≠ some (Json.object inner)) :
    RuleParser.ruleCondition id members = Except.error
      ("Rule '" ++ id ++ "' JSON missing 'condition' field or it's not an object.") := by
  unfold RuleParser.ruleCondition
  split
  · rename_i inner hinner
    exact absurd hinner (h inner)
  · rfl

/-- C14: `RuleParser::parse` fails for every rule JSON that is not an object,
that has no `"condition"` member, or whose `"condition"` is not an object; it
fails whenever parsing the condition fails; and a rule it returns always has a
condition tree, the one `parseCondition` built. -/
theorem parse_fails_without_condition (rule_json : Json) :
    ((∀ members, rule_json ≠ Json.object members) →
        ∃ msg, RuleParser.parse rule_json = Except.error msg) ∧
      (∀ members, rule_json = Json.object members → members.lookup "condition" = none →
        ∃ msg, RuleParser.parse rule_json = Except.error msg) ∧
      (∀ members v, rule_json = Json.object members →
        members.lookup "condition" = some v → (∀ inner, v ≠ Json.object inner) →
        ∃ msg, RuleParser.parse rule_json = Except.error msg) ∧
      (∀ members inner msg, rule_json = Json.object members →
        members.lookup "condition" = some (Json.object inner) →
        RuleParser.parseCondition (Json.object inner) = Except.error msg →
        ∃ msg1, RuleParser.parse rule_json = Except.error msg1) ∧
      (∀ rule, RuleParser.parse rule_json = Except.ok rule →
        ∃ members inner root, rule_json = Json.object members ∧
          members.lookup "condition" = some (Json.object inner) ∧
          RuleParser.parseCondition (Json.object inner) = Except.ok root ∧
          rule.condition_root_ = some root) := by
  have hfail : ∀ members, (∀ id, ∃ msg, RuleParser.ruleCondition id members = Except.error msg) →
      ∃ msg, RuleParser.parse (Json.object members) = Except.error msg := by
    intro members h
    simp only [RuleParser.parse, bind, Except.bind]
    cases hid : RuleParser.ruleId members with
    | error e => exact ⟨e, rfl⟩
    | ok id =>
      obtain ⟨msg, hmsg⟩ := h id
      exact ⟨msg, by simp [hmsg]⟩
  refine ⟨?_, ?_, ?_, ?_, ?_⟩
  · intro hno
    cases rule_json with
    | object members => exact absurd rfl (hno members)
    | _ => exact ⟨_, rfl⟩
  · rintro members rfl hnone
    exact hfail members (fun id =>
      ⟨_, RuleParser.ruleCondition_error id members (by simp [hnone])⟩)
  · rintro members v rfl hv hnot
    refine hfail members (fun id => ⟨_, RuleParser.ruleCondition_error id members ?_⟩)
    intro inner hinner
    rw [hv] at hinner
    exact hnot inner (Option.some.inj hinner)
  · rintro members inner msg rfl hc herr
    exact hfail members (fun id => ⟨msg, by simp [RuleParser.ruleCondition, hc, herr]⟩)
  · intro rule hok
    cases rule_json with
    | object members =>
      simp only [RuleParser.parse, bind, Except.bind] at hok
      cases hid : RuleParser.ruleId members with
      | error e => simp [hid] at hok
      | ok id =>
        cases hcond : RuleParser.ruleCondition id members with
        | error e => simp [hid, hcond] at hok
        | ok cond =>
          simp only [hid, hcond, pure, Except.pure, Except.ok.injEq] at hok
          subst hok
          unfold RuleParser.ruleCondition at hcond
          split at hcond
          · rename_i inner hinner
            exact ⟨members, inner, cond, rfl, hinner, hcond, rfl⟩
          · simp at hcond
    | _ => simp [RuleParser.parse] at hok

/-- The statement of C14 on a rule object without `"condition"` and on the
rule of the test `ParseAndConditionRule`, which is returned with its tree. -/
theorem parse_fails_without_condition_witness :
    (∃ msg, RuleParser.parse (Json.object [("id", Json.string "no_condition")])
        = Except.error msg) ∧
      ∃ members inner root, andRuleJson = Json.object members ∧
        members.lookup "condition" = some (Json.object inner) ∧
        RuleParser.parseCondition (Json.object inner) = Except.ok root ∧
        Rule.condition_root_ (Rule.mk "complex_alert" (some (ICondition.AndCondition
          [ICondition.ValueCondition "temperature" ">" (EventValue.int 30),
            ICondition.ValueCondition "humidity" "<" (EventValue.int 50)]))
          []) = some root :=
  ⟨(parse_fails_without_condition (Json.object [("id", Json.string "no_condition")])).2.1
      [("id", Json.string "no_condition")] rfl rfl,
    (parse_fails_without_condition andRuleJson).2.2.2.2 _ rfl⟩

/-- C15 (counterexample): a rule object with a valid condition whose `"id"` is
the number 5 is not parsed into a rule: `RuleParser::parse` fails on it, the
conversion of the `"id"` member to a string throwing. -/
theorem parse_fails_on_numeric_id :
    (∃ cond, RuleParser.parseCondition (leafJson "a" "==" (Json.number_unsigned 1))
        = Except.ok cond) ∧
      RuleParser.parse numericIdRuleJson
        = Except.error "[json.exception.type_error.302] type must be string, but is number" :=
  ⟨⟨_, rfl⟩, rfl⟩

/-- C15 (amended): for every rule object with a valid condition whose `"id"`,
when present, is a string, `RuleParser::parse` returns a rule whose id is that
string (`unknown_rule` when `"id"` is absent), whose condition is the parsed
one, and whose action list is the objects of the `"actions"` array, unchanged
and in their original order (empty when `"actions"` is absent or not an array). -/
theorem parse_id_and_actions (members inner : List (String × Json)) (cond : ICondition)
    (hcond : members.lookup "condition" = some (Json.object inner))
    (hparse : RuleParser.parseCondition (Json.object inner) = Except.ok cond)
    (hid : ∀ j, members.lookup "id" = some j → ∃ s, j = Json.string s) :
    ∃ rule, RuleParser.parse (Json.object members) = Except.ok rule ∧
      rule.id_ = (match members.lookup "id" with
        | some (Json.string s) => s
        | _ => "unknown_rule") ∧
      rule.condition_root_ = some cond ∧
      rule.actions_config_ = (match members.lookup "actions" with
        | some (Json.array elements) => elements.filter Json.isObject
        | _ => []) := by
  have hactions : RuleParser.ruleActions members = (match members.lookup "actions" with
      | some (Json.array elements) => elements.filter Json.isObject
      | _ => []) := by
    unfold RuleParser.ruleActions
    split <;> simp_all [RuleParser.parseActions_eq_filter]
  have hc : ∀ id, RuleParser.ruleCondition id members = Except.ok cond := by
    intro id
    simp [RuleParser.ruleCondition, hcond, hparse]
  cases hlook : members.lookup "id" with
  | none =>
    refine ⟨⟨"unknown_rule", some cond, RuleParser.ruleActions members⟩, ?_, rfl, rfl, hactions⟩
    simp [RuleParser.parse, RuleParser.ruleId, hlook, hc, bind, Except.bind, pure, Except.pure]
  | some j =>
    obtain ⟨s, rfl⟩ := hid j hlook
    refine ⟨⟨s, some cond, RuleParser.ruleActions members⟩, ?_, rfl, rfl, hactions⟩
    simp [RuleParser.parse, RuleParser.ruleId, hlook, hc, Json.getString, bind, Except.bind,
      pure, Except.pure]

/-- The statement of C15 (amended) on the rule of the test
`ParseAndConditionRule`: the id is `complex_alert` and there is no action. -/
theorem parse_id_and_actions_witness :
    ∃ rule, RuleParser.parse andRuleJson = Except.ok rule ∧
      rule.id_ = "complex_alert" ∧
      rule.condition_root_ = some (ICondition.AndCondition
        [ICondition.ValueCondition "temperature" ">" (EventValue.int 30),
          ICondition.ValueCondition "humidity" "<" (EventValue.int 50)]) ∧
      rule.actions_config_ = [] :=
  parse_id_and_actions
    [("id", Json.string "complex_alert"), ("condition", andConditionJson),
      ("actions", Json.array [])]
    [("and", Json.array [leafJson "temperature" ">" (Json.number_unsigned 30),
      leafJson "humidity" "<" (Json.number_unsigned 50)])]
    _ rfl rfl
    (fun _ hj => ⟨"complex_alert", (Option.some.inj hj).symm⟩)
/-! ## Loading rules -/

/-- The loop of `loadRules`, started from any list, appends the rules of the
elements that `RuleParser::parse` accepts, in the order of the elements. -/
theorem RuleManager.loadLoop_eq (elements : List Json) (new_rules : List Rule) :
    RuleManager.loadLoop elements new_rules
      = new_rules ++ elements.filterMap (fun rule_json => (RuleParser.parse rule_json).toOption) := by
  induction elements generalizing new_rules with
  | nil => simp [RuleManager.loadLoop]
  | cons rule_json rest ih =>
    simp only [RuleManager.loadLoop, List.filterMap_cons]
    cases hparse : RuleParser.parse rule_json with
    | error e => simp [ih, Except.toOption]
    | ok rule => simp [ih, Except.toOption]

/-- The number of results of a `filterMap` is the number of elements that have one. -/
theorem length_filterMap_eq_length_filter {α β : Type} (l : List α) (f : α → Option β) :
    (l.filterMap f).length = (l.filter (fun a => (f a).isSome)).length := by
  induction l with
  | nil => rfl
  | cons a rest ih =>
    cases ha : f a <;> simp [List.filterMap_cons, List.filter_cons, ha, ih]

/-- C16: when `loadRules` reads a JSON array, the call succeeds and the rule
set becomes exactly the rules of the elements that `RuleParser::parse`
accepts, in their original array order; `getRulesCount` is the number of
accepted elements; an element that fails to parse is omitted, and the load
gives the same rules as for the array without that element. -/
theorem loadRules_keeps_accepted_elements (openFile : String → Option String)
    (parseText : String → Except String Json) (config_path text : String)
    (elements : List Json) (rules_ : List Rule)
    (hopen : openFile config_path = some text)
    (harray : parseText text = Except.ok (Json.array elements)) :
    RuleManager.loadRules openFile parseText config_path rules_
        = (Except.ok (), elements.filterMap
            (fun rule_json => (RuleParser.parse rule_json).toOption)) ∧
      RuleManager.getRulesCount
          (RuleManager.loadRules openFile parseText config_path rules_).2
        = (elements.filter
            (fun rule_json => (RuleParser.parse rule_json).toOption.isSome)).length ∧
      (∀ before bad after msg, elements = before ++ bad :: after →
        RuleParser.parse bad = Except.error msg →
        (RuleManager.loadRules openFile parseText config_path rules_).2
          = (before ++ after).filterMap
              (fun rule_json => (RuleParser.parse rule_json).toOption)) := by
  have hload : RuleManager.loadRules openFile parseText config_path rules_
      = (Except.ok (), elements.filterMap
          (fun rule_json => (RuleParser.parse rule_json).toOption)) := by
    simp [RuleManager.loadRules, hopen, harray, RuleManager.loadLoop_eq]
  refine ⟨hload, ?_, ?_⟩
  · rw [hload]
    exact length_filterMap_eq_length_filter elements _
  · rintro before bad after msg rfl hbad
    rw [hload]
    simp [List.filterMap_append, List.filterMap_cons, hbad, Except.toOption]

/-- The statement of C16 on an array of three elements whose second element is
not a rule: the two rules of the tests are loaded, in order. -/
theorem loadRules_keeps_accepted_elements_witness :
    ((RuleManager.loadRules scenarioFiles scenarioParser "rules.json" scenarioRules).2.map
        (fun rule => rule.id_)) = ["complex_alert", "nested_rule"] ∧
      RuleManager.getRulesCount
        (RuleManager.loadRules scenarioFiles scenarioParser "rules.json" scenarioRules).2 = 2 :=
  ⟨(congrArg (fun result => result.2.map (fun rule => rule.id_))
      (loadRules_keeps_accepted_elements scenarioFiles scenarioParser "rules.json" "rules"
        [andRuleJson, Json.number_unsigned 7, nestedRuleJson] scenarioRules rfl rfl).1).trans rfl,
    (loadRules_keeps_accepted_elements scenarioFiles scenarioParser "rules.json" "rules"
        [andRuleJson, Json.number_unsigned 7, nestedRuleJson] scenarioRules rfl rfl).2.1.trans
      rfl⟩

/-- C17: if the rules file cannot be opened, its text is not valid JSON, or the
top-level JSON value is not an array, `loadRules` fails and the rule set is
the one loaded before, so `getRulesCount` and every `evaluate` result are the
same as before the call. -/
theorem loadRules_failure_keeps_rules (openFile : String → Option String)
    (parseText : String → Except String Json) (config_path : String) (rules_ : List Rule)
    (hfail : openFile config_path = none ∨
      (∃ text what, openFile config_path = some text ∧ parseText text = Except.error what) ∨
      (∃ text j, openFile config_path = some text ∧ parseText text = Except.ok j ∧
        ∀ elements, j ≠ Json.array elements)) :
    (∃ msg, (RuleManager.loadRules openFile parseText config_path rules_).1
        = Except.error msg) ∧
      (RuleManager.loadRules openFile parseText config_path rules_).2 = rules_ ∧
      RuleManager.getRulesCount
          (RuleManager.loadRules openFile parseText config_path rules_).2
        = RuleManager.getRulesCount rules_ ∧
      (∀ event, RuleManager.evaluate
          (RuleManager.loadRules openFile parseText config_path rules_).2 event
        = RuleManager.evaluate rules_ event) := by
  have hkey : (∃ msg, (RuleManager.loadRules openFile parseText config_path rules_).1
        = Except.error msg) ∧
      (RuleManager.loadRules openFile parseText config_path rules_).2 = rules_ := by
    rcases hfail with hnone | ⟨text, what, hopen, herr⟩ | ⟨text, j, hopen, hok, hnot⟩
    · simp [RuleManager.loadRules, hnone]
    · simp [RuleManager.loadRules, hopen, herr]
    · cases j with
      | array elements => exact absurd rfl (hnot elements)
      | _ => simp [RuleManager.loadRules, hopen, hok]
  refine ⟨hkey.1, hkey.2, ?_, ?_⟩
  · rw [hkey.2]
  · intro event
    rw [hkey.2]

/-- The statement of C17 on a path that cannot be opened, with two rules
loaded before the call. -/
theorem loadRules_failure_keeps_rules_witness :
    scenarioFiles "missing.json" = none ∧
      RuleManager.getRulesCount
        (RuleManager.loadRules scenarioFiles scenarioParser "missing.json" scenarioRules).2
        = 2 :=
  ⟨by decide,
    (loadRules_failure_keeps_rules scenarioFiles scenarioParser "missing.json" scenarioRules
      (Or.inl (by decide))).2.2.1.trans rfl⟩
/-! ## Shapes the parser rejects -/

/-- The loop over an array fails as soon as one element fails to parse. -/
theorem RuleParser.parseConditions_error_of_mem (elements : List Json) (child : Json)
    (msg : String) (hmem : child ∈ elements)
    (hfail : RuleParser.parseCondition child = Except.error msg) :
    ∃ msg1, RuleParser.parseConditions elements = Except.error msg1 := by
  induction elements with
  | nil => simp at hmem
  | cons j rest ih =>
    simp only [RuleParser.parseConditions, bind, Except.bind]
    cases hj : RuleParser.parseCondition j with
    | error e => exact ⟨e, rfl⟩
    | ok c =>
      have hrest : child ∈ rest := by
        rcases List.mem_cons.mp hmem with rfl | h
        · rw [hj] at hfail
          cases hfail
        · exact h
      obtain ⟨msg1, h1⟩ := ih hrest
      exact ⟨msg1, by simp [h1]⟩

/-- An object with an `"and"` member is parsed from that member alone. -/
theorem RuleParser.parseCondition_and (members : List (String × Json)) (v : Json)
    (hand : members.lookup "and" = some v) :
    RuleParser.parseCondition (Json.object members) =
      (match v with
        | Json.array elements => RuleParser.parseConditions elements
        | _ => Except.error "AND condition must be an array.").map ICondition.AndCondition := by
  simp only [RuleParser.parseCondition, hand, Option.isSome_some, if_true,
    RuleParser.parseArrayAt_eq]
  cases v <;> rfl

/-- An object without `"and"` and with an `"or"` member is parsed from that
member alone. -/
theorem RuleParser.parseCondition_or (members : List (String × Json)) (v : Json)
    (hand : members.lookup "and" = none) (hor : members.lookup "or" = some v) :
    RuleParser.parseCondition (Json.object members) =
      (match v with
        | Json.array elements => RuleParser.parseConditions elements
        | _ => Except.error "OR condition must be an array.").map ICondition.OrCondition := by
  simp only [RuleParser.parseCondition, hand, hor, Option.isSome_some, Option.isSome_none,
    if_true, Bool.false_eq_true, if_false, RuleParser.parseArrayAt_eq]
  cases v <;> rfl

/-- An object without `"and"` and `"or"` and with a `"not"` member is parsed
from that member alone. -/
theorem RuleParser.parseCondition_not (members : List (String × Json)) (v : Json)
    (hand : members.lookup "and" = none) (hor : members.lookup "or" = none)
    (hnot : members.lookup "not" = some v) :
    RuleParser.parseCondition (Json.object members) =
      (match v with
        | Json.object inner => RuleParser.parseCondition (Json.object inner)
        | _ => Except.error "NOT condition must be an object.").map
        (fun cond => ICondition.NotCondition (some cond)) := by
  rw [RuleParser.parseCondition]
  simp only [hand, hor, hnot, Option.isSome_some, Option.isSome_none,
    if_true, Bool.false_eq_true, if_false, RuleParser.parseObjectAt_eq]
  cases v <;> rfl

/-- An object without `"and"`, `"or"` and `"not"` is parsed as a leaf. -/
theorem RuleParser.parseCondition_leaf (members : List (String × Json))
    (hand : members.lookup "and" = none) (hor : members.lookup "or" = none)
    (hnot : members.lookup "not" = none) :
    RuleParser.parseCondition (Json.object members) =
      match members.lookup "key", members.lookup "operator", members.lookup "value" with
      | some k, some o, some v => do
          let key ← k.getString
          let op ← o.getString
          let value ← RuleParser.parseValue key v
          pure (ICondition.ValueCondition key op value)
      | _, _, _ =>
          Except.error "Unknown condition type or missing required fields in condition JSON." := by
  rw [RuleParser.parseCondition]
  simp only [hand, hor, hnot, Option.isSome_none, Bool.false_eq_true, if_false]

/-- C12 (counterexample): the object `{"and": [], "or": {}}`, whose value
under `"or"` is not an array, and the object `{"and": [], "not": 5}`, whose
value under `"not"` is not an object, are both parsed, into an `And` node
without children. -/
theorem parseCondition_ignores_invalid_or_and_not :
    RuleParser.parseCondition (Json.object [("and", Json.array []), ("or", Json.object [])])
        = Except.ok (ICondition.AndCondition []) ∧
      RuleParser.parseCondition
          (Json.object [("and", Json.array []), ("not", Json.number_unsigned 5)])
        = Except.ok (ICondition.AndCondition []) :=
  ⟨rfl, rfl⟩

/-- C12 (amended): `parseCondition` fails, returning no tree, whenever the
shape selected in the order `"and"`, `"or"`, `"not"`, leaf is invalid: the
value under `"and"` is not an array; there is no `"and"` and the value under
`"or"` is not an array; there is neither `"and"` nor `"or"` and the value
under `"not"` is not an object; or the object has none of `"and"`, `"or"`,
`"not"` and lacks at least one of `"key"`, `"operator"`, `"value"`.  A failure
while parsing an element of the selected `"and"` or `"or"` array, or the
selected `"not"` object, makes the whole condition fail. -/
theorem parseCondition_fails_on_invalid_selected_shape (members : List (String × Json)) :
    (∀ v, members.lookup "and" = some v → (∀ elements, v ≠ Json.array elements) →
        ∃ msg, RuleParser.parseCondition (Json.object members) = Except.error msg) ∧
      (∀ v, members.lookup "and" = none → members.lookup "or" = some v →
        (∀ elements, v ≠ Json.array elements) →
        ∃ msg, RuleParser.parseCondition (Json.object members) = Except.error msg) ∧
      (∀ v, members.lookup "and" = none → members.lookup "or" = none →
        members.lookup "not" = some v → (∀ inner, v ≠ Json.object inner) →
        ∃ msg, RuleParser.parseCondition (Json.object members) = Except.error msg) ∧
      (members.lookup "and" = none → members.lookup "or" = none →
        members.lookup "not" = none →
        (members.lookup "key" = none ∨ members.lookup "operator" = none ∨
          members.lookup "value" = none) →
        ∃ msg, RuleParser.parseCondition (Json.object members) = Except.error msg) ∧
      (∀ elements child msg, members.lookup "and" = some (Json.array elements) →
        child ∈ elements → RuleParser.parseCondition child = Except.error msg →
        ∃ msg1, RuleParser.parseCondition (Json.object members) = Except.error msg1) ∧
      (∀ elements child msg, members.lookup "and" = none →
        members.lookup "or" = some (Json.array elements) →
        child ∈ elements → RuleParser.parseCondition child = Except.error msg →
        ∃ msg1, RuleParser.parseCondition (Json.object members) = Except.error msg1) ∧
      (∀ inner msg, members.lookup "and" = none → members.lookup "or" = none →
        members.lookup "not" = some (Json.object inner) →
        RuleParser.parseCondition (Json.object inner) = Except.error msg →
        ∃ msg1, RuleParser.parseCondition (Json.object members) = Except.error msg1) := by
  refine ⟨?_, ?_, ?_, ?_, ?_, ?_, ?_⟩
  · intro v hand hv
    rw [RuleParser.parseCondition_and members v hand]
    cases v with
    | array elements => exact absurd rfl (hv elements)
    | _ => exact ⟨_, rfl⟩
  · intro v hand hor hv
    rw [RuleParser.parseCondition_or members v hand hor]
    cases v with
    | array elements => exact absurd rfl (hv elements)
    | _ => exact ⟨_, rfl⟩
  · intro v hand hor hnot hv
    rw [RuleParser.parseCondition_not members v hand hor hnot]
    cases v with
    | object inner => exact absurd rfl (hv inner)
    | _ => exact ⟨_, rfl⟩
  · intro hand hor hnot hmiss
    rw [RuleParser.parseCondition_leaf members hand hor hnot]
    refine ⟨"Unknown condition type or missing required fields in condition JSON.", ?_⟩
    rcases hmiss with h | h | h
    · rw [h]
    · rw [h]
      cases members.lookup "key" <;> rfl
    · rw [h]
      cases members.lookup "key" <;> cases members.lookup "operator" <;> rfl
  · intro elements child msg hand hmem hfail
    rw [RuleParser.parseCondition_and members _ hand]
    obtain ⟨msg1, h1⟩ := RuleParser.parseConditions_error_of_mem elements child msg hmem hfail
    exact ⟨msg1, by simp [h1, Except.map]⟩
  · intro elements child msg hand hor hmem hfail
    rw [RuleParser.parseCondition_or members _ hand hor]
    obtain ⟨msg1, h1⟩ := RuleParser.parseConditions_error_of_mem elements child msg hmem hfail
    exact ⟨msg1, by simp [h1, Except.map]⟩
  · intro inner msg hand hor hnot hfail
    rw [RuleParser.parseCondition_not members _ hand hor hnot]
    exact ⟨msg, by simp [hfail, Except.map]⟩

/-- The statement of C12 (amended) on the object `{"and": {}}` of the
specification and on an `"or"` array whose second element is not a condition. -/
theorem parseCondition_fails_on_invalid_selected_shape_witness :
    (∃ msg, RuleParser.parseCondition (Json.object [("and", Json.object [])])
        = Except.error msg) ∧
      ∃ msg, RuleParser.parseCondition (Json.object [("or", Json.array
          [leafJson "a" "==" (Json.number_unsigned 1), Json.object []])])
        = Except.error msg :=
  ⟨(parseCondition_fails_on_invalid_selected_shape [("and", Json.object [])]).1
      (Json.object []) rfl (fun _ h => nomatch h),
    (parseCondition_fails_on_invalid_selected_shape [("or", Json.array
        [leafJson "a" "==" (Json.number_unsigned 1), Json.object []])]).2.2.2.2.2.1
      [leafJson "a" "==" (Json.number_unsigned 1), Json.object []] (Json.object [])
      "Unknown condition type or missing required fields in condition JSON."
      rfl rfl (by simp) rfl⟩
/-! ## Operators and integer literals of parsed leaves -/

/-- A leaf object is parsed into the leaf of its key, operator and converted value. -/
theorem RuleParser.parseCondition_leafJson (key op : String) (value : Json) :
    RuleParser.parseCondition (leafJson key op value)
      = (RuleParser.parseValue key value).map (ICondition.ValueCondition key op) := by
  cases value <;> rfl

/-- Under an operator string that is none of the six operators `compare`
returns false. -/
theorem ValueCondition.compare_of_unknown_op (op : String) (event_val rule_val : EventValue)
    (hop : op ∉ knownOperators) :
    ValueCondition.compare op event_val rule_val = false := by
  simp only [knownOperators, List.mem_cons, List.mem_singleton, not_or, List.not_mem_nil,
    not_false_eq_true, and_true] at hop
  obtain ⟨h1, h2, h3, h4, h5, h6⟩ := hop
  simp [ValueCondition.compare, h1, h2, h3, h4, h5, h6]

/-- C13 (counterexample): the leaf object with the operator `~=` is parsed,
into a leaf whose operator is `~=`, which is none of the six operators. -/
theorem parseCondition_accepts_unknown_operator :
    RuleParser.parseCondition (leafJson "x" "~=" (Json.number_unsigned 1))
        = Except.ok (ICondition.ValueCondition "x" "~=" (EventValue.int 1)) ∧
      "~=" ∉ knownOperators :=
  ⟨rfl, by decide⟩

/-- C13 (amended): `RuleParser` does not restrict the operator of a leaf: the
leaf built from a key/operator/value object (one without `"and"`, `"or"`,
`"not"`) carries the string under `"operator"` unchanged, whatever string it
is; a leaf whose operator is none of `==`, `!=`, `>`, `<`, `>=`, `<=` evaluates
to false on every event. -/
theorem parseCondition_keeps_operator_string (members : List (String × Json))
    (key op : String) (v : Json) (lit : EventValue)
    (hand : members.lookup "and" = none) (hor : members.lookup "or" = none)
    (hnot : members.lookup "not" = none)
    (hk : members.lookup "key" = some (Json.string key))
    (ho : members.lookup "operator" = some (Json.string op))
    (hv : members.lookup "value" = some v)
    (hlit : RuleParser.parseValue key v = Except.ok lit) :
    RuleParser.parseCondition (Json.object members)
        = Except.ok (ICondition.ValueCondition key op lit) ∧
      (op ∉ knownOperators →
        ∀ event, (ICondition.ValueCondition key op lit).evaluate event = false) := by
  constructor
  · rw [RuleParser.parseCondition_leaf members hand hor hnot, hk, ho, hv]
    simp [Json.getString, hlit, bind, Except.bind, pure, Except.pure]
  · intro hop event
    simp only [ICondition.evaluate, ValueCondition.evaluate]
    cases event.find key with
    | none => rfl
    | some event_val => exact ValueCondition.compare_of_unknown_op op event_val lit hop

/-- The statement of C13 (amended) on the leaf object with the operator `~=`
and the event of the test `ParseAndConditionRule`. -/
theorem parseCondition_keeps_operator_string_witness :
    RuleParser.parseCondition (leafJson "temperature" "~=" (Json.number_unsigned 35))
        = Except.ok (ICondition.ValueCondition "temperature" "~=" (EventValue.int 35)) ∧
      (ICondition.ValueCondition "temperature" "~=" (EventValue.int 35)).evaluate hotDryEvent
        = false :=
  ⟨(parseCondition_keeps_operator_string
      [("key", Json.string "temperature"), ("operator", Json.string "~="),
        ("value", Json.number_unsigned 35)]
      "temperature" "~=" (Json.number_unsigned 35) (EventValue.int 35)
      rfl rfl rfl rfl rfl rfl rfl).1,
    (parseCondition_keeps_operator_string
      [("key", Json.string "temperature"), ("operator", Json.string "~="),
        ("value", Json.number_unsigned 35)]
      "temperature" "~=" (Json.number_unsigned 35) (EventValue.int 35)
      rfl rfl rfl rfl rfl rfl rfl).2 (by decide) hotDryEvent⟩

/-- The narrowing to `int` keeps an integer of the 32-bit range. -/
theorem toInt32_of_int32 (n : Int) (hlo : -2147483648 ≤ n) (hhi : n < 2147483648) :
    toInt32 n = n := by
  unfold toInt32
  norm_num
  omega

/-- The lookup in a list with a first pair, by equality of the keys. -/
theorem lookup_cons_eq {β : Type} (k a : String) (b : β) (es : List (String × β)) :
    List.lookup k ((a, b) :: es) = if k = a then some b else es.lookup k := by
  by_cases h : k = a
  · subst h
    simp [List.lookup]
  · have hb : (k == a) = false := by simpa using h
    simp [List.lookup, hb, h]

/-- The assignment `data[key] = value` is read back at `key` and leaves every
other key as it was. -/
theorem lookup_mapAssign (data : List (String × EventValue)) (key k : String)
    (value : EventValue) :
    (mapAssign data key value).lookup k
      = if k = key then some value else data.lookup k := by
  induction data with
  | nil => simp [mapAssign, lookup_cons_eq]
  | cons kv rest ih =>
    obtain ⟨k1, v1⟩ := kv
    by_cases h1 : key = k1
    · subst h1
      by_cases hk : k = key <;> simp [mapAssign, lookup_cons_eq, hk]
    · have hb : (key == k1) = false := by simpa using h1
      simp only [mapAssign, hb, Bool.false_eq_true, if_false, lookup_cons_eq, ih]
      by_cases hk1 : k = k1
      · subst hk1
        simp [Ne.symm h1]
      · simp [hk1]

/-- A key that is no member name is not found by `lookup`. -/
theorem lookup_eq_none_of_not_mem {β : Type} (members : List (String × β)) (k : String)
    (h : k ∉ members.map Prod.fst) : members.lookup k = none := by
  induction members with
  | nil => rfl
  | cons kv rest ih =>
    obtain ⟨k1, v1⟩ := kv
    simp only [List.map_cons, List.mem_cons, not_or] at h
    simp [lookup_cons_eq, h.1, ih h.2]

/-- The field loop of `processRawJsonData`, on an object with distinct member
names, leaves at every key that is not skipped the converted value of the
member of that name, and the earlier entry when there is no such member. -/
theorem EventProcessor.lookup_mapFields (dump : Json → String)
    (members : List (String × Json)) (data : List (String × EventValue)) (k : String)
    (hnodup : (members.map Prod.fst).Nodup)
    (hk : EventProcessor.isReservedKey k = false) :
    (EventProcessor.mapFields dump members data).lookup k
      = match members.lookup k with
        | some value => some (EventProcessor.fieldValue dump value)
        | none => data.lookup k := by
  induction members generalizing data with
  | nil => rfl
  | cons kv rest ih =>
    obtain ⟨key, value⟩ := kv
    simp only [List.map_cons, List.nodup_cons] at hnodup
    by_cases hres : EventProcessor.isReservedKey key = true
    · have hne : k ≠ key := by
        rintro rfl
        rw [hk] at hres
        cases hres
      simp only [EventProcessor.mapFields, hres, if_true, ih data hnodup.2, lookup_cons_eq,
        hne, if_false]
    · simp only [EventProcessor.mapFields, hres, if_false, Bool.false_eq_true]
      rw [ih _ hnodup.2, lookup_mapAssign, lookup_cons_eq]
      by_cases hkk : k = key
      · subst hkk
        simp [lookup_eq_none_of_not_mem rest k hnodup.1]
      · simp [hkk]

/-- C11 (counterexample): the JSON integer `2147483648`, which lies in the
signed 64-bit range, is parsed as the condition literal `-2147483648` and is
mapped to the event field `-2147483648`. -/
theorem json_integer_beyond_int32_is_wrapped :
    RuleParser.parseCondition (leafJson "x" "==" (Json.number_unsigned 2147483648))
        = Except.ok (ICondition.ValueCondition "x" "==" (EventValue.int (-2147483648))) ∧
      EventProcessor.mapFields (fun _ => "") [("x", Json.number_unsigned 2147483648)] []
        = [("x", EventValue.int (-2147483648))] ∧
      (2147483648 : Int) < 2 ^ 63 :=
  ⟨rfl, by decide, by decide⟩

/-- C11 (amended): for every integer `n` of the signed 32-bit range, the range
of the `int` alternative of `EventValue`, a JSON integer `n` parsed as a
condition literal by `RuleParser`, or mapped as an event field by the field
loop of `processRawJsonData`, yields the integer scalar `n` itself. -/
theorem json_int32_integer_is_exact (n : Int) (hlo : -2147483648 ≤ n)
    (hhi : n < 2147483648) :
    (∀ key op, RuleParser.parseCondition (leafJson key op (Json.number_integer n))
        = Except.ok (ICondition.ValueCondition key op (EventValue.int n))) ∧
      (∀ key op, 0 ≤ n →
        RuleParser.parseCondition (leafJson key op (Json.number_unsigned n.toNat))
          = Except.ok (ICondition.ValueCondition key op (EventValue.int n))) ∧
      (∀ dump members data key, (members.map Prod.fst).Nodup →
        EventProcessor.isReservedKey key = false →
        members.lookup key = some (Json.number_integer n) →
        (EventProcessor.mapFields dump members data).lookup key = some (EventValue.int n)) ∧
      (∀ dump members data key, 0 ≤ n → (members.map Prod.fst).Nodup →
        EventProcessor.isReservedKey key = false →
        members.lookup key = some (Json.number_unsigned n.toNat) →
        (EventProcessor.mapFields dump members data).lookup key
          = some (EventValue.int n)) := by
  have h32 := toInt32_of_int32 n hlo hhi
  refine ⟨?_, ?_, ?_, ?_⟩
  · intro key op
    rw [RuleParser.parseCondition_leafJson]
    simp [RuleParser.parseValue, h32, Except.map]
  · intro key op h0
    rw [RuleParser.parseCondition_leafJson]
    simp [RuleParser.parseValue, Int.toNat_of_nonneg h0, h32, Except.map]
  · intro dump members data key hnodup hres hmem
    rw [EventProcessor.lookup_mapFields dump members data key hnodup hres, hmem]
    simp [EventProcessor.fieldValue, h32]
  · intro dump members data key h0 hnodup hres hmem
    rw [EventProcessor.lookup_mapFields dump members data key hnodup hres, hmem]
    simp [EventProcessor.fieldValue, Int.toNat_of_nonneg h0, h32]

/-- The statement of C11 (amended) at the largest 32-bit integer `2147483647`. -/
theorem json_int32_integer_is_exact_witness :
    RuleParser.parseCondition (leafJson "x" "==" (Json.number_integer 2147483647))
        = Except.ok (ICondition.ValueCondition "x" "==" (EventValue.int 2147483647)) ∧
      (EventProcessor.mapFields (fun _ => "") [("x", Json.number_integer 2147483647)]
        []).lookup "x" = some (EventValue.int 2147483647) :=
  ⟨(json_int32_integer_is_exact 2147483647 (by decide) (by decide)).1 "x" "==",
    (json_int32_integer_is_exact 2147483647 (by decide) (by decide)).2.2.1 (fun _ => "")
      [("x", Json.number_integer 2147483647)] [] "x" (by decide) (by decide) rfl⟩

/-! ## Event processor -/

/-- A list is not itself followed by one more element. -/
theorem ne_append_singleton {α : Type} (l : List α) (a : α) : l ≠ l ++ [a] := by
  intro h
  have hlen := congrArg List.length h
  simp at hlen

/-- The event that `processRawJsonData` pushes for an object: when the call
appends an event to the queue, the type was read without an exception and the
event is built from the generated id, that type, the source, the clock and
the field loop over the members. -/
theorem EventProcessor.processRawJsonData_pushed (parseText : String → Except String Json)
    (dump : Json → String) (now : Nat) (p : EventProcessor) (source_id raw : String)
    (members : List (String × Json)) (event : Event)
    (hparse : parseText raw = Except.ok (Json.object members))
    (hpush : (EventProcessor.processRawJsonData parseText dump now p source_id
        raw).event_queue_.queue_ = p.event_queue_.queue_ ++ [event]) :
    ∃ type, EventProcessor.jsonEventType (Json.object members) = Except.ok type ∧
      event = ⟨(generateUniqueId p.counter).1, type, source_id, now,
        EventProcessor.mapFields dump members []⟩ := by
  simp only [EventProcessor.processRawJsonData, hparse] at hpush
  cases htype : EventProcessor.jsonEventType (Json.object members) with
  | error e =>
    simp only [htype] at hpush
    exact absurd hpush (ne_append_singleton _ _)
  | ok type =>
    simp only [htype, EventQueue.push, EventProcessor.jsonMembers] at hpush
    refine ⟨type, rfl, ?_⟩
    have := List.append_cancel_left hpush
    simpa using this.symm

/-- C21: when `processRawJsonData` pushes an event for a JSON object, the
event's data holds, for every top-level field other than the reserved keys, an
integer scalar when the field is a JSON integer, the same float when it is a
non-integer number, the same boolean when it is a boolean, the same string
when it is a string, and the serialized JSON text of the field, as a string,
when it is an array or a nested object. -/
theorem processRawJsonData_maps_fields (parseText : String → Except String Json)
    (dump : Json → String) (now : Nat) (p : EventProcessor) (source_id raw : String)
    (members : List (String × Json)) (event : Event) (key : String) (v : Json)
    (hparse : parseText raw = Except.ok (Json.object members))
    (hnodup : (members.map Prod.fst).Nodup)
    (hpush : (EventProcessor.processRawJsonData parseText dump now p source_id
        raw).event_queue_.queue_ = p.event_queue_.queue_ ++ [event])
    (hkey : EventProcessor.isReservedKey key = false)
    (hv : members.lookup key = some v) :
    (∀ n, v = Json.number_integer n → event.find key = some (EventValue.int (toInt32 n))) ∧
      (∀ n, v = Json.number_unsigned n → event.find key = some (EventValue.int (toInt32 n))) ∧
      (∀ d, v = Json.number_float d → event.find key = some (EventValue.double d)) ∧
      (∀ b, v = Json.boolean b → event.find key = some (EventValue.bool b)) ∧
      (∀ s, v = Json.string s → event.find key = some (EventValue.string s)) ∧
      (∀ elements, v = Json.array elements →
        event.find key = some (EventValue.string (dump (Json.array elements)))) ∧
      (∀ inner, v = Json.object inner →
        event.find key = some (EventValue.string (dump (Json.object inner)))) := by
  obtain ⟨type, -, rfl⟩ :=
    EventProcessor.processRawJsonData_pushed parseText dump now p source_id raw members event
      hparse hpush
  have hfind : Event.find ⟨(generateUniqueId p.counter).1, type, source_id, now,
      EventProcessor.mapFields dump members []⟩ key
        = some (EventProcessor.fieldValue dump v) := by
    simp only [Event.find]
    rw [EventProcessor.lookup_mapFields dump members [] key hnodup hkey, hv]
  refine ⟨?_, ?_, ?_, ?_, ?_, ?_, ?_⟩ <;> rintro x rfl <;> rw [hfind] <;> rfl
/-- The statement of C21 on the text `reading` and its integer field `count`. -/
theorem processRawJsonData_maps_fields_witness :
    (EventProcessor.processRawJsonData processorParser processorDump 7 freshProcessor "src"
        "reading").event_queue_.queue_ = freshProcessor.event_queue_.queue_ ++ [readingEvent] ∧
      readingEvent.find "count" = some (EventValue.int (toInt32 (3 : Nat))) :=
  ⟨by decide,
    (processRawJsonData_maps_fields processorParser processorDump 7 freshProcessor "src"
      "reading"
      [("_source_id", Json.string "s1"), ("count", Json.number_unsigned 3),
        ("temperature", Json.number_float thirtyAndAHalf),
        ("type", Json.string "sensor_reading")]
      readingEvent "count" (Json.number_unsigned 3) rfl (by decide) (by decide) (by decide)
      rfl).2.1 3 rfl⟩

/-- C22 (counterexample): for the object with the one member `a`, a null, the
pushed event's data has an entry for `a`: the string `null`. -/
theorem processRawJsonData_keeps_null_field :
    (EventProcessor.processRawJsonData processorParser processorDump 0 freshProcessor "src"
        "null_field").event_queue_.queue_
      = [⟨"evt_0", "generic_json_event", "src", 0, [("a", EventValue.string "null")]⟩] := by
  decide

/-- C22 (amended): when `processRawJsonData` pushes an event for a JSON object,
a top-level field, other than the reserved keys, whose value is null is not
skipped: the event's data holds for that key the string that serializing the
null gives, as for an array or a nested object. -/
theorem processRawJsonData_null_field_as_text (parseText : String → Except String Json)
    (dump : Json → String) (now : Nat) (p : EventProcessor) (source_id raw : String)
    (members : List (String × Json)) (event : Event) (key : String)
    (hparse : parseText raw = Except.ok (Json.object members))
    (hnodup : (members.map Prod.fst).Nodup)
    (hpush : (EventProcessor.processRawJsonData parseText dump now p source_id
        raw).event_queue_.queue_ = p.event_queue_.queue_ ++ [event])
    (hkey : EventProcessor.isReservedKey key = false)
    (hnull : members.lookup key = some Json.null) :
    event.find key = some (EventValue.string (dump Json.null)) := by
  obtain ⟨type, -, rfl⟩ :=
    EventProcessor.processRawJsonData_pushed parseText dump now p source_id raw members event
      hparse hpush
  simp only [Event.find]
  rw [EventProcessor.lookup_mapFields dump members [] key hnodup hkey, hnull]
  rfl

/-- The statement of C22 (amended) on the object with the one member `a`, a null. -/
theorem processRawJsonData_null_field_as_text_witness :
    Event.find ⟨"evt_0", "generic_json_event", "src", 0, [("a", EventValue.string "null")]⟩ "a"
      = some (EventValue.string (processorDump Json.null)) :=
  processRawJsonData_null_field_as_text processorParser processorDump 0 freshProcessor "src"
    "null_field" [("a", Json.null)] _ "a" rfl (by decide) (by decide) (by decide) rfl

/-- C24 (counterexample): for the object whose `"type"` is the number 5 no event
is pushed: the queue, empty before the call, is empty after it. -/
theorem processRawJsonData_rejects_numeric_type :
    processorParser "numeric_type"
        = Except.ok (Json.object [("a", Json.number_unsigned 1),
            ("type", Json.number_unsigned 5)]) ∧
      (EventProcessor.processRawJsonData processorParser processorDump 0 freshProcessor "src"
        "numeric_type").event_queue_.queue_ = [] :=
  ⟨rfl, by decide⟩

/-- C24 (amended): for every JSON object passed to `processRawJsonData` whose
`"type"` field is a string or absent, an event is pushed whose type is that
string when the field is present and `generic_json_event` when it is absent;
for an object whose `"type"` is present and not a string no event is pushed. -/
theorem processRawJsonData_event_type (parseText : String → Except String Json)
    (dump : Json → String) (now : Nat) (p : EventProcessor) (source_id raw : String)
    (members : List (String × Json))
    (hparse : parseText raw = Except.ok (Json.object members)) :
    (∀ s, members.lookup "type" = some (Json.string s) →
        ∃ event, (EventProcessor.processRawJsonData parseText dump now p source_id
            raw).event_queue_.queue_ = p.event_queue_.queue_ ++ [event] ∧
          event.type = s) ∧
      (members.lookup "type" = none →
        ∃ event, (EventProcessor.processRawJsonData parseText dump now p source_id
            raw).event_queue_.queue_ = p.event_queue_.queue_ ++ [event] ∧
          event.type = "generic_json_event") ∧
      (∀ j, members.lookup "type" = some j → (∀ s, j ≠ Json.string s) →
        (EventProcessor.processRawJsonData parseText dump now p source_id
          raw).event_queue_ = p.event_queue_) := by
  refine ⟨?_, ?_, ?_⟩
  · intro s hs
    refine ⟨⟨(generateUniqueId p.counter).1, s, source_id, now,
      EventProcessor.mapFields dump members []⟩, ?_, rfl⟩
    simp [EventProcessor.processRawJsonData, hparse, EventProcessor.jsonEventType, hs,
      Json.getString, EventQueue.push, EventProcessor.jsonMembers]
  · intro hnone
    refine ⟨⟨(generateUniqueId p.counter).1, "generic_json_event", source_id, now,
      EventProcessor.mapFields dump members []⟩, ?_, rfl⟩
    simp [EventProcessor.processRawJsonData, hparse, EventProcessor.jsonEventType, hnone,
      EventQueue.push, EventProcessor.jsonMembers]
  · intro j hj hnot
    cases j with
    | string s => exact absurd rfl (hnot s)
    | _ => simp [EventProcessor.processRawJsonData, hparse, EventProcessor.jsonEventType, hj,
        Json.getString]

/-- The statement of C24 (amended) on the text `reading`, whose `"type"` is the
string `sensor_reading`. -/
theorem processRawJsonData_event_type_witness :
    ∃ event, (EventProcessor.processRawJsonData processorParser processorDump 7
        freshProcessor "src" "reading").event_queue_.queue_
          = freshProcessor.event_queue_.queue_ ++ [event] ∧
      event.type = "sensor_reading" :=
  (processRawJsonData_event_type processorParser processorDump 7 freshProcessor "src"
    "reading" _ rfl).1 "sensor_reading" rfl

/-- C25: when the text passed to `processRawJsonData` is not valid JSON, the
call returns and no event is pushed: the queue has the contents and the size
it had before the call. -/
theorem processRawJsonData_parse_error_keeps_queue
    (parseText : String → Except String Json) (dump : Json → String) (now : Nat)
    (p : EventProcessor) (source_id raw msg : String)
    (hparse : parseText raw = Except.error msg) :
    (EventProcessor.processRawJsonData parseText dump now p source_id raw).event_queue_
        = p.event_queue_ ∧
      (EventProcessor.processRawJsonData parseText dump now p source_id
        raw).event_queue_.size = p.event_queue_.size := by
  simp [EventProcessor.processRawJsonData, hparse]

/-- The statement of C25 on a text that the parser rejects, with one event in
the queue before the call. -/
theorem processRawJsonData_parse_error_keeps_queue_witness :
    processorParser "not json" = Except.error "parse error" ∧
      (EventProcessor.processRawJsonData processorParser processorDump 0
        ⟨EventQueue.mk [queueTestEvent], 3⟩ "src" "not json").event_queue_
        = EventQueue.mk [queueTestEvent] :=
  ⟨rfl,
    (processRawJsonData_parse_error_keeps_queue processorParser processorDump 0
      ⟨EventQueue.mk [queueTestEvent], 3⟩ "src" "not json" "parse error" rfl).1⟩
/-- The id that `generateUniqueId` returns is not empty. -/
theorem generateUniqueId_ne_empty (counter : Int) : (generateUniqueId counter).1 ≠ "" := by
  intro h
  have hdata := congrArg String.data h
  simp [generateUniqueId] at hdata

/-- C26 (counterexample): `processRawData` called with an empty source and an
empty type pushes an event whose source and type are empty. -/
theorem processRawData_pushes_empty_source_and_type :
    (EventProcessor.processRawData 0 freshProcessor "" "" (EventValue.int 1)
        "value").event_queue_.queue_
      = [⟨"evt_0", "", "", 0, [("value", EventValue.int 1)]⟩] := by
  decide

/-- C26 (amended): every event pushed to the queue by `processRawData`,
`processRawJsonData` or `processStructuredData` has a non-empty id; its source
is the caller's `source_id`, unchanged, and its type is the caller's
`event_type`, unchanged (for `processRawJsonData` the type read from the
parsed JSON: its `"type"` string, or `generic_json_event`). -/
theorem pushed_event_id_source_type (parseText : String → Except String Json)
    (dump : Json → String) (now : Nat) (p : EventProcessor) (source_id : String) :
    (∀ event_type data_value data_key, ∃ event,
        (EventProcessor.processRawData now p source_id event_type data_value
          data_key).event_queue_.queue_ = p.event_queue_.queue_ ++ [event] ∧
        event.id ≠ "" ∧ event.source = source_id ∧ event.type = event_type) ∧
      (∀ raw event,
        (EventProcessor.processRawJsonData parseText dump now p source_id
          raw).event_queue_.queue_ = p.event_queue_.queue_ ++ [event] →
        event.id ≠ "" ∧ event.source = source_id ∧
          ∃ json_obj, parseText raw = Except.ok json_obj ∧
            EventProcessor.jsonEventType json_obj = Except.ok event.type) ∧
      (∀ event_type j_data event,
        (EventProcessor.processStructuredData dump now p source_id event_type
          j_data).event_queue_.queue_ = p.event_queue_.queue_ ++ [event] →
        event.id ≠ "" ∧ event.source = source_id ∧ event.type = event_type) := by
  refine ⟨?_, ?_, ?_⟩
  · intro event_type data_value data_key
    exact ⟨_, rfl, generateUniqueId_ne_empty p.counter, rfl, rfl⟩
  · intro raw event hpush
    simp only [EventProcessor.processRawJsonData] at hpush
    cases hparse : parseText raw with
    | error e =>
      simp only [hparse] at hpush
      exact absurd hpush (ne_append_singleton _ _)
    | ok json_obj =>
      simp only [hparse] at hpush
      cases htype : EventProcessor.jsonEventType json_obj with
      | error e =>
        simp only [htype] at hpush
        exact absurd hpush (ne_append_singleton _ _)
      | ok type =>
        simp only [htype, EventQueue.push] at hpush
        have hev := List.append_cancel_left hpush
        simp only [List.cons.injEq, and_true] at hev
        subst hev
        exact ⟨generateUniqueId_ne_empty p.counter, rfl, json_obj, rfl, htype⟩
  · intro event_type j_data event hpush
    cases j_data with
    | object members =>
      simp only [EventProcessor.processStructuredData, EventQueue.push] at hpush
      have hev := List.append_cancel_left hpush
      simp only [List.cons.injEq, and_true] at hev
      subst hev
      exact ⟨generateUniqueId_ne_empty p.counter, rfl, rfl⟩
    | _ =>
      simp only [EventProcessor.processStructuredData] at hpush
      exact absurd hpush (ne_append_singleton _ _)

/-- The statement of C26 (amended) on the event that `processRawJsonData`
pushes for the text `reading`. -/
theorem pushed_event_id_source_type_witness :
    readingEvent.id ≠ "" ∧ readingEvent.source = "src" ∧
      ∃ json_obj, processorParser "reading" = Except.ok json_obj ∧
        EventProcessor.jsonEventType json_obj = Except.ok readingEvent.type :=
  (pushed_event_id_source_type processorParser processorDump 7 freshProcessor "src").2.1
    "reading" readingEvent (by decide)

/-! ## Action factory and dispatcher -/

/-- The registration `creators_[type_name] = creator` is read back at
`type_name` and leaves every other name as it was. -/
theorem ActionFactory.lookup_registerAction {Action : Type}
    (creators_ : List (String × ActionFactory.ActionCreator Action))
    (type_name k : String) (creator : ActionFactory.ActionCreator Action) :
    (ActionFactory.registerAction creators_ type_name creator).lookup k
      = if k = type_name then some creator else creators_.lookup k := by
  induction creators_ with
  | nil => simp [ActionFactory.registerAction, lookup_cons_eq]
  | cons kv rest ih =>
    obtain ⟨name, c⟩ := kv
    by_cases h1 : type_name = name
    · subst h1
      by_cases hk : k = type_name <;> simp [ActionFactory.registerAction, lookup_cons_eq, hk]
    · have hb : (type_name == name) = false := by simpa using h1
      simp only [ActionFactory.registerAction, hb, Bool.false_eq_true, if_false,
        lookup_cons_eq, ih]
      by_cases hk1 : k = name
      · subst hk1
        simp [Ne.symm h1]
      · simp [hk1]

/-- C27: `createAction` succeeds only when the configuration has a string
`"type"` that names a registered kind, and it then returns what the creator
found under that name returns for the configuration, which is the creator
most recently registered under the name (a later `registerAction` for a name
replaces the earlier one and changes no other name); when `"type"` is
missing, is not a string, or names no registered kind, `createAction` fails. -/
theorem createAction_uses_registered_creator {Action : Type}
    (creators_ : List (String × ActionFactory.ActionCreator Action)) (action_config : Json) :
    (∀ action, ActionFactory.createAction creators_ action_config = Except.ok action →
        ∃ members action_type creator, action_config = Json.object members ∧
          members.lookup "type" = some (Json.string action_type) ∧
          creators_.lookup action_type = some creator ∧
          creator action_config = Except.ok action) ∧
      (∀ members action_type creator, action_config = Json.object members →
        members.lookup "type" = some (Json.string action_type) →
        creators_.lookup action_type = some creator →
        ActionFactory.createAction creators_ action_config = creator action_config) ∧
      (∀ type_name creator k,
        (ActionFactory.registerAction creators_ type_name creator).lookup k
          = if k = type_name then some creator else creators_.lookup k) ∧
      (∀ members action_type creator, action_config = Json.object members →
        members.lookup "type" = some (Json.string action_type) →
        ActionFactory.createAction
            (ActionFactory.registerAction creators_ action_type creator) action_config
          = creator action_config) ∧
      ((∀ members, action_config ≠ Json.object members) →
        ∃ msg, ActionFactory.createAction creators_ action_config = Except.error msg) ∧
      (∀ members, action_config = Json.object members →
        (∀ action_type, members.lookup "type" ≠ some (Json.string action_type)) →
        ∃ msg, ActionFactory.createAction creators_ action_config = Except.error msg) ∧
      (∀ members action_type, action_config = Json.object members →
        members.lookup "type" = some (Json.string action_type) →
        creators_.lookup action_type = none →
        ∃ msg, ActionFactory.createAction creators_ action_config = Except.error msg) := by
  have hfound : ∀ (cs : List (String × ActionFactory.ActionCreator Action)) members
      action_type creator, members.lookup "type" = some (Json.string action_type) →
      cs.lookup action_type = some creator →
      ActionFactory.createAction cs (Json.object members) = creator (Json.object members) := by
    intro cs members action_type creator htype hlook
    simp [ActionFactory.createAction, htype, hlook]
  refine ⟨?_, ?_, ?_, ?_, ?_, ?_, ?_⟩
  · intro action hok
    cases action_config with
    | object members =>
      simp only [ActionFactory.createAction] at hok
      split at hok
      · rename_i action_type htype
        split at hok
        · rename_i creator hlook
          exact ⟨members, action_type, creator, rfl, htype, hlook, hok⟩
        · cases hok
      · cases hok
    | _ => simp [ActionFactory.createAction] at hok
  · rintro members action_type creator rfl htype hlook
    exact hfound creators_ members action_type creator htype hlook
  · intro type_name creator k
    exact ActionFactory.lookup_registerAction creators_ type_name k creator
  · rintro members action_type creator rfl htype
    exact hfound _ members action_type creator htype
      (by rw [ActionFactory.lookup_registerAction]; simp)
  · intro hno
    cases action_config with
    | object members => exact absurd rfl (hno members)
    | _ => exact ⟨_, rfl⟩
  · rintro members rfl hno
    refine ⟨"Action config must contain a 'type' string.", ?_⟩
    cases htype : members.lookup "type" with
    | none => simp [ActionFactory.createAction, htype]
    | some j =>
      cases j with
      | string action_type => exact absurd htype (hno action_type)
      | _ => simp [ActionFactory.createAction, htype]
  · rintro members action_type rfl htype hnone
    exact ⟨"Unknown action type: " ++ action_type,
      by simp [ActionFactory.createAction, htype, hnone]⟩
/-- The statement of C27 on the configuration of the test
`CreateUnknownActionType`, whose type names no registered kind, and on a log
configuration. -/
theorem createAction_uses_registered_creator_witness :
    (∃ msg, ActionFactory.createAction scenarioCreators unknownActionJson
        = Except.error msg) ∧
      ActionFactory.createAction scenarioCreators (logActionJson "hello")
        = Except.ok "log: hello" :=
  ⟨(createAction_uses_registered_creator scenarioCreators unknownActionJson).2.2.2.2.2.2
      [("type", Json.string "unknown_action"), ("message", Json.string "Some data")]
      "unknown_action" rfl rfl rfl,
    ((createAction_uses_registered_creator scenarioCreators
      (logActionJson "hello")).2.1
      [("type", Json.string "log"), ("message", Json.string "hello")]
      "log" logCreator rfl rfl rfl).trans rfl⟩

/-- The loop of `dispatch` on a running pool appends one task for every
configuration whose action is created, in the order of the configurations. -/
theorem ActionDispatcher.dispatch_eq {Action : Type}
    (creators_ : List (String × ActionFactory.ActionCreator Action))
    (pool : ThreadPool Action) (actions_config : List Json) (event : Event)
    (hrun : pool.stop_ = false) :
    ActionDispatcher.dispatch creators_ pool actions_config event
      = ⟨pool.tasks_ ++ (actions_config.filterMap
          (fun action_cfg => (ActionFactory.createAction creators_ action_cfg).toOption)).map
            (fun action => (action, event)), false⟩ := by
  induction actions_config generalizing pool with
  | nil =>
    obtain ⟨tasks, stop⟩ := pool
    simp only at hrun
    subst hrun
    simp [ActionDispatcher.dispatch]
  | cons action_cfg rest ih =>
    simp only [ActionDispatcher.dispatch, List.filterMap_cons]
    cases hcreate : ActionFactory.createAction creators_ action_cfg with
    | error e => simp [ih pool hrun, Except.toOption]
    | ok action =>
      simp only [ThreadPool.enqueue, hrun, Bool.false_eq_true, if_false]
      rw [ih ⟨pool.tasks_ ++ [(action, event)], false⟩ rfl]
      simp [Except.toOption]

/-- C28: on a running pool `dispatch` submits exactly one task for every
configuration whose construction by the factory succeeds, in the original
order of the configurations; the number of submitted tasks is the number of
successful constructions; a configuration whose construction fails submits
nothing, and the tasks are those of the list without it. -/
theorem dispatch_submits_created_actions {Action : Type}
    (creators_ : List (String × ActionFactory.ActionCreator Action))
    (pool : ThreadPool Action) (actions_config : List Json) (event : Event)
    (hrun : pool.stop_ = false) :
    (ActionDispatcher.dispatch creators_ pool actions_config event).tasks_
        = pool.tasks_ ++ (actions_config.filterMap
            (fun action_cfg => (ActionFactory.createAction creators_ action_cfg).toOption)).map
              (fun action => (action, event)) ∧
      (ActionDispatcher.dispatch creators_ pool actions_config event).tasks_.length
        = pool.tasks_.length + (actions_config.filter (fun action_cfg =>
            (ActionFactory.createAction creators_ action_cfg).toOption.isSome)).length ∧
      (∀ before bad after msg, actions_config = before ++ bad :: after →
        ActionFactory.createAction creators_ bad = Except.error msg →
        ActionDispatcher.dispatch creators_ pool actions_config event
          = ActionDispatcher.dispatch creators_ pool (before ++ after) event) := by
  refine ⟨?_, ?_, ?_⟩
  · rw [ActionDispatcher.dispatch_eq creators_ pool actions_config event hrun]
  · rw [ActionDispatcher.dispatch_eq creators_ pool actions_config event hrun]
    simp only [List.length_append, List.length_map]
    rw [length_filterMap_eq_length_filter]
  · rintro before bad after msg rfl hbad
    rw [ActionDispatcher.dispatch_eq creators_ pool _ event hrun,
      ActionDispatcher.dispatch_eq creators_ pool _ event hrun]
    simp [List.filterMap_append, List.filterMap_cons, hbad, Except.toOption]

/-- The statement of C28 on three configurations whose second one names an
unknown kind: two tasks are submitted, in order. -/
theorem dispatch_submits_created_actions_witness :
    (ActionDispatcher.dispatch scenarioCreators ⟨[], false⟩
        [logActionJson "first", unknownActionJson, logActionJson "second"]
        emptyEvent).tasks_
      = [("log: first", emptyEvent), ("log: second", emptyEvent)] :=
  (dispatch_submits_created_actions scenarioCreators ⟨[], false⟩
    [logActionJson "first", unknownActionJson, logActionJson "second"] emptyEvent rfl).1.trans
    rfl

/-! ## Placeholder substitution -/

/-- The visitor turns every value into the fallback text: no branch of its
`if constexpr` chain is taken, the type of the parameter being a reference. -/
theorem placeholderValueText_eq (double_to_string : Double → String) (arg : EventValue) :
    placeholderValueText double_to_string arg = "[Unsupported Type]" := by
  cases arg <;> rfl

/-- C29 (the code at the failing input): on the template `{a{b} {c}` and an
event without data, whose first placeholder has the key `a{b`, `formatMessage`
returns `[MISSING_a[MISSING_b] {c]`: after the first replacement the search
goes on inside the inserted tag, at its brace, and not after it.  The text
after the placeholder alone is formatted to ` [MISSING_c]`, so the value the
claim states is `[MISSING_a{b] [MISSING_c]`. -/
theorem formatMessage_searches_inside_missing_tag :
    emptyEvent.find "a\x7bb" = none ∧
      LogAction.formatMessage noDoubleText "\x7ba\x7bb\x7d \x7bc\x7d" emptyEvent
        = some "[MISSING_a[MISSING_b] \x7bc]" ∧
      LogAction.formatMessage noDoubleText " \x7bc\x7d" emptyEvent = some " [MISSING_c]" ∧
      "" ++ "[MISSING_" ++ "a\x7bb" ++ "]" ++ " [MISSING_c]" = "[MISSING_a\x7bb] [MISSING_c]" ∧
      "[MISSING_a[MISSING_b] \x7bc]" ≠ "[MISSING_a\x7bb] [MISSING_c]" := by
  decide

/-- C30 (the code at the failing input): on the template `v={value}!` and an
event whose `value` is the integer 5, `formatMessage` and `formatCommand`
return `v=[Unsupported Type]!`, while the text of the value is `5` and the
value the claim states is `v=5!`. -/
theorem formatMessage_inserts_unsupported_type :
    valueFiveEvent.find "value" = some (EventValue.int 5) ∧
      LogAction.formatMessage noDoubleText "v=\x7bvalue\x7d!" valueFiveEvent
        = some "v=[Unsupported Type]!" ∧
      ShellCommandAction.formatCommand noDoubleText "v=\x7bvalue\x7d!" valueFiveEvent
        = some "v=[Unsupported Type]!" ∧
      LogAction.formatMessage noDoubleText "!" valueFiveEvent = some "!" ∧
      "v=" ++ Spec.text noDoubleText (EventValue.int 5) ++ "!" = "v=5!" := by
  decide

/-! ## Algebra of condition trees -/

/-- C40: for every list of conditions and every event, `Not` of the `And` of
the list evaluates the same as the `Or` of the conditions each wrapped in
`Not`, and `Not` of the `Or` of the list the same as the `And` of the
conditions each wrapped in `Not`; for the empty list both sides of the first
law are false and both sides of the second are true. -/
theorem not_and_or_de_morgan (cs : List ICondition) (event : Event) :
    (ICondition.NotCondition (some (ICondition.AndCondition cs))).evaluate event
        = (ICondition.OrCondition
            (cs.map (fun c => ICondition.NotCondition (some c)))).evaluate event ∧
      (ICondition.NotCondition (some (ICondition.OrCondition cs))).evaluate event
        = (ICondition.AndCondition
            (cs.map (fun c => ICondition.NotCondition (some c)))).evaluate event ∧
      (ICondition.NotCondition (some (ICondition.AndCondition []))).evaluate event = false ∧
      (ICondition.NotCondition (some (ICondition.OrCondition []))).evaluate event = true := by
  refine ⟨?_, ?_, ?_, ?_⟩
  · simp only [ICondition.evaluate, NotCondition.evaluate, AndCondition.evaluate_eq_all,
      OrCondition.evaluate_eq_any]
    induction cs with
    | nil => rfl
    | cons c rest ih =>
      simp only [List.all_cons, List.map_cons, List.any_cons, Bool.not_and, ih,
        ICondition.evaluate, NotCondition.evaluate]
  · simp only [ICondition.evaluate, NotCondition.evaluate, AndCondition.evaluate_eq_all,
      OrCondition.evaluate_eq_any]
    induction cs with
    | nil => rfl
    | cons c rest ih =>
      simp only [List.all_cons, List.map_cons, List.any_cons, Bool.not_or, ih,
        ICondition.evaluate, NotCondition.evaluate]
  · simp [ICondition.evaluate, NotCondition.evaluate, AndCondition.evaluate]
  · simp [ICondition.evaluate, NotCondition.evaluate, OrCondition.evaluate]
/-! ## Comparisons that the leaf does not make -/

/-- C33 (the code at the failing input): on an event whose `name` is the string
`apple` the leaves `name < "banana"` and `name < "apples"` evaluate to false,
although `apple` is smaller than `banana` and is a proper prefix of `apples`;
two strings are compared by `==` and `!=` as equality and inequality, and every
other operator string gives false. -/
theorem string_relational_leaf_is_false :
    (eventWith [("name", EventValue.string "apple")]).find "name"
        = some (EventValue.string "apple") ∧
      (ICondition.ValueCondition "name" "<" (EventValue.string "banana")).evaluate
        (eventWith [("name", EventValue.string "apple")]) = false ∧
      Spec.stringOp "<" "apple" "banana" = true ∧
      (ICondition.ValueCondition "name" "<" (EventValue.string "apples")).evaluate
        (eventWith [("name", EventValue.string "apple")]) = false ∧
      Spec.stringOp "<" "apple" "apples" = true ∧
      (ICondition.ValueCondition "name" ">=" (EventValue.string "apple")).evaluate
        (eventWith [("name", EventValue.string "apple")]) = false ∧
      Spec.stringOp ">=" "apple" "apple" = true ∧
      ∀ (op s t : String),
        ValueCondition.compare op (EventValue.string s) (EventValue.string t)
          = if op = "==" then decide (s = t)
            else if op = "!=" then !decide (s = t)
            else false := by
  have h1 : "apple" < "banana" := by
    rw [String.lt_iff_toList_lt]
    decide
  have h2 : "apple" < "apples" := by
    rw [String.lt_iff_toList_lt]
    decide
  have h3 : "apple" ≥ "apple" := by
    show ¬ ("apple" < "apple")
    rw [String.lt_iff_toList_lt]
    decide
  refine ⟨by decide, by decide, by simp [Spec.stringOp, h1], by decide,
    by simp [Spec.stringOp, h2], by decide, by simp [Spec.stringOp, h3], ?_⟩
  intro op s t
  rw [ValueCondition.compare_of_tag_eq op (EventValue.string s) (EventValue.string t) rfl]
  rfl

/-- C39 (the code at the failing input): on an event whose `temperature` is the
float `30.5` the leaf `temperature != 30` with an integer literal is false
while `Not` of the leaf `temperature == 30` is true, although an integer and a
float are compared after promotion, under which `30.5 != 30` holds and agrees
with the negation of `30.5 == 30`.  In the code the `!=` leaf agrees with `Not`
of the `==` leaf exactly on the events that have the key with a value of the
literal's own alternative. -/
theorem ne_leaf_differs_from_not_eq_on_int_and_float :
    floatTemperatureEvent.find "temperature" = some (EventValue.double thirtyAndAHalf) ∧
      (ICondition.ValueCondition "temperature" "!=" (EventValue.int 30)).evaluate
        floatTemperatureEvent = false ∧
      (ICondition.NotCondition (some (ICondition.ValueCondition "temperature" "=="
        (EventValue.int 30)))).evaluate floatTemperatureEvent = true ∧
      Spec.compare "!=" (EventValue.double thirtyAndAHalf) (EventValue.int 30) = true ∧
      (!Spec.compare "==" (EventValue.double thirtyAndAHalf) (EventValue.int 30)) = true ∧
      ∀ (key : String) (value : EventValue) (event : Event),
        ((ICondition.ValueCondition key "!=" value).evaluate event
            = (ICondition.NotCondition
                (some (ICondition.ValueCondition key "==" value))).evaluate event) ↔
          ∃ event_val, event.find key = some event_val ∧ event_val.tag = value.tag := by
  refine ⟨by decide, by decide, by decide, by decide, by decide, ?_⟩
  intro key value event
  simp only [ICondition.evaluate, NotCondition.evaluate, ValueCondition.evaluate]
  cases hfind : event.find key with
  | none => simp
  | some event_val =>
    by_cases htag : event_val.tag = value.tag
    · simp [ValueCondition.compare_of_tag_eq _ _ _ htag, htag]
    · simp [ValueCondition.compare_of_tag_ne _ _ _ htag, htag]

/-! ## Selection of the node kind -/

/-- The loop over an array succeeds exactly when every element is parsed, and
its result lists the trees of the elements in their order. -/
theorem RuleParser.parseConditions_eq_ok (elements : List Json) :
    ∀ children : List ICondition,
      RuleParser.parseConditions elements = Except.ok children ↔
        List.Forall₂ (fun sub_cond_json cond =>
          RuleParser.parseCondition sub_cond_json = Except.ok cond) elements children := by
  induction elements with
  | nil =>
    intro children
    simp only [RuleParser.parseConditions, List.forall₂_nil_left_iff]
    constructor
    · intro h
      cases h
      rfl
    · rintro rfl
      rfl
  | cons j rest ih =>
    intro children
    simp only [RuleParser.parseConditions, bind, Except.bind]
    cases hj : RuleParser.parseCondition j with
    | error e =>
      constructor
      · intro h
        cases h
      · intro h
        cases h with
        | cons h1 _ =>
          rw [hj] at h1
          cases h1
    | ok cond =>
      cases hrest : RuleParser.parseConditions rest with
      | error e =>
        constructor
        · intro h
          cases h
        · intro h
          cases h with
          | cons _ h2 =>
            rw [← ih, hrest] at h2
            cases h2
      | ok conds =>
        constructor
        · intro h
          cases h
          exact List.Forall₂.cons hj ((ih conds).mp hrest)
        · intro h
          cases h with
          | cons h1 h2 =>
            rw [hj] at h1
            cases h1
            rw [← ih, hrest] at h2
            cases h2
            rfl

/-- C34: `parseCondition` chooses the node kind by the first of the keys
`"and"`, `"or"`, `"not"` that the object has.  With an `"and"` member the
result is an `And` node whose children are the trees of the elements of that
member's array, in their order, and an error exactly when that member is no
array or one of its elements fails; without `"and"` and with `"or"` it is the
`Or` node of the `"or"` member in the same way; with neither and with `"not"`
it is the `Not` node over the tree of the `"not"` member's object, and an
error when that member is no object or fails.  In each case the result is
also the result on the object that has the selected member alone, so that no
other member changes the tree or causes an error. -/
theorem parseCondition_first_key_decides (members : List (String × Json)) (v : Json) :
    (members.lookup "and" = some v →
        RuleParser.parseCondition (Json.object members)
          = (match v with
              | Json.array elements => RuleParser.parseConditions elements
              | _ => Except.error "AND condition must be an array.").map
              ICondition.AndCondition ∧
        (∀ elements children, v = Json.array elements →
          List.Forall₂ (fun sub_cond_json cond =>
            RuleParser.parseCondition sub_cond_json = Except.ok cond) elements children →
          RuleParser.parseCondition (Json.object members)
            = Except.ok (ICondition.AndCondition children)) ∧
        (∀ tree, RuleParser.parseCondition (Json.object members) = Except.ok tree →
          ∃ elements children, v = Json.array elements ∧
            tree = ICondition.AndCondition children ∧
            List.Forall₂ (fun sub_cond_json cond =>
              RuleParser.parseCondition sub_cond_json = Except.ok cond) elements children) ∧
        RuleParser.parseCondition (Json.object members)
          = RuleParser.parseCondition (Json.object [("and", v)])) ∧
      (members.lookup "and" = none → members.lookup "or" = some v →
        RuleParser.parseCondition (Json.object members)
          = (match v with
              | Json.array elements => RuleParser.parseConditions elements
              | _ => Except.error "OR condition must be an array.").map
              ICondition.OrCondition ∧
        (∀ elements children, v = Json.array elements →
          List.Forall₂ (fun sub_cond_json cond =>
            RuleParser.parseCondition sub_cond_json = Except.ok cond) elements children →
          RuleParser.parseCondition (Json.object members)
            = Except.ok (ICondition.OrCondition children)) ∧
        (∀ tree, RuleParser.parseCondition (Json.object members) = Except.ok tree →
          ∃ elements children, v = Json.array elements ∧
            tree = ICondition.OrCondition children ∧
            List.Forall₂ (fun sub_cond_json cond =>
              RuleParser.parseCondition sub_cond_json = Except.ok cond) elements children) ∧
        RuleParser.parseCondition (Json.object members)
          = RuleParser.parseCondition (Json.object [("or", v)])) ∧
      (members.lookup "and" = none → members.lookup "or" = none →
        members.lookup "not" = some v →
        RuleParser.parseCondition (Json.object members)
          = (match v with
              | Json.object inner => RuleParser.parseCondition (Json.object inner)
              | _ => Except.error "NOT condition must be an object.").map
              (fun cond => ICondition.NotCondition (some cond)) ∧
        (∀ inner cond, v = Json.object inner →
          RuleParser.parseCondition (Json.object inner) = Except.ok cond →
          RuleParser.parseCondition (Json.object members)
            = Except.ok (ICondition.NotCondition (some cond))) ∧
        (∀ tree, RuleParser.parseCondition (Json.object members) = Except.ok tree →
          ∃ inner cond, v = Json.object inner ∧
            tree = ICondition.NotCondition (some cond) ∧
            RuleParser.parseCondition (Json.object inner) = Except.ok cond) ∧
        RuleParser.parseCondition (Json.object members)
          = RuleParser.parseCondition (Json.object [("not", v)])) := by
  have harray : ∀ (msg : String) (node : List ICondition → ICondition),
      (∀ elements children, v = Json.array elements →
        List.Forall₂ (fun sub_cond_json cond =>
          RuleParser.parseCondition sub_cond_json = Except.ok cond) elements children →
        (match v with
          | Json.array elements => RuleParser.parseConditions elements
          | _ => Except.error msg).map node = Except.ok (node children)) ∧
      (∀ tree, (match v with
          | Json.array elements => RuleParser.parseConditions elements
          | _ => Except.error msg).map node = Except.ok tree →
        ∃ elements children, v = Json.array elements ∧ tree = node children ∧
          List.Forall₂ (fun sub_cond_json cond =>
            RuleParser.parseCondition sub_cond_json = Except.ok cond) elements children) := by
    intro msg node
    refine ⟨?_, ?_⟩
    · rintro elements children rfl hall
      simp only [(RuleParser.parseConditions_eq_ok elements children).mpr hall]
      rfl
    · intro tree htree
      cases v with
      | array elements =>
        simp only at htree
        cases hparse : RuleParser.parseConditions elements with
        | error e =>
          rw [hparse] at htree
          cases htree
        | ok children =>
          rw [hparse] at htree
          cases htree
          exact ⟨elements, children, rfl, rfl,
            (RuleParser.parseConditions_eq_ok elements children).mp hparse⟩
      | _ => cases htree
  refine ⟨?_, ?_, ?_⟩
  · intro hand
    have hshape := RuleParser.parseCondition_and members v hand
    refine ⟨hshape, ?_, ?_, ?_⟩
    · intro elements children hv hall
      rw [hshape]
      exact (harray _ ICondition.AndCondition).1 elements children hv hall
    · intro tree htree
      rw [hshape] at htree
      exact (harray _ ICondition.AndCondition).2 tree htree
    · rw [hshape, RuleParser.parseCondition_and [("and", v)] v rfl]
  · intro hand hor
    have hshape := RuleParser.parseCondition_or members v hand hor
    refine ⟨hshape, ?_, ?_, ?_⟩
    · intro elements children hv hall
      rw [hshape]
      exact (harray _ ICondition.OrCondition).1 elements children hv hall
    · intro tree htree
      rw [hshape] at htree
      exact (harray _ ICondition.OrCondition).2 tree htree
    · rw [hshape, RuleParser.parseCondition_or [("or", v)] v rfl rfl]
  · intro hand hor hnot
    have hshape := RuleParser.parseCondition_not members v hand hor hnot
    refine ⟨hshape, ?_, ?_, ?_⟩
    · rintro inner cond rfl hinner
      rw [hshape]
      simp only [hinner]
      rfl
    · intro tree htree
      rw [hshape] at htree
      cases v with
      | object inner =>
        simp only at htree
        cases hparse : RuleParser.parseCondition (Json.object inner) with
        | error e =>
          rw [hparse] at htree
          cases htree
        | ok cond =>
          rw [hparse] at htree
          cases htree
          exact ⟨inner, cond, rfl, rfl, hparse⟩
      | _ => cases htree
    · rw [hshape, RuleParser.parseCondition_not [("not", v)] v rfl rfl rfl]

/-- The statement of C34 on an object that has, besides `"and"`, an `"or"`
that is no array, a `"not"` that is no object and an incomplete leaf: it is
parsed into the `And` node over the one leaf of the `"and"` array; on an
object with `"or"`, a `"not"` that is no object and a whole leaf: into the `Or`
node over the leaf of the `"or"` array; on an object with `"not"` and a whole
leaf: into the `Not` node over the leaf under `"not"`; and on an object whose
`"and"` is no array, which fails although its `"or"` is an array. -/
theorem parseCondition_first_key_decides_witness :
    RuleParser.parseCondition (Json.object [("key", Json.string "level"),
        ("or", Json.object []), ("not", Json.number_unsigned 5),
        ("and", Json.array [leafJson "level" "==" (Json.number_unsigned 5)])])
      = Except.ok (ICondition.AndCondition
          [ICondition.ValueCondition "level" "==" (EventValue.int 5)]) ∧
    RuleParser.parseCondition (Json.object [("key", Json.string "level"),
        ("operator", Json.string ">"), ("value", Json.number_unsigned 5),
        ("not", Json.number_unsigned 5),
        ("or", Json.array [leafJson "level" "<" (Json.number_unsigned 7)])])
      = Except.ok (ICondition.OrCondition
          [ICondition.ValueCondition "level" "<" (EventValue.int 7)]) ∧
    RuleParser.parseCondition (Json.object [("key", Json.string "level"),
        ("operator", Json.string ">"), ("value", Json.number_unsigned 5),
        ("not", leafJson "level" "==" (Json.number_unsigned 5))])
      = Except.ok (ICondition.NotCondition
          (some (ICondition.ValueCondition "level" "==" (EventValue.int 5)))) ∧
    RuleParser.parseCondition (Json.object [("or", Json.array []),
        ("and", Json.object [])])
      = Except.error "AND condition must be an array." :=
  ⟨((parseCondition_first_key_decides
        [("key", Json.string "level"), ("or", Json.object []),
          ("not", Json.number_unsigned 5),
          ("and", Json.array [leafJson "level" "==" (Json.number_unsigned 5)])]
        (Json.array [leafJson "level" "==" (Json.number_unsigned 5)])).1 rfl).2.1
      [leafJson "level" "==" (Json.number_unsigned 5)]
      [ICondition.ValueCondition "level" "==" (EventValue.int 5)] rfl
      (List.Forall₂.cons rfl List.Forall₂.nil),
    ((parseCondition_first_key_decides
        [("key", Json.string "level"), ("operator", Json.string ">"),
          ("value", Json.number_unsigned 5), ("not", Json.number_unsigned 5),
          ("or", Json.array [leafJson "level" "<" (Json.number_unsigned 7)])]
        (Json.array [leafJson "level" "<" (Json.number_unsigned 7)])).2.1 rfl rfl).2.1
      [leafJson "level" "<" (Json.number_unsigned 7)]
      [ICondition.ValueCondition "level" "<" (EventValue.int 7)] rfl
      (List.Forall₂.cons rfl List.Forall₂.nil),
    ((parseCondition_first_key_decides
        [("key", Json.string "level"), ("operator", Json.string ">"),
          ("value", Json.number_unsigned 5),
          ("not", leafJson "level" "==" (Json.number_unsigned 5))]
        (leafJson "level" "==" (Json.number_unsigned 5))).2.2 rfl rfl rfl).2.1
      [("key", Json.string "level"), ("operator", Json.string "=="),
        ("value", Json.number_unsigned 5)]
      (ICondition.ValueCondition "level" "==" (EventValue.int 5)) rfl rfl,
    ((parseCondition_first_key_decides
        [("or", Json.array []), ("and", Json.object [])] (Json.object [])).1 rfl).1⟩

/-! ## Event queue of `RuleEngine` -/

/-- C36 (the code at the failing input): with the lock acquired, `try_pop` of
`RuleEngine` returns an empty result on every queue that holds an event and
leaves the queue as it is, so it never returns an event; on the empty queue it
goes on to `front()`, which has no defined result there.  The test of
`queue_.empty()` is the negation of the one in `tryPop` of `repe_engine`, which
returns the oldest event of the same contents. -/
theorem try_pop_reports_empty_on_nonempty_queue :
    RuleEngine.EventQueue.try_pop true ⟨[⟨"e1", "sensor", []⟩]⟩
        = Except.ok (none, ⟨[⟨"e1", "sensor", []⟩]⟩) ∧
      RuleEngine.EventQueue.is_empty ⟨[⟨"e1", "sensor", []⟩]⟩ = false ∧
      (∀ (data : RuleEngine.Event) (rest : List RuleEngine.Event),
        RuleEngine.EventQueue.try_pop true ⟨data :: rest⟩
          = Except.ok (none, ⟨data :: rest⟩)) ∧
      (∀ (q q1 : RuleEngine.EventQueue) (data : RuleEngine.Event),
        RuleEngine.EventQueue.try_pop true q ≠ Except.ok (some data, q1)) ∧
      RuleEngine.EventQueue.try_pop true ⟨[]⟩
        = Except.error "front() on an empty std::queue" ∧
      (EventQueue.mk [queueTestEvent]).tryPop = (some queueTestEvent, EventQueue.mk []) := by
  refine ⟨rfl, by decide, ?_, ?_, rfl, by decide⟩
  · intro data rest
    rfl
  · intro q q1 data h
    obtain ⟨contents⟩ := q
    cases contents with
    | nil => simp [RuleEngine.EventQueue.try_pop] at h
    | cons front rest => simp [RuleEngine.EventQueue.try_pop] at h
/-! ## Built-in actions -/

/-- After `registerAllDefaultActions` the three built-in names are bound to the
creators of their classes. -/
theorem lookup_registerAllDefaultActions
    (creators_ : List (String × ActionFactory.ActionCreator IActionCommand)) (k : String) :
    (registerAllDefaultActions creators_).lookup k
      = if k = "shell" then
          some (fun config => (ShellCommandAction.construct config).map IActionCommand.shell)
        else if k = "http" then
          some (fun config => (HttpAction.construct config).map IActionCommand.http)
        else if k = "log" then
          some (fun config => (LogAction.construct config).map IActionCommand.log)
        else creators_.lookup k := by
  simp only [registerAllDefaultActions, ActionFactory.lookup_registerAction]

/-- C32: after `registerAllDefaultActions`, whatever was registered before,
`createAction` on a configuration of type `log` returns a `LogAction` with the
configuration's message when `"message"` is a string and fails when it is
missing or not a string; on a configuration of type `http` it returns an
`HttpAction` with the url, the method and the payload template (the empty
object when there is none) when `"url"` and `"method"` are strings and fails
when one of them is missing or not a string; on a configuration of type
`shell` it returns a `ShellCommandAction` with the command when `"command"` is
a string and fails when it is missing or not a string. -/
theorem createAction_builds_default_actions
    (creators_ : List (String × ActionFactory.ActionCreator IActionCommand))
    (members : List (String × Json)) :
    (members.lookup "type" = some (Json.string "log") →
        (∀ message, members.lookup "message" = some (Json.string message) →
          ActionFactory.createAction (registerAllDefaultActions creators_) (Json.object members)
            = Except.ok (IActionCommand.log ⟨message⟩)) ∧
        ((∀ message, members.lookup "message" ≠ some (Json.string message)) →
          ActionFactory.createAction (registerAllDefaultActions creators_) (Json.object members)
            = Except.error "LogAction config must contain a 'message' string.")) ∧
      (members.lookup "type" = some (Json.string "http") →
        (∀ url method, members.lookup "url" = some (Json.string url) →
          members.lookup "method" = some (Json.string method) →
          ActionFactory.createAction (registerAllDefaultActions creators_) (Json.object members)
            = Except.ok (IActionCommand.http ⟨url, method,
                (members.lookup "payload").getD (Json.object [])⟩)) ∧
        ((∀ url, members.lookup "url" ≠ some (Json.string url)) ∨
            (∀ method, members.lookup "method" ≠ some (Json.string method)) →
          ActionFactory.createAction (registerAllDefaultActions creators_) (Json.object members)
            = Except.error "HttpAction config must contain 'url' and 'method' as strings.")) ∧
      (members.lookup "type" = some (Json.string "shell") →
        (∀ command, members.lookup "command" = some (Json.string command) →
          ActionFactory.createAction (registerAllDefaultActions creators_) (Json.object members)
            = Except.ok (IActionCommand.shell ⟨command⟩)) ∧
        ((∀ command, members.lookup "command" ≠ some (Json.string command)) →
          ActionFactory.createAction (registerAllDefaultActions creators_) (Json.object members)
            = Except.error "ShellCommandAction config must contain a 'command' string.")) := by
  refine ⟨?_, ?_, ?_⟩
  · intro htype
    have hcreate : ActionFactory.createAction (registerAllDefaultActions creators_)
        (Json.object members)
        = (LogAction.construct (Json.object members)).map IActionCommand.log := by
      simp [ActionFactory.createAction, htype, lookup_registerAllDefaultActions]
    rw [hcreate]
    refine ⟨?_, ?_⟩
    · intro message hmessage
      simp [LogAction.construct, hmessage, Except.map]
    · intro hno
      cases hm : members.lookup "message" with
      | none => simp [LogAction.construct, hm, Except.map]
      | some j =>
        cases j with
        | string message => exact absurd hm (hno message)
        | _ => simp [LogAction.construct, hm, Except.map]
  · intro htype
    have hcreate : ActionFactory.createAction (registerAllDefaultActions creators_)
        (Json.object members)
        = (HttpAction.construct (Json.object members)).map IActionCommand.http := by
      simp [ActionFactory.createAction, htype, lookup_registerAllDefaultActions]
    rw [hcreate]
    refine ⟨?_, ?_⟩
    · intro url method hurl hmethod
      cases hp : members.lookup "payload" <;>
        simp [HttpAction.construct, hurl, hmethod, hp, Except.map]
    · intro hno
      cases hu : members.lookup "url" with
      | none => simp [HttpAction.construct, hu, Except.map]
      | some ju =>
        cases hm : members.lookup "method" with
        | none => cases ju <;> simp [HttpAction.construct, hu, hm, Except.map]
        | some jm =>
          cases ju with
          | string url =>
            cases jm with
            | string method =>
              rcases hno with h | h
              · exact absurd hu (h url)
              · exact absurd hm (h method)
            | _ => simp [HttpAction.construct, hu, hm, Except.map]
          | _ => simp [HttpAction.construct, hu, hm, Except.map]
  · intro htype
    have hcreate : ActionFactory.createAction (registerAllDefaultActions creators_)
        (Json.object members)
        = (ShellCommandAction.construct (Json.object members)).map IActionCommand.shell := by
      simp [ActionFactory.createAction, htype, lookup_registerAllDefaultActions]
    rw [hcreate]
    refine ⟨?_, ?_⟩
    · intro command hcommand
      simp [ShellCommandAction.construct, hcommand, Except.map]
    · intro hno
      cases hm : members.lookup "command" with
      | none => simp [ShellCommandAction.construct, hm, Except.map]
      | some j =>
        cases j with
        | string command => exact absurd hm (hno command)
        | _ => simp [ShellCommandAction.construct, hm, Except.map]

/-- The statement of C32 on the configurations of the tests `CreateLogAction`,
`CreateHttpAction` and `CreateShellCommandAction`, and on a log configuration
whose message is a number. -/
theorem createAction_builds_default_actions_witness :
    ActionFactory.createAction (registerAllDefaultActions [])
        (Json.object [("type", Json.string "log"), ("message", Json.string "Test log message")])
      = Except.ok (IActionCommand.log ⟨"Test log message"⟩) ∧
    ActionFactory.createAction (registerAllDefaultActions [])
        (Json.object [("type", Json.string "http"), ("url", Json.string "http://test.com/api"),
          ("method", Json.string "GET")])
      = Except.ok (IActionCommand.http ⟨"http://test.com/api", "GET", Json.object []⟩) ∧
    ActionFactory.createAction (registerAllDefaultActions [])
        (Json.object [("type", Json.string "shell"), ("command", Json.string "ls -l")])
      = Except.ok (IActionCommand.shell ⟨"ls -l"⟩) ∧
    ActionFactory.createAction (registerAllDefaultActions [])
        (Json.object [("type", Json.string "log"), ("message", Json.number_unsigned 5)])
      = Except.error "LogAction config must contain a 'message' string." :=
  ⟨((createAction_builds_default_actions []
      [("type", Json.string "log"), ("message", Json.string "Test log message")]).1 rfl).1
      "Test log message" rfl,
    ((createAction_builds_default_actions []
      [("type", Json.string "http"), ("url", Json.string "http://test.com/api"),
        ("method", Json.string "GET")]).2.1 rfl).1 "http://test.com/api" "GET" rfl rfl,
    ((createAction_builds_default_actions []
      [("type", Json.string "shell"), ("command", Json.string "ls -l")]).2.2 rfl).1 "ls -l" rfl,
    ((createAction_builds_default_actions []
      [("type", Json.string "log"), ("message", Json.number_unsigned 5)]).1 rfl).2
      (fun _ h => Json.noConfusion (Option.some.inj h))⟩
/-- C31 (the code at the failing input): on the event of the test
`LogActionExecution`, of type `sensor_reading` and with the one data entry
`value = 123.45`, the action with the message
`Event: {event_type}, Value: {value}` writes
`[LOG ACTION] Event: [MISSING_event_type], Value: [Unsupported Type]`:
`event_type` is looked up in the event's data, which has no such key, and the
found value is turned into the fallback text.  On every event the two
placeholders become one of these tags each.  The line that the claim and the
test state is `[LOG ACTION] Event: sensor_reading, Value: 123.450000`. -/
theorem log_execute_writes_missing_type_and_unsupported_value :
    logExecutionEvent.type = "sensor_reading" ∧
      logExecutionEvent.find "event_type" = none ∧
      logExecutionEvent.find "value" = some (EventValue.double testValue) ∧
      (∀ double_to_string : Double → String,
        LogAction.execute double_to_string logExecutionAction logExecutionEvent
          = some "[LOG ACTION] Event: [MISSING_event_type], Value: [Unsupported Type]\n") ∧
      "[LOG ACTION] " ++ "Event: " ++ logExecutionEvent.type ++ ", Value: "
          ++ Spec.text sixDecimalsOfTestValue (EventValue.double testValue) ++ "\n"
        = "[LOG ACTION] Event: sensor_reading, Value: 123.450000\n" ∧
      ∀ (double_to_string : Double → String) (event : Event),
        LogAction.execute double_to_string logExecutionAction event
          = some ("[LOG ACTION] Event: "
              ++ (if (event.find "event_type").isSome then "[Unsupported Type]"
                  else "[MISSING_event_type]")
              ++ ", Value: "
              ++ (if (event.find "value").isSome then "[Unsupported Type]"
                  else "[MISSING_value]")
              ++ "\n") := by
  refine ⟨rfl, by decide, by decide, fun _ => rfl, by decide, ?_⟩
  intro double_to_string event
  cases h1 : event.find "event_type" <;> cases h2 : event.find "value" <;>
    simp [LogAction.execute, LogAction.formatMessage, logExecutionAction, placeholderFuel,
      placeholderLoop, stringFind, charIndex, stringSubstr, stringReplace, h1, h2,
      placeholderValueText_eq]
/-! ## Ids -/

/-- The character of a decimal digit lies that digit after the character `0`,
whose code is 48. -/
theorem digitChar_toNat_sub (n : Nat) (h : n < 10) : (Nat.digitChar n).toNat - 48 = n := by
  interval_cases n <;> rfl

/-- Reading a decimal text from the left, ten times the value so far plus the
next digit, gives the number back from the digits that `Nat.toDigitsCore`
writes in front of `ds`. -/
theorem foldl_toDigitsCore (fuel : Nat) :
    ∀ (n : Nat) (ds : List Char), n < fuel →
      (Nat.toDigitsCore 10 fuel n ds).foldl (fun acc c => 10 * acc + (c.toNat - 48)) 0
        = ds.foldl (fun acc c => 10 * acc + (c.toNat - 48)) n := by
  induction fuel with
  | zero => intro n ds h; omega
  | succ fuel ih =>
    intro n ds h
    simp only [Nat.toDigitsCore]
    by_cases h0 : n / 10 = 0
    · have hn : n < 10 := by omega
      simp only [h0, if_true, List.foldl_cons, Nat.mul_zero, Nat.zero_add]
      rw [Nat.mod_eq_of_lt hn, digitChar_toNat_sub n hn]
    · simp only [h0, if_false]
      rw [ih (n / 10) _ (by omega)]
      simp only [List.foldl_cons]
      rw [digitChar_toNat_sub (n % 10) (Nat.mod_lt n (by decide))]
      congr 1
      omega

/-- The decimal text of a natural number determines the number. -/
theorem nat_repr_injective (a b : Nat) (h : Nat.repr a = Nat.repr b) : a = b := by
  have hd : Nat.toDigits 10 a = Nat.toDigits 10 b := by
    have := congrArg String.data h
    simpa [Nat.repr, List.asString] using this
  have ha := foldl_toDigitsCore (a + 1) a [] (Nat.lt_succ_self a)
  have hb := foldl_toDigitsCore (b + 1) b [] (Nat.lt_succ_self b)
  simp only [List.foldl_nil] at ha hb
  simp only [Nat.toDigits] at hd
  rw [← ha, ← hb, hd]

/-- The decimal text of an integer, with its sign, determines the integer. -/
theorem int_toString_injective (a b : Int) (h : toString a = toString b) : a = b := by
  have hneg : ∀ (m n : Nat), toString (m : Nat) = "-" ++ toString (n : Nat) → False := by
    intro m n hmn
    have hd := congrArg String.data hmn
    have hfold := congrArg (List.foldl (fun acc c => 10 * acc + (c.toNat - 48)) 0) hd
    have hm := foldl_toDigitsCore (m + 1) m [] (Nat.lt_succ_self m)
    have hn := foldl_toDigitsCore (n + 1) n [] (Nat.lt_succ_self n)
    simp only [List.foldl_nil] at hm hn
    simp only [toString, Nat.repr, List.asString, Nat.toDigits, String.data_append] at hfold hd
    simp only [List.singleton_append, List.foldl_cons] at hfold
    have h45 : 10 * 0 + (('-' : Char).toNat - 48) = 0 := by decide
    rw [h45, hm, hn] at hfold
    subst hfold
    have hlen := congrArg List.length hd
    simp at hlen
  cases a with
  | ofNat m =>
    cases b with
    | ofNat n =>
      have : toString m = toString n := h
      rw [nat_repr_injective m n this]
    | negSucc n => exact (hneg m (n + 1) h).elim
  | negSucc m =>
    cases b with
    | ofNat n => exact (hneg n (m + 1) h.symm).elim
    | negSucc n =>
      have h1 : "-" ++ toString (m + 1) = "-" ++ toString (n + 1) := h
      have hd := congrArg String.data h1
      simp only [String.data_append, List.append_cancel_left_eq] at hd
      have h2 : Nat.repr (m + 1) = Nat.repr (n + 1) := String.ext hd
      have := nat_repr_injective _ _ h2
      have hmn : m = n := by omega
      rw [hmn]

/-- The ids of two counter values are equal only when the values are. -/
theorem generateUniqueId_injective (c1 c2 : Int)
    (h : (generateUniqueId c1).1 = (generateUniqueId c2).1) : c1 = c2 := by
  have hd := congrArg String.data h
  simp only [generateUniqueId, String.data_append, List.append_cancel_left_eq] at hd
  exact int_toString_injective c1 c2 (String.ext hd)

/-- After `n` calls the counter holds `n` as a `long long`. -/
theorem counterAfter_eq (n : Nat) : counterAfter n = toInt64 n := by
  induction n with
  | zero => rfl
  | succ n ih =>
    simp only [counterAfter, generateUniqueId, ih, toInt64]
    push_cast
    omega

/-- C35: `generateUniqueId` returns `evt_` followed by the decimal text of its
counter, and the counter is one more afterwards (as long as it stays below the
largest `long long`); every id is non-empty; the map from the counter value to
the id is injective; and two calls of one process run, fewer than `2^64` calls
apart, return different ids.  During the first `2^63` calls the id of call
number `n` is `evt_` followed by the decimal text of `n`. -/
theorem generateUniqueId_ids_distinct (i j : Nat) (hij : i < j) (hj : j < i + 2 ^ 64) :
    (∀ counter : Int, (generateUniqueId counter).1 = "evt_" ++ toString counter) ∧
      (∀ counter : Int, -2 ^ 63 ≤ counter → counter + 1 < 2 ^ 63 →
        (generateUniqueId counter).2 = counter + 1) ∧
      (∀ counter : Int, (generateUniqueId counter).1 ≠ "") ∧
      (∀ c1 c2 : Int, (generateUniqueId c1).1 = (generateUniqueId c2).1 → c1 = c2) ∧
      (∀ n : Nat, n < 2 ^ 63 → idOfCall n = "evt_" ++ toString n) ∧
      idOfCall i ≠ idOfCall j := by
  refine ⟨fun _ => rfl, ?_, generateUniqueId_ne_empty, generateUniqueId_injective, ?_, ?_⟩
  · intro counter hlo hhi
    simp only [generateUniqueId, toInt64]
    omega
  · intro n hn
    have hc : counterAfter n = (n : Int) := by
      rw [counterAfter_eq, toInt64]
      omega
    simp only [idOfCall, generateUniqueId, hc]
    rfl
  · intro h
    have hc := generateUniqueId_injective _ _ h
    rw [counterAfter_eq, counterAfter_eq, toInt64, toInt64] at hc
    omega

/-- The statement of C35 on the first two calls of a process run. -/
theorem generateUniqueId_ids_distinct_witness :
    idOfCall 0 = "evt_0" ∧ idOfCall 1 = "evt_1" ∧ idOfCall 0 ≠ idOfCall 1 :=
  ⟨(generateUniqueId_ids_distinct 0 1 (by decide) (by decide)).2.2.2.2.1 0 (by decide),
    (generateUniqueId_ids_distinct 0 1 (by decide) (by decide)).2.2.2.2.1 1 (by decide),
    (generateUniqueId_ids_distinct 0 1 (by decide) (by decide)).2.2.2.2.2⟩
/-! ## The placeholder loop -/

/-- The loop of the source is the loop with the source's visitor as conversion. -/
theorem placeholderLoop_eq_with (double_to_string : Double → String) (event : Event)
    (fuel : Nat) :
    ∀ (result : List Char) (start_pos : Nat),
      placeholderLoop double_to_string event fuel result start_pos
        = placeholderLoopWith (fun value => (placeholderValueText double_to_string value).data)
            event fuel result start_pos := by
  induction fuel with
  | zero => intro result start_pos; rfl
  | succ fuel ih =>
    intro result start_pos
    rw [placeholderLoop, placeholderLoopWith]
    simp only [ih]

/-- The first occurrence of a character that is not in `pre` and stands right
after `pre` is at the length of `pre`. -/
theorem charIndex_append (c : Char) (pre post : List Char) (hpre : c ∉ pre) :
    charIndex c (pre ++ c :: post) = some pre.length := by
  induction pre with
  | nil => simp [charIndex]
  | cons x xs ih =>
    have hx : x ≠ c := fun h => hpre (by simp [h])
    have hxs : c ∉ xs := fun h => hpre (by simp [h])
    simp [charIndex, hx, ih hxs]

/-- A character that does not occur has no first occurrence. -/
theorem charIndex_eq_none (c : Char) (l : List Char) (h : c ∉ l) : charIndex c l = none := by
  induction l with
  | nil => rfl
  | cons x xs ih =>
    have hx : x ≠ c := fun e => h (by simp [e])
    have hxs : c ∉ xs := fun e => h (by simp [e])
    simp [charIndex, hx, ih hxs]

/-- A text either lacks a character or splits at its first occurrence. -/
theorem mem_split_first (c : Char) (l : List Char) :
    c ∉ l ∨ ∃ pre post, l = pre ++ c :: post ∧ c ∉ pre := by
  induction l with
  | nil => exact Or.inl (by simp)
  | cons x xs ih =>
    by_cases hx : x = c
    · exact Or.inr ⟨[], xs, by simp [hx], by simp⟩
    · rcases ih with h | ⟨pre, post, hl, hpre⟩
      · exact Or.inl (by simp [h, Ne.symm hx])
      · exact Or.inr ⟨x :: pre, post, by simp [hl], by simp [hpre, Ne.symm hx]⟩

/-- The call `find` from `pos` returns `npos` when the character does not occur
from `pos` on. -/
theorem stringFind_eq_none (c : Char) (s : List Char) (pos : Nat) (h : c ∉ s.drop pos) :
    stringFind c s pos = none := by
  simp [stringFind, charIndex_eq_none c _ h]

/-- The call `find` from a position inside `pre` returns the length of `pre`
when the character stands right after `pre` and not in `pre` from the position
on. -/
theorem stringFind_append (c : Char) (pre post : List Char) (pos : Nat)
    (hpos : pos ≤ pre.length) (hpre : c ∉ pre.drop pos) :
    stringFind c (pre ++ c :: post) pos = some pre.length := by
  simp only [stringFind, List.drop_append_of_le_length hpos, charIndex_append c _ post hpre,
    Option.map_some', List.length_drop]
  congr 1
  omega

/-- The loop stops with the text as it is when no closing brace occurs from the
search position on. -/
theorem placeholderLoopWith_of_no_close (text : EventValue → List Char) (event : Event)
    (fuel : Nat) (result : List Char) (start_pos : Nat)
    (h : '\x7d' ∉ result.drop start_pos) :
    placeholderLoopWith text event (fuel + 1) result start_pos = some result := by
  rw [placeholderLoopWith]
  cases hopen : stringFind '\x7b' result start_pos with
  | none => rfl
  | some sp =>
    have hclose : stringFind '\x7d' result sp = none := by
      apply stringFind_eq_none
      simp only [stringFind, Option.map_eq_some'] at hopen
      obtain ⟨i, -, rfl⟩ := hopen
      intro hmem
      rw [← List.drop_drop] at hmem
      exact h (List.mem_of_mem_drop hmem)
    simp only [hclose]

/-- The loop stops with the text as it is when no opening brace occurs from the
search position on. -/
theorem placeholderLoopWith_of_no_open (text : EventValue → List Char) (event : Event)
    (fuel : Nat) (result : List Char) (start_pos : Nat)
    (h : '\x7b' ∉ result.drop start_pos) :
    placeholderLoopWith text event (fuel + 1) result start_pos = some result := by
  rw [placeholderLoopWith, stringFind_eq_none _ _ _ h]

/-- One round of the loop on a text split at the placeholder it finds: `pre`
has no opening brace from the search position on and `key` no closing brace.
The placeholder is replaced by the text of the found value, and the search
goes on right after that text; or by the tag of the missing key, and the
search goes on at the old position after the placeholder. -/
theorem placeholderLoopWith_step (text : EventValue → List Char) (event : Event)
    (fuel : Nat) (pre key post : List Char) (start_pos : Nat)
    (hpos : start_pos ≤ pre.length) (hpre : '\x7b' ∉ pre.drop start_pos)
    (hkey : '\x7d' ∉ key) :
    placeholderLoopWith text event (fuel + 1)
        (pre ++ '\x7b' :: (key ++ '\x7d' :: post)) start_pos
      = match event.find (String.mk key) with
        | some value =>
          placeholderLoopWith text event fuel
            (pre ++ text value ++ post)
            (pre.length + (text value).length)
        | none =>
          placeholderLoopWith text event fuel
            (pre ++ ("[MISSING_".data ++ key ++ "]".data) ++ post)
            (pre.length + key.length + 2) := by
  have hopen := stringFind_append '\x7b' pre (key ++ '\x7d' :: post) start_pos hpos hpre
  have hclose : stringFind '\x7d' (pre ++ '\x7b' :: (key ++ '\x7d' :: post)) pre.length
      = some (pre.length + key.length + 1) := by
    have h := stringFind_append '\x7d' (pre ++ '\x7b' :: key) post pre.length (by simp)
      (by simpa using hkey)
    simpa [Nat.add_assoc] using h
  have hsub : stringSubstr (pre ++ '\x7b' :: (key ++ '\x7d' :: post)) (pre.length + 1)
      (pre.length + key.length + 1 - pre.length - 1) = key := by
    have h1 : pre.length + key.length + 1 - pre.length - 1 = key.length := by omega
    have h2 : (pre ++ '\x7b' :: (key ++ '\x7d' :: post)).drop (pre.length + 1)
        = key ++ '\x7d' :: post := by
      rw [show pre ++ '\x7b' :: (key ++ '\x7d' :: post)
          = (pre ++ ['\x7b']) ++ (key ++ '\x7d' :: post) by simp]
      exact List.drop_left' (by simp)
    rw [stringSubstr, h1, h2, List.take_left]
  have hrep : ∀ str : List Char,
      stringReplace (pre ++ '\x7b' :: (key ++ '\x7d' :: post)) pre.length
        (pre.length + key.length + 1 - pre.length + 1) str = pre ++ str ++ post := by
    intro str
    have h2 : (pre ++ '\x7b' :: (key ++ '\x7d' :: post)).drop
        (pre.length + (pre.length + key.length + 1 - pre.length + 1)) = post := by
      rw [show pre ++ '\x7b' :: (key ++ '\x7d' :: post)
          = (pre ++ '\x7b' :: (key ++ ['\x7d'])) ++ post by simp]
      exact List.drop_left' (by simp; omega)
    rw [stringReplace, h2, List.take_left]
  rw [placeholderLoopWith]
  simp only [hopen, hclose]
  have hgt : pre.length + key.length + 1 > pre.length := by omega
  simp only [hgt, if_true, hsub, hrep]

/-- The loop stops with the text as it is when the opening brace it finds has
no closing brace after it. -/
theorem placeholderLoopWith_of_open_no_close (text : EventValue → List Char) (event : Event)
    (fuel : Nat) (pre rest : List Char) (start_pos : Nat)
    (hpos : start_pos ≤ pre.length) (hpre : '\x7b' ∉ pre.drop start_pos)
    (hrest : '\x7d' ∉ rest) :
    placeholderLoopWith text event (fuel + 1) (pre ++ '\x7b' :: rest) start_pos
      = some (pre ++ '\x7b' :: rest) := by
  have hopen := stringFind_append '\x7b' pre rest start_pos hpos hpre
  have hclose : stringFind '\x7d' (pre ++ '\x7b' :: rest) pre.length = none := by
    apply stringFind_eq_none
    simpa using hrest
  rw [placeholderLoopWith]
  simp only [hopen, hclose]

/-- The tag of a missing key has the opening braces of the key and no other. -/
theorem count_open_missing_tag (key : List Char) :
    ("[MISSING_".data ++ key ++ "]".data).count '\x7b' = key.count '\x7b' := by
  have h1 : "[MISSING_".data.count '\x7b' = 0 := by decide
  have h2 : "]".data.count '\x7b' = 0 := by decide
  simp only [List.count_append, h1, h2]
  omega

/-- The loop returns within as many rounds as there are opening braces from
the search position on, and one more evaluation of its condition: every round
takes the opening brace it starts at out of the text still to be searched, and
what a replacement puts into that text are at most the opening braces of the
key that it replaces. -/
theorem placeholderLoopWith_isSome (text : EventValue → List Char) (event : Event)
    (fuel : Nat) :
    ∀ (result : List Char) (start_pos : Nat),
      (result.drop start_pos).count '\x7b' < fuel →
      (placeholderLoopWith text event fuel result start_pos).isSome = true := by
  induction fuel with
  | zero => intro result start_pos h; omega
  | succ fuel ih =>
    intro result start_pos h
    rcases mem_split_first '\x7b' (result.drop start_pos) with hno | ⟨mid, rest, hsplit, hmid⟩
    · rw [placeholderLoopWith_of_no_open text event fuel result start_pos hno]
      rfl
    · have hlen : start_pos ≤ result.length := by
        by_contra hgt
        have : result.drop start_pos = [] := List.drop_eq_nil_of_le (by omega)
        rw [this] at hsplit
        simp at hsplit
      have hresult : result = (result.take start_pos ++ mid) ++ '\x7b' :: rest := by
        rw [List.append_assoc, ← hsplit, List.take_append_drop]
      have hprelen : start_pos ≤ (result.take start_pos ++ mid).length := by
        simp [List.length_take, Nat.min_eq_left hlen]
      have hpredrop : (result.take start_pos ++ mid).drop start_pos = mid :=
        List.drop_left' (by simp [List.length_take, Nat.min_eq_left hlen])
      rw [hsplit] at h
      rcases mem_split_first '\x7d' rest with hnoclose | ⟨key, post, hrest, hkey⟩
      · rw [hresult, placeholderLoopWith_of_open_no_close text event fuel _ rest start_pos
          hprelen (by rw [hpredrop]; exact hmid) hnoclose]
        rfl
      · subst hrest
        have hcount : key.count '\x7b' + post.count '\x7b' < fuel := by
          have h0 : mid.count '\x7b' = 0 := List.count_eq_zero.mpr hmid
          have hb : ('\x7d' == '\x7b') = false := by decide
          simp only [List.count_append, List.count_cons, h0, hb, beq_self_eq_true,
            if_true, Bool.false_eq_true, if_false] at h
          omega
        rw [hresult, placeholderLoopWith_step text event fuel _ key post start_pos hprelen
          (by rw [hpredrop]; exact hmid) hkey]
        cases event.find (String.mk key) with
        | some value =>
          apply ih
          rw [← List.length_append, List.drop_left]
          omega
        | none =>
          apply ih
          have hdrop : ((result.take start_pos ++ mid) ++ ("[MISSING_".data ++ key ++ "]".data)
              ++ post).drop ((result.take start_pos ++ mid).length + key.length + 2)
              = ("[MISSING_".data ++ key ++ "]".data).drop (key.length + 2) ++ post := by
            rw [List.append_assoc, Nat.add_assoc, List.drop_append,
              List.drop_append_of_le_length]
            have h9 : "[MISSING_".data.length = 9 := by decide
            have h1 : "]".data.length = 1 := by decide
            simp only [List.length_append, h9, h1]
            omega
          rw [hdrop, List.count_append]
          have hsub := List.Sublist.count_le
            (List.drop_sublist (key.length + 2) ("[MISSING_".data ++ key ++ "]".data)) '\x7b'
          rw [count_open_missing_tag] at hsub
          omega

/-- A result of the loop does not depend on the evaluations granted beyond
those it needs. -/
theorem placeholderLoopWith_mono (text : EventValue → List Char) (event : Event)
    (fuel : Nat) :
    ∀ (result : List Char) (start_pos : Nat) (out : List Char),
      placeholderLoopWith text event fuel result start_pos = some out →
      ∀ more, placeholderLoopWith text event (fuel + more) result start_pos = some out := by
  induction fuel with
  | zero => intro result start_pos out h; simp [placeholderLoopWith] at h
  | succ fuel ih =>
    intro result start_pos out h more
    rw [show fuel + 1 + more = (fuel + more) + 1 by omega, placeholderLoopWith]
    rw [placeholderLoopWith] at h
    cases hopen : stringFind '\x7b' result start_pos with
    | none => simpa [hopen] using h
    | some sp =>
      simp only [hopen] at h ⊢
      cases hclose : stringFind '\x7d' result sp with
      | none => simpa [hclose] using h
      | some ep =>
        simp only [hclose] at h ⊢
        by_cases hgt : ep > sp
        · simp only [hgt, if_true] at h ⊢
          cases hfind : event.find (String.mk (stringSubstr result (sp + 1) (ep - sp - 1))) with
          | some value =>
            simp only [hfind] at h ⊢
            exact ih _ _ _ h more
          | none =>
            simp only [hfind] at h ⊢
            exact ih _ _ _ h more
        · simpa [hgt] using h
/-- C38: for every template and every event the loop of `formatMessage` and of
`formatCommand` returns a text within the evaluations of its condition that
the number of opening braces of the template allows, and more evaluations give
the same text; and so does the loop with any conversion of the found value in
place of the visitor, among them one that gives the empty string.  The proof
covers keys that contain an opening brace and tags longer than the placeholder
they replace. -/
theorem formatMessage_terminates (double_to_string : Double → String) (template : String)
    (event : Event) :
    (LogAction.formatMessage double_to_string template event).isSome = true ∧
      (ShellCommandAction.formatCommand double_to_string template event).isSome = true ∧
      (∀ fuel, placeholderFuel template.data ≤ fuel →
        placeholderLoop double_to_string event fuel template.data 0
          = placeholderLoop double_to_string event (placeholderFuel template.data)
              template.data 0) ∧
      (∀ text : EventValue → List Char,
        (placeholderLoopWith text event (placeholderFuel template.data)
          template.data 0).isSome = true) := by
  have hsome : ∀ text : EventValue → List Char,
      (placeholderLoopWith text event (placeholderFuel template.data)
        template.data 0).isSome = true := by
    intro text
    apply placeholderLoopWith_isSome
    simp [placeholderFuel]
  refine ⟨?_, ?_, ?_, hsome⟩
  · simp only [LogAction.formatMessage, placeholderLoop_eq_with, Option.isSome_map']
    exact hsome _
  · simp only [ShellCommandAction.formatCommand, placeholderLoop_eq_with, Option.isSome_map']
    exact hsome _
  · intro fuel hfuel
    obtain ⟨out, hout⟩ := Option.isSome_iff_exists.mp
      (hsome (fun value => (placeholderValueText double_to_string value).data))
    obtain ⟨more, rfl⟩ := Nat.exists_eq_add_of_le hfuel
    rw [placeholderLoop_eq_with, placeholderLoop_eq_with, hout]
    exact placeholderLoopWith_mono _ event _ _ _ out hout more

/-- The statement of C38 on the template `{a{b} {c}`, whose first key holds an
opening brace and is missing from the event, on the template `{}` with the
empty key, and with a conversion that gives the empty string for the found
value. -/
theorem formatMessage_terminates_witness :
    (LogAction.formatMessage noDoubleText "\x7ba\x7bb\x7d \x7bc\x7d" emptyEvent).isSome = true ∧
      (ShellCommandAction.formatCommand noDoubleText "\x7b\x7d" emptyEvent).isSome = true ∧
      placeholderLoop noDoubleText emptyEvent 100 "\x7ba\x7bb\x7d \x7bc\x7d".data 0
        = placeholderLoop noDoubleText emptyEvent
            (placeholderFuel "\x7ba\x7bb\x7d \x7bc\x7d".data) "\x7ba\x7bb\x7d \x7bc\x7d".data 0 ∧
      (placeholderLoopWith (fun _ => []) valueFiveEvent
        (placeholderFuel "\x7bvalue\x7d\x7bvalue\x7d".data)
        "\x7bvalue\x7d\x7bvalue\x7d".data 0).isSome = true :=
  ⟨(formatMessage_terminates noDoubleText "\x7ba\x7bb\x7d \x7bc\x7d" emptyEvent).1,
    (formatMessage_terminates noDoubleText "\x7b\x7d" emptyEvent).2.1,
    (formatMessage_terminates noDoubleText "\x7ba\x7bb\x7d \x7bc\x7d" emptyEvent).2.2.1 100
      (by decide),
    (formatMessage_terminates noDoubleText "\x7bvalue\x7d\x7bvalue\x7d" valueFiveEvent).2.2.2
      (fun _ => [])⟩

/-! ## Payload of the HTTP action -/

/-- Changing every value of an association list changes what a lookup finds
in the same way. -/
theorem lookup_map_snd {β γ : Type} (f : β → γ) (members : List (String × β)) (k : String) :
    (members.map (fun member => (member.1, f member.2))).lookup k
      = (members.lookup k).map f := by
  induction members with
  | nil => rfl
  | cons kv rest ih =>
    obtain ⟨k1, v1⟩ := kv
    simp only [List.map_cons, lookup_cons_eq, ih]
    by_cases h : k = k1 <;> simp [h]

/-- C37 (the code at the failing input): on an event without data the payload
member `Temp: {temperature}C` becomes `[MISSING_temperature]`, the text around
the placeholder being dropped, and the member `{a} and {b}` becomes
`[MISSING_a]`, the second placeholder being dropped with the text, while the
substitution of `LogAction` in these strings replaces each placeholder in
place: it gives `Temp: [MISSING_temperature]C` and
`[MISSING_a] and [MISSING_b]`. -/
theorem http_payload_field_drops_surrounding_text :
    emptyEvent.find "temperature" = none ∧
      HttpAction.execute ⟨"http://localhost:8080/alerts", "POST",
          Json.object [("msg", Json.string "Temp: \x7btemperature\x7dC"),
            ("pair", Json.string "\x7ba\x7d and \x7bb\x7d")]⟩ emptyEvent
        = Json.object [("msg", Json.string "[MISSING_temperature]"),
            ("pair", Json.string "[MISSING_a]")] ∧
      LogAction.formatMessage noDoubleText "Temp: \x7btemperature\x7dC" emptyEvent
        = some "Temp: [MISSING_temperature]C" ∧
      LogAction.formatMessage noDoubleText "\x7ba\x7d and \x7bb\x7d" emptyEvent
        = some "[MISSING_a] and [MISSING_b]" :=
  ⟨by decide, rfl, by decide, by decide⟩

/-- The tag of a missing key has no closing brace when the key has none. -/
theorem not_mem_close_missing_tag (key : List Char) (hkey : '\x7d' ∉ key) :
    '\x7d' ∉ "[MISSING_".data ++ key ++ "]".data := by
  have h1 : '\x7d' ∉ "[MISSING_".data := by decide
  have h2 : '\x7d' ∉ "]".data := by decide
  simp only [List.mem_append, not_or]
  exact ⟨⟨h1, hkey⟩, h2⟩

/-- What `HttpAction::execute` makes of a string member of an object payload.
When the first opening brace of the string comes before its first closing
brace, the text between them is the key and the member is assigned as a whole:
the event's value for the key as a JSON value, or the tag of the missing key.
A string without an opening brace, without a closing brace, or whose first
closing brace comes before every opening brace is left as it is.  On a string
without an opening brace, and on a string that is exactly one placeholder
whose key is absent, `formatMessage` returns the same text. -/
theorem HttpAction.execute_string_member (double_to_string : Double → String) (action : HttpAction)
    (event : Event) (members : List (String × Json)) (k s : String)
    (hpayload : action.payload_template_ = Json.object members)
    (hfield : members.lookup k = some (Json.string s)) :
    HttpAction.execute action event
        = Json.object
            (members.map (fun member => (member.1, HttpAction.payloadField event member.2))) ∧
      (members.map (fun member => (member.1, HttpAction.payloadField event member.2))).lookup k
        = some (HttpAction.payloadField event (Json.string s)) ∧
      (∀ pre key post, s.data = pre ++ '\x7b' :: (key ++ '\x7d' :: post) →
        '\x7b' ∉ pre → '\x7d' ∉ pre → '\x7d' ∉ key →
        HttpAction.payloadField event (Json.string s)
          = match event.find (String.mk key) with
            | some found => eventValueJson found
            | none => Json.string (String.mk ("[MISSING_".data ++ key ++ "]".data))) ∧
      ('\x7b' ∉ s.data →
        HttpAction.payloadField event (Json.string s) = Json.string s ∧
          LogAction.formatMessage double_to_string s event = some s) ∧
      ('\x7d' ∉ s.data → HttpAction.payloadField event (Json.string s) = Json.string s) ∧
      (∀ pre post, s.data = pre ++ '\x7d' :: post → '\x7b' ∉ pre → '\x7d' ∉ pre →
        HttpAction.payloadField event (Json.string s) = Json.string s) ∧
      (∀ key, s.data = '\x7b' :: (key ++ ['\x7d']) → '\x7d' ∉ key →
        event.find (String.mk key) = none →
        HttpAction.payloadField event (Json.string s)
            = Json.string (String.mk ("[MISSING_".data ++ key ++ "]".data)) ∧
          LogAction.formatMessage double_to_string s event
            = some (String.mk ("[MISSING_".data ++ key ++ "]".data))) := by
  have hreplaced : ∀ pre key post, s.data = pre ++ '\x7b' :: (key ++ '\x7d' :: post) →
      '\x7b' ∉ pre → '\x7d' ∉ pre → '\x7d' ∉ key →
      HttpAction.payloadField event (Json.string s)
        = match event.find (String.mk key) with
          | some found => eventValueJson found
          | none => Json.string (String.mk ("[MISSING_".data ++ key ++ "]".data)) := by
    intro pre key post hs hpre1 hpre2 hkey
    have hopen : stringFind '\x7b' s.data 0 = some pre.length := by
      rw [hs]
      exact stringFind_append '\x7b' pre _ 0 (Nat.zero_le _) (by simpa using hpre1)
    have hclose : stringFind '\x7d' s.data 0 = some (pre.length + key.length + 1) := by
      rw [hs]
      have h := stringFind_append '\x7d' (pre ++ '\x7b' :: key) post 0 (Nat.zero_le _)
        (by simp [hpre2, hkey])
      simpa [Nat.add_assoc] using h
    have hsub : stringSubstr s.data (pre.length + 1)
        (pre.length + key.length + 1 - pre.length - 1) = key := by
      have h1 : pre.length + key.length + 1 - pre.length - 1 = key.length := by omega
      have h2 : (pre ++ '\x7b' :: (key ++ '\x7d' :: post)).drop (pre.length + 1)
          = key ++ '\x7d' :: post := by
        rw [show pre ++ '\x7b' :: (key ++ '\x7d' :: post)
            = (pre ++ ['\x7b']) ++ (key ++ '\x7d' :: post) by simp]
        exact List.drop_left' (by simp)
      rw [hs, stringSubstr, h1, h2, List.take_left]
    have hgt : pre.length + key.length + 1 > pre.length := by omega
    simp only [HttpAction.payloadField, hopen, hclose, hgt, if_true, hsub]
  refine ⟨?_, ?_, hreplaced, ?_, ?_, ?_, ?_⟩
  · simp only [HttpAction.execute, hpayload]
  · rw [lookup_map_snd, hfield]
    rfl
  · intro hno
    refine ⟨?_, ?_⟩
    · simp only [HttpAction.payloadField, stringFind_eq_none '\x7b' s.data 0 (by simpa using hno)]
    · simp only [LogAction.formatMessage, placeholderFuel, placeholderLoop_eq_with]
      rw [placeholderLoopWith_of_no_open _ event _ s.data 0 (by simpa using hno)]
      rfl
  · intro hno
    simp only [HttpAction.payloadField, stringFind_eq_none '\x7d' s.data 0 (by simpa using hno)]
    cases stringFind '\x7b' s.data 0 <;> rfl
  · intro pre post hs hpre1 hpre2
    have hclose : stringFind '\x7d' s.data 0 = some pre.length := by
      rw [hs]
      exact stringFind_append '\x7d' pre _ 0 (Nat.zero_le _) (by simpa using hpre2)
    rcases mem_split_first '\x7b' post with hno | ⟨mid, rest, hpost, hmid⟩
    · have hopen : stringFind '\x7b' s.data 0 = none := by
        apply stringFind_eq_none
        rw [hs]
        have hne : ('\x7b' : Char) ≠ '\x7d' := by decide
        simp [hpre1, hno, hne]
      simp only [HttpAction.payloadField, hopen, hclose]
    · have hopen : stringFind '\x7b' s.data 0 = some (pre.length + mid.length + 1) := by
        rw [hs, hpost]
        have hne : ('\x7b' : Char) ≠ '\x7d' := by decide
        have h := stringFind_append '\x7b' (pre ++ '\x7d' :: mid) rest 0 (Nat.zero_le _)
          (by simp [hpre1, hmid, hne])
        simpa [Nat.add_assoc] using h
      have hle : ¬ (pre.length > pre.length + mid.length + 1) := by omega
      simp only [HttpAction.payloadField, hopen, hclose, hle, if_false]
  · intro key hs hkey hfind
    refine ⟨?_, ?_⟩
    · have h := hreplaced [] key [] (by simpa using hs) (by simp) (by simp) hkey
      rw [h, hfind]
    · have hcount : placeholderFuel s.data = (key.count '\x7b' + 1) + 1 := by
        have hb : ('\x7d' == '\x7b') = false := by decide
        simp [placeholderFuel, hs, List.count_cons, List.count_append, hb]
      simp only [LogAction.formatMessage, placeholderLoop_eq_with, hcount]
      have hs1 : s.data = [] ++ '\x7b' :: (key ++ '\x7d' :: []) := by simpa using hs
      rw [hs1, placeholderLoopWith_step _ event _ [] key [] 0 (Nat.zero_le _) (by simp) hkey]
      simp only [hfind]
      rw [placeholderLoopWith_of_no_close _ event _ _ _
        (fun hmem => not_mem_close_missing_tag key hkey (by
          have := List.mem_of_mem_drop hmem
          simpa using this))]
      simp

end Repe
